import Mathlib

/-! University Admission Procedure: the enrolment engine of `uap.go`

A shallow embedding of `task/uap.go` and theorems about it.

Modelling conventions.

* Go `float64` grades are values of a type `F` with the operations of the class
  `Float64`: the zero value (what a map lookup yields for a missing key), the
  comparisons `==` and `>` and the test for NaN. `strconv.ParseFloat` accepts `NaN`, so
  no law is assumed of the comparisons in the model of the program; a statement that
  needs the order of `float64` assumes the laws of `LawfulFloat64` and says which scores
  must not be NaN. The laws take `==` on values that are not NaN for equality, which
  identifies `-0` and `+0`. The score calculator is generic in `+`, `/` and `max`, so
  theorems about it do not depend on how they round.
* Go `int` is `Int`: the only subtraction of the program, `capacity - len(roster)`, is
  taken when `0 <= len(roster) < capacity` and cannot overflow. Slices are `List`; a Go
  map is an association list with distinct keys (`GoMap`); the maps of the program come
  from literals and `make`, so a nil map is not modelled. Allocation limits are not
  modelled.
* Library behaviour that Go leaves open is a parameter carrying its contract:
  `SliceSorter` stands for `sort.Slice` (some rearrangement; a sorted one, `Sorts`, when
  the comparison is a strict weak order on the elements of the slice) and `MapOrder` for
  the order in which `range` enumerates a map (any order). What `sort.Slice` does when
  the comparison is no strict weak order is read off its code: `insertionSorter` is the
  insertion sort it runs on a slice of at most 12 elements and `pdqSorter` its run on a
  slice of at most 13, both as of Go 1.19. `strconv.ParseFloat` and the verb `%.2f` are
  function parameters.
* `log.Fatal` and run-time panics are the two constructors of `Abort`.
-/

namespace UAP

/-! ## Go maps -/

/-- A Go map: an association list, keys pairwise distinct, kept in insertion order. -/
abbrev GoMap (κ ν : Type) := List (κ × ν)

/-- The lookup `v, ok := m[k]`. -/
def GoMap.get? {κ ν : Type} [DecidableEq κ] : GoMap κ ν → κ → Option ν
  | [], _ => none
  | (k', v) :: rest, k => if k' = k then some v else GoMap.get? rest k

/-- The assignment `m[k] = v`: replaces the value of an existing key, else adds the key. -/
def GoMap.set {κ ν : Type} [DecidableEq κ] : GoMap κ ν → κ → ν → GoMap κ ν
  | [], k, v => [(k, v)]
  | (k', v') :: rest, k, v =>
    if k' = k then (k, v) :: rest else (k', v') :: GoMap.set rest k v

/-- The builtin `delete(m, k)`. -/
def GoMap.delete {κ ν : Type} [DecidableEq κ] (m : GoMap κ ν) (k : κ) : GoMap κ ν :=
  m.filter (fun e => decide (e.1 ≠ k))

/-- The order in which one `range` loop enumerates the entries of a map: Go
leaves it open, so it is any rearrangement of the entries. -/
structure MapOrder (α : Type) where
  enum : List α → List α
  enum_perm : ∀ l, (enum l).Perm l

/-- The enumeration that follows the insertion order. -/
def MapOrder.insertion (α : Type) : MapOrder α := ⟨id, fun l => List.Perm.refl l⟩

/-- The enumeration that runs against the insertion order. -/
def MapOrder.reversed (α : Type) : MapOrder α := ⟨List.reverse, fun l => List.reverse_perm l⟩

/-! ## `float64` -/

/-- The part of Go's `float64` that the program ranks by: the zero value, the
comparisons `==` and `>`, and the test for NaN. -/
class Float64 (F : Type) where
  zero : F
  eq : F → F → Bool
  gt : F → F → Bool
  isNaN : F → Bool

/-- The laws of the comparisons of `float64`: both are false when an operand is NaN; on
the other values `==` is equality and `>` is a strict total order. -/
class LawfulFloat64 (F : Type) [Float64 F] : Prop where
  eq_of_nan : ∀ a b : F, Float64.isNaN a = true ∨ Float64.isNaN b = true →
    Float64.eq a b = false
  gt_of_nan : ∀ a b : F, Float64.isNaN a = true ∨ Float64.isNaN b = true →
    Float64.gt a b = false
  eq_iff : ∀ a b : F, Float64.isNaN a = false → Float64.isNaN b = false →
    (Float64.eq a b = true ↔ a = b)
  gt_irrefl : ∀ a : F, Float64.gt a a = false
  gt_trans : ∀ a b c : F, Float64.gt a b = true → Float64.gt b c = true →
    Float64.gt a c = true
  gt_total : ∀ a b : F, Float64.isNaN a = false → Float64.isNaN b = false → a ≠ b →
    Float64.gt a b = true ∨ Float64.gt b a = true

/-! ## `sort.Slice` -/

/-- A comparison `less` that `sort.Slice` can sort the slice `l` by: a strict weak order
on the elements of `l`. -/
structure StrictWeakOn {α : Type} (less : α → α → Bool) (l : List α) : Prop where
  irrefl : ∀ a ∈ l, less a a = false
  trans : ∀ a ∈ l, ∀ b ∈ l, ∀ c ∈ l, less a b = true → less b c = true → less a c = true
  incomp_trans : ∀ a ∈ l, ∀ b ∈ l, ∀ c ∈ l, less a b = false → less b c = false →
    less a c = false

/-- The library routine `sort.Slice`: whatever `less` is, it rearranges the slice. -/
structure SliceSorter (α : Type) where
  sort : (α → α → Bool) → List α → List α
  sort_perm : ∀ less l, (sort less l).Perm l

/-- The contract of `sort.Slice` for a comparison that is a strict weak order on the
elements of the slice: in the result no element is followed by one that is `less` than
it. The relative order of elements that tie is left open. -/
def SliceSorter.Sorts {α : Type} (srt : SliceSorter α) : Prop :=
  ∀ less l, StrictWeakOn less l → (srt.sort less l).Pairwise (fun a b => less b a = false)

/-- One round of the outer loop of `insertionSort_func`: the element `x` moves left past
every element that it is `less` than; `sorted` is the part already handled, last element
first. -/
def goInsert {α : Type} (less : α → α → Bool) (x : α) : List α → List α
  | [] => [x]
  | y :: sorted => if less x y then y :: goInsert less x sorted else x :: y :: sorted

/-- The routine `insertionSort_func` of package `sort` on a whole slice, which is what
`sort.Slice` runs on a slice of at most 12 elements (from Go 1.19 on; before, on at most 6):
`for i := a + 1; i < b; i++ { for j := i; j > a && less(j, j-1); j-- { swap(j, j-1) } }`. -/
def insertionSort_func {α : Type} (less : α → α → Bool) (l : List α) : List α :=
  (l.foldl (fun sorted x => goInsert less x sorted) []).reverse

/-! ## Failure -/

/-- The two ways the program stops early. -/
inductive Abort where
  | fatal (msg : String)
  | crash (msg : String)
deriving DecidableEq

/-! ## Student -/

abbrev DepartmentName := String

abbrev FullName := String

/-- The record `Student`. -/
structure Student (F : Type) where
  FirstName : String
  LastName : String
  DptsGrades : GoMap DepartmentName F
  DptsByPriority : GoMap Int DepartmentName
deriving DecidableEq

variable {F : Type}

/-- The method `FullName`: `fmt.Sprintf("%s %s", FirstName, LastName)`. -/
def Student.FullName (student : Student F) : FullName :=
  student.FirstName ++ " " ++ student.LastName

/-- The expression `student.DptsGrades[department]`; a missing key reads as zero. -/
def Student.grade [Float64 F] (student : Student F) (department : DepartmentName) : F :=
  (GoMap.get? student.DptsGrades department).getD Float64.zero

/-- The expression `student.DptsByPriority[priority]`; a missing key reads as `""`. -/
def Student.dptAt (student : Student F) (priority : Int) : DepartmentName :=
  (GoMap.get? student.DptsByPriority priority).getD ""

def DepartmentMathematics : DepartmentName := "Mathematics"

def DepartmentPhysics : DepartmentName := "Physics"

def DepartmentBiotech : DepartmentName := "Biotech"

def DepartmentChemistry : DepartmentName := "Chemistry"

def DepartmentEngineering : DepartmentName := "Engineering"

/-- The function `ParseFloat64OrFail` over the library parser `strconv.ParseFloat`. -/
def ParseFloat64OrFail (parseFloat : String → Except String F) (s : String) : Except Abort F :=
  match parseFloat s with
  | .ok result => .ok result
  | .error err => .error (.fatal err)

/-- The call `strings.Split(s, " ")`: the pieces of `s` between single spaces. -/
def stringsSplit (s : String) : List String :=
  (s.toList.splitOn ' ').map String.mk

/-- The indexing `studentData[i]`, which panics out of range. -/
def indexOrCrash (studentData : List String) (i : Nat) : Except Abort String :=
  match studentData.get? i with
  | some x => .ok x
  | none => .error (.crash "index out of range")

/-- The function `ParseStudentFromString`. -/
def ParseStudentFromString [Max F] [Add F] [Div F] [OfNat F 2]
    (parseFloat : String → Except String F) (s : String) : Except Abort (Student F) := do
  let studentData := stringsSplit s
  let firstName ← indexOrCrash studentData 0
  let lastName ← indexOrCrash studentData 1
  let gradePhysics ← ParseFloat64OrFail parseFloat (← indexOrCrash studentData 2)
  let gradeChemistry ← ParseFloat64OrFail parseFloat (← indexOrCrash studentData 3)
  let gradeMath ← ParseFloat64OrFail parseFloat (← indexOrCrash studentData 4)
  let gradeCS ← ParseFloat64OrFail parseFloat (← indexOrCrash studentData 5)
  let gradeAdmission ← ParseFloat64OrFail parseFloat (← indexOrCrash studentData 6)
  let firstPriorityDpt ← indexOrCrash studentData 7
  let secondPriorityDpt ← indexOrCrash studentData 8
  let thirdPriorityDpt ← indexOrCrash studentData 9
  return {
    FirstName := firstName
    LastName := lastName
    DptsGrades := [
      (DepartmentPhysics, max ((gradePhysics + gradeMath) / 2) gradeAdmission),
      (DepartmentChemistry, max gradeChemistry gradeAdmission),
      (DepartmentMathematics, max gradeMath gradeAdmission),
      (DepartmentEngineering, max ((gradeCS + gradeMath) / 2) gradeAdmission),
      (DepartmentBiotech, max ((gradeChemistry + gradePhysics) / 2) gradeAdmission)]
    DptsByPriority := [(1, firstPriorityDpt), (2, secondPriorityDpt), (3, thirdPriorityDpt)] }

/-- The operator `<` of Go on strings: the lexicographic order of the byte sequences,
which for UTF-8 text is the lexicographic order of the character sequences. -/
def stringLess (s t : String) : Bool :=
  decide (s.toList < t.toList)

/-- The comparison closure that `SortStudentsByDptGrade` hands to `sort.Slice`, with the
`==` and `>` of `float64`. -/
def lessByDptGrade [Float64 F] (department : DepartmentName)
    (student1 student2 : Student F) : Bool :=
  if Float64.eq (student1.grade department) (student2.grade department) then
    stringLess student1.FullName student2.FullName
  else
    Float64.gt (student1.grade department) (student2.grade department)

/-- The function `SortStudentsByDptGrade`. -/
def SortStudentsByDptGrade [Float64 F] (srt : SliceSorter (Student F))
    (students : List (Student F)) (department : DepartmentName) : List (Student F) :=
  srt.sort (lessByDptGrade department) students

/-- The function `GetMapOfStudentsFromSlice`. -/
def GetMapOfStudentsFromSlice (students : List (Student F)) : GoMap FullName (Student F) :=
  students.foldl (fun studentsMap student => GoMap.set studentsMap student.FullName student) []

/-- The function `GetSliceOfStudentsFromMap`, enumerating the map in the order `ord`. -/
def GetSliceOfStudentsFromMap (ord : MapOrder (FullName × Student F))
    (studentsMap : GoMap FullName (Student F)) : List (Student F) :=
  (ord.enum studentsMap).map Prod.snd

/-- The function `GetStudentsByDepartment`. -/
def GetStudentsByDepartment [Float64 F] (srt : SliceSorter (Student F))
    (students : List (Student F)) (department : DepartmentName) (priority : Int) :
    List (Student F) :=
  SortStudentsByDptGrade srt
    (students.filter (fun student => decide (student.dptAt priority = department))) department

/-! ## Department -/

/-- The record `DepartmentsEnrolment`. -/
structure DepartmentsEnrolment (F : Type) where
  DepartmentsCapacity : Int
  DepartmentsStudents : GoMap DepartmentName (List (Student F))
  AllStudents : List (Student F)
deriving DecidableEq

/-- The expression `de.DepartmentsStudents[department]`; a missing key reads as the nil slice. -/
def DepartmentsEnrolment.roster (de : DepartmentsEnrolment F) (department : DepartmentName) :
    List (Student F) :=
  (GoMap.get? de.DepartmentsStudents department).getD []

/-- The function `CreateDepartmentsEnrolment`; `make` panics on a negative capacity. -/
def CreateDepartmentsEnrolment (departmentCapacity : Int) (allStudents : List (Student F)) :
    Except Abort (DepartmentsEnrolment F) :=
  if departmentCapacity < 0 then .error (.crash "makeslice: cap out of range")
  else .ok {
    AllStudents := allStudents
    DepartmentsCapacity := departmentCapacity
    DepartmentsStudents := [
      (DepartmentMathematics, []),
      (DepartmentPhysics, []),
      (DepartmentBiotech, []),
      (DepartmentChemistry, []),
      (DepartmentEngineering, [])] }

/-- The method `GatherSuccessfulApplicantsForDepartment`; `ord` is the map order met. -/
def GatherSuccessfulApplicantsForDepartment [Float64 F]
    (srt : SliceSorter (Student F)) (ord : MapOrder (FullName × Student F))
    (department : DepartmentName) (priority : Int) (de : DepartmentsEnrolment F) :
    DepartmentsEnrolment F :=
  let currentDptStudentsAmt : Int := (de.roster department).length
  if currentDptStudentsAmt ≥ de.DepartmentsCapacity then de
  else
    let studentsByPrioritizedDpt := GetStudentsByDepartment srt de.AllStudents department priority
    if (studentsByPrioritizedDpt.length : Int) ≤ 0 then de
    else
      let acceptableStudentsAmt : Int := de.DepartmentsCapacity - currentDptStudentsAmt
      let topStudents :=
        if acceptableStudentsAmt > (studentsByPrioritizedDpt.length : Int) then
          studentsByPrioritizedDpt
        else
          studentsByPrioritizedDpt.take acceptableStudentsAmt.toNat
      if (topStudents.length : Int) ≤ 0 then de
      else
        let studentsMap := GetMapOfStudentsFromSlice de.AllStudents
        { de with
          DepartmentsStudents :=
            GoMap.set de.DepartmentsStudents department (de.roster department ++ topStudents)
          AllStudents :=
            GetSliceOfStudentsFromMap ord
              (topStudents.foldl (fun m student => GoMap.delete m student.FullName) studentsMap) }

/-- The array `dptsNames` of `ProceedEnrolmentWave`. -/
def dptsNames : List DepartmentName :=
  [DepartmentMathematics, DepartmentEngineering, DepartmentPhysics, DepartmentBiotech,
    DepartmentChemistry]

/-- The method `ProceedEnrolmentWave`; `ord dpt` is the map order met in the step of `dpt`. -/
def ProceedEnrolmentWave [Float64 F] (srt : SliceSorter (Student F))
    (ord : DepartmentName → MapOrder (FullName × Student F)) (priority : Int)
    (de : DepartmentsEnrolment F) : DepartmentsEnrolment F :=
  dptsNames.foldl
    (fun de dpt => GatherSuccessfulApplicantsForDepartment srt (ord dpt) dpt priority de) de

/-- The method `ProceedEnrolment`: waves `1, ..., wavesAmount`; `ord i dpt` is the map
order met in wave `i` at department `dpt`. -/
def ProceedEnrolment [Float64 F] (srt : SliceSorter (Student F))
    (ord : Int → DepartmentName → MapOrder (FullName × Student F)) (wavesAmount : Int)
    (de : DepartmentsEnrolment F) : DepartmentsEnrolment F :=
  (List.range wavesAmount.toNat).foldl
    (fun de (k : Nat) => ProceedEnrolmentWave srt (ord ((k : Int) + 1)) ((k : Int) + 1) de) de

/-- The predicate `unicode.IsSpace`. -/
def unicodeIsSpace (c : Char) : Bool :=
  decide (c.toNat ∈ [0x09, 0x0A, 0x0B, 0x0C, 0x0D, 0x20, 0x85, 0xA0, 0x1680, 0x2028, 0x2029,
    0x202F, 0x205F, 0x3000]) || (decide (0x2000 ≤ c.toNat) && decide (c.toNat ≤ 0x200A))

/-- The call `strings.TrimSpace`. -/
def stringsTrimSpace (s : String) : String :=
  String.mk ((s.toList.dropWhile unicodeIsSpace).reverse.dropWhile unicodeIsSpace).reverse

/-- The method `GetDptStudentsLines`, with `fmt2` for the verb `%.2f`. It returns the text
and the state it leaves: the sort works on the backing array of the stored roster. An
unknown name gives the nil slice, which the sort leaves alone, and then the fatal error. -/
def GetDptStudentsLines [Float64 F] (srt : SliceSorter (Student F))
    (fmt2 : F → String) (dptName : DepartmentName) (de : DepartmentsEnrolment F) :
    Except Abort (String × DepartmentsEnrolment F) :=
  match GoMap.get? de.DepartmentsStudents dptName with
  | none => .error (.fatal "Unknown department name")
  | some stored =>
    let dptStudents := SortStudentsByDptGrade srt stored dptName
    let result := dptStudents.foldl
      (fun result student =>
        result ++ "\n" ++ student.FullName ++ " " ++ fmt2 (student.grade dptName)) ""
    .ok (stringsTrimSpace result,
      { de with DepartmentsStudents := GoMap.set de.DepartmentsStudents dptName dptStudents })

/-! ## Auxiliary definitions for the statements -/

/-- The applicants a step admits: the slice `topStudents`, or nobody when the step
returns early. -/
def admittedBy [Float64 F] (srt : SliceSorter (Student F))
    (department : DepartmentName) (priority : Int) (de : DepartmentsEnrolment F) :
    List (Student F) :=
  if ((de.roster department).length : Int) ≥ de.DepartmentsCapacity then []
  else
    (GetStudentsByDepartment srt de.AllStudents department priority).take
      (de.DepartmentsCapacity - ((de.roster department).length : Int)).toNat

/-- The pool a step leaves when it admits `top`. -/
def poolAfter (ord : MapOrder (FullName × Student F)) (top : List (Student F))
    (pool : List (Student F)) : List (Student F) :=
  GetSliceOfStudentsFromMap ord
    (top.foldl (fun m student => GoMap.delete m student.FullName)
      (GetMapOfStudentsFromSlice pool))

/-- The steps of `ProceedEnrolment wavesAmount` in the order they run: wave by wave, and
within a wave the departments in the order of `dptsNames`. -/
def enrolmentSteps (wavesAmount : Int) : List (Int × DepartmentName) :=
  (List.range wavesAmount.toNat).flatMap
    (fun (k : Nat) => dptsNames.map (fun dpt => ((k : Int) + 1, dpt)))

/-- The state after running the given steps one after another. -/
def runSteps [Float64 F] (srt : SliceSorter (Student F))
    (ord : Int → DepartmentName → MapOrder (FullName × Student F))
    (steps : List (Int × DepartmentName)) (de : DepartmentsEnrolment F) :
    DepartmentsEnrolment F :=
  steps.foldl
    (fun de st => GatherSuccessfulApplicantsForDepartment srt (ord st.1 st.2) st.2 st.1 de) de

/-- The state `ProceedEnrolment wavesAmount` is in after its first `k` steps. -/
def stateAfter [Float64 F] (srt : SliceSorter (Student F))
    (ord : Int → DepartmentName → MapOrder (FullName × Student F)) (wavesAmount : Int)
    (k : Nat) (de : DepartmentsEnrolment F) : DepartmentsEnrolment F :=
  runSteps srt ord ((enrolmentSteps wavesAmount).take k) de

/-- The pool followed by the five rosters, in the order the waves visit the departments. -/
def DepartmentsEnrolment.everyone (de : DepartmentsEnrolment F) : List (Student F) :=
  de.AllStudents ++ de.roster "Mathematics" ++ de.roster "Engineering" ++ de.roster "Physics" ++
    de.roster "Biotech" ++ de.roster "Chemistry"

/-- Two states that differ at most in the order of their pools, the pool holding pairwise
distinct full names. -/
def SameUpToPoolOrder (de₁ de₂ : DepartmentsEnrolment F) : Prop :=
  de₁.DepartmentsCapacity = de₂.DepartmentsCapacity ∧
    de₁.DepartmentsStudents = de₂.DepartmentsStudents ∧
    de₁.AllStudents.Perm de₂.AllStudents ∧
    (de₁.AllStudents.map Student.FullName).Nodup

/-- The sorter that runs `insertionSort_func`, as `sort.Slice` does on a slice of at
most 12 elements. -/
def insertionSorter (α : Type) : SliceSorter α where
  sort := insertionSort_func
  sort_perm less l := by
    have hins : ∀ (x : α) (sorted : List α), (goInsert less x sorted).Perm (x :: sorted) := by
      intro x sorted
      induction sorted with
      | nil => exact List.Perm.refl _
      | cons y rest ih =>
        simp only [goInsert]
        split_ifs
        · exact (ih.cons y).trans (List.Perm.swap x y rest)
        · exact List.Perm.refl _
    have hfold : ∀ (l acc : List α),
        (l.foldl (fun sorted x => goInsert less x sorted) acc).Perm (l.reverse ++ acc) := by
      intro l
      induction l with
      | nil => intro acc; exact List.Perm.refl _
      | cons x rest ih =>
        intro acc
        rw [List.foldl_cons, List.reverse_cons, List.append_assoc]
        exact (ih _).trans ((hins x acc).append_left _)
    unfold insertionSort_func
    refine (List.reverse_perm _).trans ((hfold l []).trans ?_)
    rw [List.append_nil]
    exact List.reverse_perm l

/-- The last applicant of `pool` with the full name `name`, if there is one: the first
such applicant met when the pool is read backwards. -/
def lastWithName (pool : List (Student F)) (name : FullName) : Option (Student F) :=
  pool.reverse.find? (fun s => decide (s.FullName = name))

/-- A wave that visits the departments in the order given; `ProceedEnrolmentWave` is the
wave in the order of `dptsNames`. -/
def waveInOrder [Float64 F] (srt : SliceSorter (Student F))
    (ord : DepartmentName → MapOrder (FullName × Student F)) (order : List DepartmentName)
    (priority : Int) (de : DepartmentsEnrolment F) : DepartmentsEnrolment F :=
  order.foldl
    (fun de dpt => GatherSuccessfulApplicantsForDepartment srt (ord dpt) dpt priority de) de

/-- The line of one roster member in the text of a department: the full name, a space
and the score as `fmt2` renders it. -/
def studentLine [Float64 F] (fmt2 : F → String) (dptName : DepartmentName)
    (student : Student F) : String :=
  student.FullName ++ " " ++ fmt2 (student.grade dptName)

/-! ## `sort.Slice` on 13 elements

From Go 1.19 on `sort.Slice(x, less)` runs `pdqsort_func(data, 0, n, bits.Len(n))`, which
sorts a range of at most 12 elements by insertion and partitions a longer one. -/

/-- The call `data.Swap(i, j)` of the sort package. -/
def sliceSwap {α : Type} (data : List α) (i j : Nat) : List α :=
  match data[i]?, data[j]? with
  | some x, some y => (data.set i y).set j x
  | _, _ => data

/-- The call `data.Less(i, j)` of the sort package. -/
def sliceLess {α : Type} (less : α → α → Bool) (data : List α) (i j : Nat) : Bool :=
  match data[i]?, data[j]? with
  | some x, some y => less x y
  | _, _ => false

/-- The helper `order2_func`: the two indices in order, and the count of swaps. -/
def order2_func {α : Type} (less : α → α → Bool) (data : List α) (a b swaps : Nat) :
    Nat × Nat × Nat :=
  if sliceLess less data b a then (b, a, swaps + 1) else (a, b, swaps)

/-- The helper `median_func`: the index of the median of three, and the count of swaps. -/
def median_func {α : Type} (less : α → α → Bool) (data : List α) (a b c swaps : Nat) :
    Nat × Nat :=
  match order2_func less data a b swaps with
  | (a, b, swaps) =>
    match order2_func less data b c swaps with
    | (b, _, swaps) =>
      match order2_func less data a b swaps with
      | (_, b, swaps) => (b, swaps)

/-- The function `choosePivot_func` on a range of fewer than 50 elements, where it takes
the median of three from 8 elements on: the pivot, and the count of swaps, which is 0
for the hint `increasingHint`. The hint `decreasingHint` needs 12 swaps, more than the
median of three makes. -/
def choosePivot_func {α : Type} (less : α → α → Bool) (data : List α) (a b : Nat) :
    Nat × Nat :=
  let l := b - a
  let i := a + l / 4 * 1
  let j := a + l / 4 * 2
  let k := a + l / 4 * 3
  if l ≥ 8 then median_func less data i j k 0 else (j, 0)

/-- The loop `for i < b && !data.Less(i, i-1) { i++ }` of `partialInsertionSort_func`. -/
def skipSorted {α : Type} (less : α → α → Bool) (data : List α) (b : Nat) : Nat → Nat → Nat
  | 0, i => i
  | fuel + 1, i =>
    if i < b ∧ sliceLess less data i (i - 1) = false then skipSorted less data b fuel (i + 1)
    else i

/-- The function `partialInsertionSort_func` on a range of fewer than 50 elements, where it
shifts nothing: whether the range has no adjacent pair out of order. -/
def partialInsertionSort_func {α : Type} (less : α → α → Bool) (data : List α) (a b : Nat) :
    Bool :=
  skipSorted less data b (b - a) (a + 1) == b

/-- The loop `for i <= j && data.Less(i, a) { i++ }` of `partition_func`. -/
def skipLess {α : Type} (less : α → α → Bool) (data : List α) (a j : Nat) : Nat → Nat → Nat
  | 0, i => i
  | fuel + 1, i =>
    if i ≤ j ∧ sliceLess less data i a = true then skipLess less data a j fuel (i + 1) else i

/-- The loop `for i <= j && !data.Less(j, a) { j-- }` of `partition_func`. -/
def skipNotLess {α : Type} (less : α → α → Bool) (data : List α) (a i : Nat) : Nat → Nat → Nat
  | 0, j => j
  | fuel + 1, j =>
    if i ≤ j ∧ sliceLess less data j a = false then skipNotLess less data a i fuel (j - 1)
    else j

/-- The main loop of `partition_func`: the slice and the index `j` it ends with. -/
def partitionLoop {α : Type} (less : α → α → Bool) (a : Nat) :
    Nat → List α → Nat → Nat → List α × Nat
  | 0, data, _, j => (data, j)
  | fuel + 1, data, i, j =>
    let i := skipLess less data a j (j + 1 - i) i
    let j := skipNotLess less data a i (j + 1 - i) j
    if i > j then (data, j)
    else partitionLoop less a fuel (sliceSwap data i j) (i + 1) (j - 1)

/-- The function `partition_func`: the slice, the new place of the pivot, and whether the
range was partitioned already. -/
def partition_func {α : Type} (less : α → α → Bool) (data : List α) (a b pivot : Nat) :
    List α × Nat × Bool :=
  let data := sliceSwap data a pivot
  let i := skipLess less data a (b - 1) (b - a) (a + 1)
  let j := skipNotLess less data a i (b - a) (b - 1)
  if i > j then (sliceSwap data j a, j, true)
  else
    match partitionLoop less a (b - a) (sliceSwap data i j) (i + 1) (j - 1) with
    | (data, j) => (sliceSwap data j a, j, false)

/-- The run of `pdqsort_func(data, 0, n, limit)` that `sort.Slice` starts, for a slice of
at most 13 elements. Up to 12 elements it is the insertion sort. At 13 elements it picks
the pivot, returns at once when no swap was counted and no adjacent pair is out of order,
and else partitions once; the two sides then hold at most 12 elements, and the loop and
its recursive call sort each by insertion. Longer slices are outside this model, which
treats them in the same way. -/
def pdqsort_func {α : Type} (less : α → α → Bool) (data : List α) : List α :=
  if data.length ≤ 12 then insertionSort_func less data
  else
    match choosePivot_func less data 0 data.length with
    | (pivot, swaps) =>
      if swaps = 0 ∧ partialInsertionSort_func less data 0 data.length = true then data
      else
        match partition_func less data 0 data.length pivot with
        | (data, mid, _) =>
          insertionSort_func less (data.take mid) ++ (data.drop mid).take 1 ++
            insertionSort_func less (data.drop (mid + 1))

/-- The sorter that runs `pdqsort_func`, as `sort.Slice` does on a slice of at most 13
elements. -/
def pdqSorter (α : Type) : SliceSorter α where
  sort := pdqsort_func
  sort_perm := by
    have hcons : ∀ (t : List α) (j : Nat) (y a : α), t[j]? = some y →
        (y :: t.set j a).Perm (a :: t) := by
      intro t
      induction t with
      | nil =>
        intro j y a h
        simp at h
      | cons b t ih =>
        intro j y a h
        cases j with
        | zero =>
          simp only [List.getElem?_cons_zero, Option.some.injEq] at h
          subst h
          exact List.Perm.swap a b t
        | succ j =>
          simp only [List.getElem?_cons_succ] at h
          rw [List.set_cons_succ]
          exact ((List.Perm.swap b y _).trans ((ih j y a h).cons b)).trans
            (List.Perm.swap a b t)
    have hset : ∀ (data : List α) (i j : Nat) (x y : α), data[i]? = some x →
        data[j]? = some y → ((data.set i y).set j x).Perm data := by
      intro data
      induction data with
      | nil =>
        intro i j x y hi hj
        simp at hi
      | cons h t ih =>
        intro i j x y hi hj
        cases i with
        | zero =>
          simp only [List.getElem?_cons_zero, Option.some.injEq] at hi
          subst hi
          cases j with
          | zero =>
            simp only [List.getElem?_cons_zero, Option.some.injEq] at hj
            subst hj
            simp
          | succ j =>
            simp only [List.getElem?_cons_succ] at hj
            rw [List.set_cons_zero, List.set_cons_succ]
            exact hcons t j y h hj
        | succ i =>
          simp only [List.getElem?_cons_succ] at hi
          cases j with
          | zero =>
            simp only [List.getElem?_cons_zero, Option.some.injEq] at hj
            subst hj
            rw [List.set_cons_succ, List.set_cons_zero]
            exact hcons t i x h hi
          | succ j =>
            simp only [List.getElem?_cons_succ] at hj
            rw [List.set_cons_succ, List.set_cons_succ]
            exact (ih i j x y hi hj).cons h
    have hswap : ∀ (data : List α) (i j : Nat), (sliceSwap data i j).Perm data := by
      intro data i j
      unfold sliceSwap
      split
      · next x y hi hj => exact hset data i j x y hi hj
      · exact List.Perm.refl _
    have hloop : ∀ (less : α → α → Bool) (a fuel : Nat) (data : List α) (i j : Nat),
        (partitionLoop less a fuel data i j).1.Perm data := by
      intro less a fuel
      induction fuel with
      | zero =>
        intro data i j
        exact List.Perm.refl _
      | succ fuel ih =>
        intro data i j
        unfold partitionLoop
        simp only
        split_ifs
        · exact List.Perm.refl _
        · exact (ih _ _ _).trans (hswap _ _ _)
    have hpartition : ∀ (less : α → α → Bool) (data : List α) (a b pivot : Nat),
        (partition_func less data a b pivot).1.Perm data := by
      intro less data a b pivot
      unfold partition_func
      simp only
      split_ifs
      · exact (hswap _ _ _).trans (hswap _ _ _)
      · exact (hswap _ _ _).trans
          ((hloop less a _ _ _ _).trans ((hswap _ _ _).trans (hswap _ _ _)))
    intro less data
    show (pdqsort_func less data).Perm data
    unfold pdqsort_func
    split_ifs
    · exact (insertionSorter α).sort_perm less data
    · simp only
      split_ifs
      · exact List.Perm.refl _
      · have hp := hpartition less data 0 data.length
          (choosePivot_func less data 0 data.length).1
        generalize (partition_func less data 0 data.length
          (choosePivot_func less data 0 data.length).1) = r at hp ⊢
        obtain ⟨data', mid, flag⟩ := r
        simp only at hp ⊢
        refine List.Perm.trans ?_ hp
        have hsplit : data' = data'.take mid ++ ((data'.drop mid).take 1 ++
            data'.drop (mid + 1)) := by
          rw [← List.drop_drop 1 mid, List.take_append_drop, List.take_append_drop]
        rw [List.append_assoc]
        conv_rhs => rw [hsplit]
        exact ((insertionSorter α).sort_perm less _).append
          ((List.Perm.refl _).append ((insertionSorter α).sort_perm less _))

/-- The texts of two calls of `GetDptStudentsLines` in succession, the second on the state
the first leaves. -/
def linesTwice {F : Type} [Float64 F] (srt : SliceSorter (Student F)) (fmt2 : F → String)
    (dptName : DepartmentName) (de : DepartmentsEnrolment F) :
    Except Abort (String × String) :=
  match GetDptStudentsLines srt fmt2 dptName de with
  | .error e => .error e
  | .ok (first, de') =>
    match GetDptStudentsLines srt fmt2 dptName de' with
    | .error e => .error e
    | .ok (second, _) => .ok (first, second)

/-! ## Sample data -/

/-- The rationals as scores: the `==` and `>` of `float64` on values that are not NaN. -/
instance : Float64 ℚ where
  zero := 0
  eq a b := decide (a = b)
  gt a b := decide (a > b)
  isNaN _ := false

instance : LawfulFloat64 ℚ where
  eq_of_nan a b h := by simp [Float64.isNaN] at h
  gt_of_nan a b h := by simp [Float64.isNaN] at h
  eq_iff a b _ _ := by simp [Float64.eq]
  gt_irrefl a := by simp [Float64.gt]
  gt_trans a b c hab hbc := by
    simp only [Float64.gt, decide_eq_true_iff] at *
    exact lt_trans hbc hab
  gt_total a b _ _ hne := by
    simp only [Float64.gt, decide_eq_true_iff]
    exact (lt_or_gt_of_ne hne).symm

/-- A `float64` for the sample data: NaN or a rational. -/
inductive SampleFloat where
  | nan
  | num (q : ℚ)
deriving DecidableEq

/-- The comparisons of `float64` on the sample values: false whenever an operand is
NaN, as in `uap.go:124-128` for `==` and `>`. -/
instance : Float64 SampleFloat where
  zero := .num 0
  eq
    | .num a, .num b => decide (a = b)
    | _, _ => false
  gt
    | .num a, .num b => decide (a > b)
    | _, _ => false
  isNaN
    | .nan => true
    | .num _ => false

instance : LawfulFloat64 SampleFloat where
  eq_of_nan a b h := by
    cases a <;> cases b <;> simp [Float64.isNaN, Float64.eq] at h ⊢
  gt_of_nan a b h := by
    cases a <;> cases b <;> simp [Float64.isNaN, Float64.gt] at h ⊢
  eq_iff a b ha hb := by
    cases a <;> cases b <;> simp [Float64.isNaN, Float64.eq] at ha hb ⊢
  gt_irrefl a := by
    cases a <;> simp [Float64.gt]
  gt_trans a b c hab hbc := by
    cases a <;> cases b <;> cases c <;>
      simp only [Float64.gt, decide_eq_true_iff, Bool.false_eq_true] at hab hbc ⊢
    exact lt_trans hbc hab
  gt_total a b ha hb hne := by
    cases a <;> cases b <;> simp [Float64.isNaN, Float64.gt] at ha hb hne ⊢
    exact fun h => hne h.symm

/-- An applicant over rational grades with the five scores and three preferences given. -/
def sampleStudent (first last : String) (physics chemistry mathematics engineering biotech : ℚ)
    (first1 second2 third3 : DepartmentName) : Student ℚ :=
  { FirstName := first
    LastName := last
    DptsGrades := [(DepartmentPhysics, physics), (DepartmentChemistry, chemistry),
      (DepartmentMathematics, mathematics), (DepartmentEngineering, engineering),
      (DepartmentBiotech, biotech)]
    DptsByPriority := [(1, first1), (2, second2), (3, third3)] }

def annApt : Student ℚ :=
  sampleStudent "Ann" "Apt" 60 60 95 60 60 "Mathematics" "Physics" "Biotech"

def bobBay : Student ℚ :=
  sampleStudent "Bob" "Bay" 60 60 80 60 60 "Mathematics" "Physics" "Biotech"

def annaLee : Student ℚ :=
  sampleStudent "Anna" "Lee" 90 70 70 70 70 "Physics" "Chemistry" "Biotech"

def amyLee : Student ℚ :=
  sampleStudent "Amy" "Lee" 90 70 70 70 70 "Physics" "Chemistry" "Biotech"

def bobFox : Student ℚ :=
  sampleStudent "Bob" "Fox" 85 70 70 70 70 "Physics" "Chemistry" "Biotech"

/-- A state with empty rosters for the five departments. -/
def sampleState (capacity : Int) (pool : List (Student ℚ)) : DepartmentsEnrolment ℚ :=
  { DepartmentsCapacity := capacity
    DepartmentsStudents := [(DepartmentMathematics, []), (DepartmentPhysics, []),
      (DepartmentBiotech, []), (DepartmentChemistry, []), (DepartmentEngineering, [])]
    AllStudents := pool }

/-- A stand-in for `strconv.ParseFloat` on unsigned decimal numerals without a
fraction. -/
def sampleParseFloat (s : String) : Except String ℚ :=
  match s.toList with
  | [] => .error "invalid syntax"
  | c :: cs =>
    if (c :: cs).all Char.isDigit then
      .ok (((c :: cs).foldl (fun n ch => 10 * n + (ch.toNat - 48)) 0 : Nat) : ℚ)
    else .error "invalid syntax"

def artFan : Student ℚ :=
  sampleStudent "Art" "Fan" 60 60 60 60 60 "Art" "Physics" "Biotech"

def samRoe : Student ℚ :=
  sampleStudent "Sam" "Roe" 70 70 70 70 70 "Physics" "Chemistry" "Biotech"

/-- Another applicant with the full name of `samRoe`. -/
def samRoeToo : Student ℚ :=
  sampleStudent "Sam" "Roe" 80 80 80 80 80 "Chemistry" "Physics" "Biotech"

/-- An applicant whose three preferences are none of the five departments. -/
def artOnly : Student ℚ :=
  sampleStudent "Art" "Only" 99 99 99 99 99 "Art" "Music" "Dance"

/-- A stand-in for the verb `%.2f` on the scores of the sample data. -/
def sampleFmt2 (x : ℚ) : String :=
  if x = 90 then "90.00" else if x = 85 then "85.00" else "0.00"

/-- A state whose Physics roster is stored out of ranking order. -/
def sampleRostered : DepartmentsEnrolment ℚ :=
  { DepartmentsCapacity := 3
    DepartmentsStudents := [(DepartmentMathematics, []),
      (DepartmentPhysics, [bobFox, annaLee, amyLee]), (DepartmentBiotech, []),
      (DepartmentChemistry, []), (DepartmentEngineering, [])]
    AllStudents := [] }

/-- An applicant over the sample `float64` values whose five scores are all `score`, as
a record with five equal grades yields (five times `NaN` for a NaN score). -/
def nanStudent (first last : String) (score : SampleFloat)
    (first1 second2 third3 : DepartmentName) : Student SampleFloat :=
  { FirstName := first
    LastName := last
    DptsGrades := [(DepartmentPhysics, score), (DepartmentChemistry, score),
      (DepartmentMathematics, score), (DepartmentEngineering, score),
      (DepartmentBiotech, score)]
    DptsByPriority := [(1, first1), (2, second2), (3, third3)] }

def amyOne : Student SampleFloat :=
  nanStudent "Amy" "One" (.num 1) "Physics" "Chemistry" "Biotech"

def beaNan : Student SampleFloat :=
  nanStudent "Bea" "Nan" .nan "Physics" "Chemistry" "Biotech"

def calTwo : Student SampleFloat :=
  nanStudent "Cal" "Two" (.num 2) "Physics" "Chemistry" "Biotech"

def mayMath : Student SampleFloat :=
  nanStudent "May" "Math" (.num 3) "Mathematics" "Chemistry" "Biotech"

/-- A state over the sample `float64` values with empty rosters for the five
departments. -/
def nanState (capacity : Int) (pool : List (Student SampleFloat)) :
    DepartmentsEnrolment SampleFloat :=
  { DepartmentsCapacity := capacity
    DepartmentsStudents := [(DepartmentMathematics, []), (DepartmentPhysics, []),
      (DepartmentBiotech, []), (DepartmentChemistry, []), (DepartmentEngineering, [])]
    AllStudents := pool }

/-- A stand-in for the verb `%.2f` on the sample `float64` values; `fmt` prints a NaN as
`NaN`. -/
def sampleFmt2Float : SampleFloat → String
  | .nan => "NaN"
  | .num q => if q = 1 then "1.00" else if q = 2 then "2.00" else if q = 3 then "3.00" else "0.00"

/-- A Physics applicant of the sample with the score 1 in every department. -/
def roe (first : String) : Student SampleFloat :=
  nanStudent first "Roe" (.num 1) "Physics" "Chemistry" "Biotech"

/-- A Physics applicant of the sample with the score NaN in every department. -/
def nanRoe : Student SampleFloat :=
  nanStudent "Nan" "Roe" .nan "Physics" "Chemistry" "Biotech"

/-- Thirteen applicants who list Physics first: twelve with the score 1, in the order of
their names but for Eve Roe, and Nan Roe with the score NaN in the ninth place. -/
def thirteen : List (Student SampleFloat) :=
  [roe "Amy", roe "Bea", roe "Cal", roe "Dan", roe "Fay", roe "Gus", roe "Hal", roe "Ida",
    nanRoe, roe "Eve", roe "Jon", roe "Kim", roe "Lee"]

/-- The text of the first of two calls of `GetDptStudentsLines` for the Physics roster of
the thirteen applicants. -/
def thirteenFirstText : String :=
  "Amy Roe 1.00\nBea Roe 1.00\nCal Roe 1.00\nDan Roe 1.00\nEve Roe 1.00\n" ++
    "Fay Roe 1.00\nHal Roe 1.00\nIda Roe 1.00\nNan Roe NaN\nGus Roe 1.00\n" ++
    "Jon Roe 1.00\nKim Roe 1.00\nLee Roe 1.00"

/-- The text of the second call. -/
def thirteenSecondText : String :=
  "Amy Roe 1.00\nBea Roe 1.00\nCal Roe 1.00\nDan Roe 1.00\nEve Roe 1.00\n" ++
    "Fay Roe 1.00\nGus Roe 1.00\nIda Roe 1.00\nNan Roe NaN\nHal Roe 1.00\n" ++
    "Jon Roe 1.00\nKim Roe 1.00\nLee Roe 1.00"

/-! ## Lemmas -/

section GoMapLemmas
variable {κ ν : Type} [DecidableEq κ]

theorem GoMap.get?_set_self (m : GoMap κ ν) (k : κ) (v : ν) :
    GoMap.get? (GoMap.set m k v) k = some v := by
  induction m with
  | nil => simp [GoMap.set, GoMap.get?]
  | cons e rest ih =>
    obtain ⟨k', v'⟩ := e
    by_cases h : k' = k
    · simp [GoMap.set, GoMap.get?, h]
    · simp [GoMap.set, GoMap.get?, h, ih]

theorem GoMap.get?_set_of_ne (m : GoMap κ ν) (k k' : κ) (v : ν) (h : k' ≠ k) :
    GoMap.get? (GoMap.set m k v) k' = GoMap.get? m k' := by
  induction m with
  | nil => simp [GoMap.set, GoMap.get?, Ne.symm h]
  | cons e rest ih =>
    obtain ⟨k₀, v₀⟩ := e
    by_cases h₀ : k₀ = k
    · subst h₀
      simp [GoMap.set, GoMap.get?, Ne.symm h]
    · by_cases h₁ : k₀ = k'
      · subst h₁
        simp [GoMap.set, GoMap.get?, h₀]
      · simp [GoMap.set, GoMap.get?, h₀, h₁, ih]

theorem GoMap.keys_set_of_mem (m : GoMap κ ν) (k : κ) (v : ν) (h : k ∈ m.map Prod.fst) :
    (GoMap.set m k v).map Prod.fst = m.map Prod.fst := by
  induction m with
  | nil => simp at h
  | cons e rest ih =>
    obtain ⟨k₀, v₀⟩ := e
    by_cases h₀ : k₀ = k
    · simp [GoMap.set, h₀]
    · have hk : k ∈ rest.map Prod.fst := by
        simp only [List.map_cons, List.mem_cons] at h
        rcases h with h | h
        · exact absurd h.symm h₀
        · exact h
      simp [GoMap.set, h₀, ih hk]

theorem GoMap.get?_eq_none_iff (m : GoMap κ ν) (k : κ) :
    GoMap.get? m k = none ↔ k ∉ m.map Prod.fst := by
  induction m with
  | nil => simp [GoMap.get?]
  | cons e rest ih =>
    obtain ⟨k₀, v₀⟩ := e
    by_cases h₀ : k₀ = k
    · simp [GoMap.get?, h₀]
    · simp [GoMap.get?, h₀, ih, Ne.symm h₀]

end GoMapLemmas

section Order
variable {F : Type} [Float64 F]

theorem stringLess_iff (s t : String) : stringLess s t = true ↔ s < t := by
  unfold stringLess
  rw [decide_eq_true_iff, String.lt_iff_toList_lt]

theorem stringLess_eq_false_iff (s t : String) : stringLess s t = false ↔ t ≤ s := by
  rw [← not_lt, ← stringLess_iff]
  simp

theorem float64_not_nan_of_eq [LawfulFloat64 F] (x y : F) (h : Float64.eq x y = true) :
    Float64.isNaN x = false ∧ Float64.isNaN y = false := by
  constructor
  · cases hx : Float64.isNaN x
    · rfl
    · rw [LawfulFloat64.eq_of_nan x y (Or.inl hx)] at h
      exact absurd h (by simp)
  · cases hy : Float64.isNaN y
    · rfl
    · rw [LawfulFloat64.eq_of_nan x y (Or.inr hy)] at h
      exact absurd h (by simp)

theorem float64_not_nan_of_gt [LawfulFloat64 F] (x y : F) (h : Float64.gt x y = true) :
    Float64.isNaN x = false ∧ Float64.isNaN y = false := by
  constructor
  · cases hx : Float64.isNaN x
    · rfl
    · rw [LawfulFloat64.gt_of_nan x y (Or.inl hx)] at h
      exact absurd h (by simp)
  · cases hy : Float64.isNaN y
    · rfl
    · rw [LawfulFloat64.gt_of_nan x y (Or.inr hy)] at h
      exact absurd h (by simp)

theorem float64_eq_of_eq [LawfulFloat64 F] (x y : F) (h : Float64.eq x y = true) : x = y :=
  (LawfulFloat64.eq_iff x y (float64_not_nan_of_eq x y h).1
    (float64_not_nan_of_eq x y h).2).mp h

theorem float64_gt_asymm [LawfulFloat64 F]
    (x y : F) (h : Float64.gt x y = true) : Float64.gt y x = false := by
  cases hyx : Float64.gt y x
  · rfl
  · have h' := LawfulFloat64.gt_trans x y x h hyx
    rw [LawfulFloat64.gt_irrefl] at h'
    exact absurd h' (by simp)

theorem lessByDptGrade_iff [LawfulFloat64 F] (d : DepartmentName) (a b : Student F) :
    lessByDptGrade d a b = true ↔
      Float64.gt (a.grade d) (b.grade d) = true ∨
        (Float64.eq (a.grade d) (b.grade d) = true ∧ a.FullName < b.FullName) := by
  unfold lessByDptGrade
  by_cases h : Float64.eq (a.grade d) (b.grade d) = true
  · have hgt : Float64.gt (a.grade d) (b.grade d) = false := by
      rw [float64_eq_of_eq _ _ h]
      exact LawfulFloat64.gt_irrefl _
    simp [h, hgt, stringLess_iff]
  · simp [h]

theorem lessByDptGrade_eq_false_iff [LawfulFloat64 F] (d : DepartmentName) (a b : Student F)
    (ha : Float64.isNaN (a.grade d) = false) (hb : Float64.isNaN (b.grade d) = false) :
    lessByDptGrade d a b = false ↔
      Float64.gt (b.grade d) (a.grade d) = true ∨
        (Float64.eq (a.grade d) (b.grade d) = true ∧ b.FullName ≤ a.FullName) := by
  unfold lessByDptGrade
  by_cases h : Float64.eq (a.grade d) (b.grade d) = true
  · have hgt : Float64.gt (b.grade d) (a.grade d) = false := by
      rw [float64_eq_of_eq _ _ h]
      exact LawfulFloat64.gt_irrefl _
    simp [h, hgt, stringLess_eq_false_iff]
  · have hne : a.grade d ≠ b.grade d := fun he => h ((LawfulFloat64.eq_iff _ _ ha hb).mpr he)
    rw [if_neg h]
    constructor
    · intro hab
      rcases LawfulFloat64.gt_total _ _ ha hb hne with h' | h'
      · rw [h'] at hab
        exact absurd hab (by simp)
      · exact Or.inl h'
    · rintro (h' | ⟨h', _⟩)
      · exact float64_gt_asymm _ _ h'
      · exact absurd h' h

theorem lessByDptGrade_irrefl [LawfulFloat64 F] (d : DepartmentName) (a : Student F) :
    lessByDptGrade d a a = false := by
  cases h : lessByDptGrade d a a
  · rfl
  · rw [lessByDptGrade_iff] at h
    rcases h with h | ⟨_, h⟩
    · rw [LawfulFloat64.gt_irrefl] at h
      exact absurd h (by simp)
    · exact absurd h (lt_irrefl _)

theorem lessByDptGrade_trans [LawfulFloat64 F] (d : DepartmentName) (a b c : Student F)
    (hab : lessByDptGrade d a b = true) (hbc : lessByDptGrade d b c = true) :
    lessByDptGrade d a c = true := by
  rw [lessByDptGrade_iff] at *
  rcases hab with h₁ | ⟨h₁, n₁⟩ <;> rcases hbc with h₂ | ⟨h₂, n₂⟩
  · exact Or.inl (LawfulFloat64.gt_trans _ _ _ h₁ h₂)
  · rw [← float64_eq_of_eq _ _ h₂]
    exact Or.inl h₁
  · rw [float64_eq_of_eq _ _ h₁]
    exact Or.inl h₂
  · refine Or.inr ⟨?_, lt_trans n₁ n₂⟩
    rw [float64_eq_of_eq _ _ h₁]
    exact h₂

theorem lessByDptGrade_strictWeakOn [LawfulFloat64 F] (d : DepartmentName) (l : List (Student F))
    (hl : ∀ s ∈ l, Float64.isNaN (s.grade d) = false) :
    StrictWeakOn (lessByDptGrade d) l where
  irrefl a _ := lessByDptGrade_irrefl d a
  trans a _ b _ c _ hab hbc := lessByDptGrade_trans d a b c hab hbc
  incomp_trans a ha b hb c hc hab hbc := by
    rw [lessByDptGrade_eq_false_iff d _ _ (hl _ ha) (hl _ hb)] at hab
    rw [lessByDptGrade_eq_false_iff d _ _ (hl _ hb) (hl _ hc)] at hbc
    rw [lessByDptGrade_eq_false_iff d _ _ (hl _ ha) (hl _ hc)]
    rcases hab with h₁ | ⟨h₁, n₁⟩ <;> rcases hbc with h₂ | ⟨h₂, n₂⟩
    · exact Or.inl (LawfulFloat64.gt_trans _ _ _ h₂ h₁)
    · rw [float64_eq_of_eq _ _ h₂] at h₁
      exact Or.inl h₁
    · rw [float64_eq_of_eq _ _ h₁]
      exact Or.inl h₂
    · refine Or.inr ⟨?_, le_trans n₂ n₁⟩
      rw [float64_eq_of_eq _ _ h₁]
      exact h₂

end Order

section InsertionSort

theorem mem_goInsert {α : Type} (less : α → α → Bool) (x a : α) (sorted : List α) :
    a ∈ goInsert less x sorted ↔ a = x ∨ a ∈ sorted := by
  induction sorted with
  | nil => simp [goInsert]
  | cons y rest ih =>
    simp only [goInsert]
    split_ifs
    · simp only [List.mem_cons, ih]
      tauto
    · simp only [List.mem_cons]

theorem goInsert_pairwise {α : Type} (less : α → α → Bool) (l : List α)
    (h : StrictWeakOn less l) (x : α) (hx : x ∈ l) (sorted : List α)
    (hsub : ∀ a ∈ sorted, a ∈ l)
    (hsorted : sorted.Pairwise (fun a b => less a b = false)) :
    (goInsert less x sorted).Pairwise (fun a b => less a b = false) := by
  induction sorted with
  | nil => simp [goInsert]
  | cons y rest ih =>
    have hy : y ∈ l := hsub y (List.mem_cons_self _ _)
    have hrest : ∀ a ∈ rest, a ∈ l := fun a ha => hsub a (List.mem_cons_of_mem _ ha)
    rw [List.pairwise_cons] at hsorted
    simp only [goInsert]
    split_ifs with hxy
    · rw [List.pairwise_cons]
      refine ⟨fun b hb => ?_, ih hrest hsorted.2⟩
      rcases (mem_goInsert less x b rest).mp hb with rfl | hb'
      · cases hyx : less y b
        · rfl
        · have hxx := h.trans b hx y hy b hx hxy hyx
          rw [h.irrefl b hx] at hxx
          exact absurd hxx (by simp)
      · exact hsorted.1 b hb'
    · rw [List.pairwise_cons]
      refine ⟨fun b hb => ?_, List.pairwise_cons.mpr hsorted⟩
      have hxy' : less x y = false := by simpa using hxy
      rcases List.mem_cons.mp hb with rfl | hb'
      · exact hxy'
      · exact h.incomp_trans x hx y hy b (hrest b hb') hxy' (hsorted.1 b hb')

theorem insertionSorter_sorts (α : Type) : (insertionSorter α).Sorts := by
  intro less l h
  show (insertionSort_func less l).Pairwise (fun a b => less b a = false)
  unfold insertionSort_func
  rw [List.pairwise_reverse]
  have key : ∀ (todo sorted : List α), (∀ a ∈ todo, a ∈ l) → (∀ a ∈ sorted, a ∈ l) →
      sorted.Pairwise (fun a b => less a b = false) →
      (todo.foldl (fun sorted x => goInsert less x sorted) sorted).Pairwise
        (fun a b => less a b = false) := by
    intro todo
    induction todo with
    | nil => intro sorted _ _ hs; exact hs
    | cons x rest ih =>
      intro sorted htodo hsub hs
      rw [List.foldl_cons]
      refine ih _ (fun a ha => htodo a (List.mem_cons_of_mem _ ha)) (fun a ha => ?_)
        (goInsert_pairwise less l h x (htodo x (List.mem_cons_self _ _)) sorted hsub hs)
      rcases (mem_goInsert less x a sorted).mp ha with rfl | ha'
      · exact htodo _ (List.mem_cons_self _ _)
      · exact hsub a ha'
  exact key l [] (fun a ha => ha) (fun a ha => absurd ha (List.not_mem_nil _)) List.Pairwise.nil

end InsertionSort

section StepShape
variable {F : Type} [Float64 F]

theorem gather_eq [DecidableEq F]
    (srt : SliceSorter (Student F)) (ord : MapOrder (FullName × Student F))
    (d : DepartmentName) (p : Int) (de : DepartmentsEnrolment F) :
    GatherSuccessfulApplicantsForDepartment srt ord d p de =
      if admittedBy srt d p de = [] then de
      else
        { de with
          DepartmentsStudents :=
            GoMap.set de.DepartmentsStudents d (de.roster d ++ admittedBy srt d p de)
          AllStudents := poolAfter ord (admittedBy srt d p de) de.AllStudents } := by
  unfold GatherSuccessfulApplicantsForDepartment admittedBy poolAfter
  by_cases h₁ : ((de.roster d).length : Int) ≥ de.DepartmentsCapacity
  · simp [h₁]
  · simp only [h₁, if_false]
    generalize hL : GetStudentsByDepartment srt de.AllStudents d p = L
    have hpos : 0 < (de.DepartmentsCapacity - ((de.roster d).length : Int)).toNat := by
      omega
    by_cases h₂ : (L.length : Int) ≤ 0
    · have : L = [] := by
        cases L with
        | nil => rfl
        | cons a t => simp at h₂; omega
      simp [this]
    · simp only [h₂, if_false]
      by_cases h₃ : de.DepartmentsCapacity - ((de.roster d).length : Int) > (L.length : Int)
      · have hk : L.take (de.DepartmentsCapacity - ((de.roster d).length : Int)).toNat = L :=
          List.take_of_length_le (by omega)
        have hne : L ≠ [] := by
          intro h
          rw [h] at h₂
          simp at h₂
        simp only [h₃, if_true, hk, h₂, if_false, hne]
      · simp only [h₃, if_false]
        split_ifs with h₄ h₅ h₅
        · rfl
        · exfalso
          apply h₅
          rw [← List.length_eq_zero]
          omega
        · exfalso
          rw [h₅] at h₄
          simp at h₄
        · rfl

end StepShape

section Plain
variable {F : Type}

theorem roster_set (m : GoMap DepartmentName (List (Student F))) (c : Int)
    (pool : List (Student F)) (d d' : DepartmentName) (r : List (Student F)) :
    (DepartmentsEnrolment.mk c (GoMap.set m d r) pool).roster d' =
      if d' = d then r else (DepartmentsEnrolment.mk c m pool).roster d' := by
  unfold DepartmentsEnrolment.roster
  by_cases h : d' = d
  · subst h
    simp [GoMap.get?_set_self]
  · simp [GoMap.get?_set_of_ne _ _ _ _ h, h]

theorem create_ok (c : Int) (hc : 0 ≤ c) (students : List (Student F)) :
    CreateDepartmentsEnrolment c students = .ok
      { AllStudents := students
        DepartmentsCapacity := c
        DepartmentsStudents := [
          (DepartmentMathematics, []),
          (DepartmentPhysics, []),
          (DepartmentBiotech, []),
          (DepartmentChemistry, []),
          (DepartmentEngineering, [])] } := by
  unfold CreateDepartmentsEnrolment
  rw [if_neg (by omega)]

theorem create_eq_ok (c : Int) (students : List (Student F)) (de₀ : DepartmentsEnrolment F)
    (h : CreateDepartmentsEnrolment c students = .ok de₀) :
    0 ≤ c ∧ de₀ =
      { AllStudents := students
        DepartmentsCapacity := c
        DepartmentsStudents := [
          (DepartmentMathematics, []),
          (DepartmentPhysics, []),
          (DepartmentBiotech, []),
          (DepartmentChemistry, []),
          (DepartmentEngineering, [])] } := by
  unfold CreateDepartmentsEnrolment at h
  split_ifs at h with hc
  · injection h with h
    exact ⟨by omega, h.symm⟩

end Plain

section Steps
variable {F : Type} [Float64 F]


theorem roster_gather [DecidableEq F]
    (srt : SliceSorter (Student F)) (ord : MapOrder (FullName × Student F))
    (d : DepartmentName) (p : Int) (de : DepartmentsEnrolment F) (d' : DepartmentName) :
    (GatherSuccessfulApplicantsForDepartment srt ord d p de).roster d' =
      if d' = d then de.roster d ++ admittedBy srt d p de else de.roster d' := by
  rw [gather_eq]
  by_cases h : admittedBy srt d p de = []
  · by_cases hd : d' = d
    · simp [h, hd]
    · simp [h, hd]
  · simp only [h, if_false]
    rw [roster_set]
    by_cases hd : d' = d
    · simp [hd]
    · simp only [hd, if_false]
      rfl

theorem capacity_gather [DecidableEq F]
    (srt : SliceSorter (Student F)) (ord : MapOrder (FullName × Student F))
    (d : DepartmentName) (p : Int) (de : DepartmentsEnrolment F) :
    (GatherSuccessfulApplicantsForDepartment srt ord d p de).DepartmentsCapacity =
      de.DepartmentsCapacity := by
  rw [gather_eq]
  split_ifs <;> rfl

theorem length_admittedBy (srt : SliceSorter (Student F)) (d : DepartmentName) (p : Int)
    (de : DepartmentsEnrolment F) :
    ((admittedBy srt d p de).length : Int) ≤
      max 0 (de.DepartmentsCapacity - ((de.roster d).length : Int)) := by
  unfold admittedBy
  split_ifs with h
  · simp
  · have h1 := List.length_take_le
      (de.DepartmentsCapacity - ((de.roster d).length : Int)).toNat
      (GetStudentsByDepartment srt de.AllStudents d p)
    have h2 : (0 : Int) ≤ de.DepartmentsCapacity - ((de.roster d).length : Int) := by omega
    rw [max_eq_right h2]
    omega

theorem runSteps_induction (srt : SliceSorter (Student F))
    (ord : Int → DepartmentName → MapOrder (FullName × Student F))
    (P : DepartmentsEnrolment F → Prop) (steps : List (Int × DepartmentName))
    (hstep : ∀ st ∈ steps, ∀ (o : MapOrder (FullName × Student F))
      (de : DepartmentsEnrolment F), P de →
        P (GatherSuccessfulApplicantsForDepartment srt o st.2 st.1 de))
    (de : DepartmentsEnrolment F) (h : P de) :
    P (runSteps srt ord steps de) := by
  induction steps generalizing de with
  | nil => exact h
  | cons st rest ih =>
    exact ih (fun st' hst' => hstep st' (List.mem_cons_of_mem _ hst')) _
      (hstep st (List.mem_cons_self _ _) _ _ h)

theorem mem_enrolmentSteps (n : Int) (st : Int × DepartmentName)
    (h : st ∈ enrolmentSteps n) : st.2 ∈ dptsNames ∧ 1 ≤ st.1 ∧ st.1 ≤ n := by
  unfold enrolmentSteps at h
  rw [List.mem_flatMap] at h
  obtain ⟨k, hk, hst⟩ := h
  rw [List.mem_map] at hst
  obtain ⟨dpt, hdpt, rfl⟩ := hst
  rw [List.mem_range] at hk
  refine ⟨hdpt, ?_, ?_⟩
  · show (1 : Int) ≤ (k : Int) + 1
    omega
  · show (k : Int) + 1 ≤ n
    omega

theorem proceedEnrolment_eq_runSteps (srt : SliceSorter (Student F))
    (ord : Int → DepartmentName → MapOrder (FullName × Student F)) (n : Int)
    (de : DepartmentsEnrolment F) :
    ProceedEnrolment srt ord n de = runSteps srt ord (enrolmentSteps n) de := by
  unfold ProceedEnrolment enrolmentSteps runSteps
  generalize List.range n.toNat = ks
  induction ks generalizing de with
  | nil => rfl
  | cons k rest ih =>
    rw [List.foldl_cons, ih, List.flatMap_cons, List.foldl_append]
    congr 1

theorem stateAfter_length [DecidableEq F] (srt : SliceSorter (Student F))
    (ord : Int → DepartmentName → MapOrder (FullName × Student F)) (n : Int)
    (de : DepartmentsEnrolment F) :
    stateAfter srt ord n (enrolmentSteps n).length de = ProceedEnrolment srt ord n de := by
  rw [proceedEnrolment_eq_runSteps]
  unfold stateAfter
  rw [List.take_length]

/-- The invariant behind the capacity bound: a fixed capacity and no roster above it. -/
theorem capped_gather [DecidableEq F] (srt : SliceSorter (Student F)) (c : Int)
    (o : MapOrder (FullName × Student F)) (d : DepartmentName) (p : Int)
    (de : DepartmentsEnrolment F)
    (h : de.DepartmentsCapacity = c ∧ ∀ d', ((de.roster d').length : Int) ≤ c) :
    (GatherSuccessfulApplicantsForDepartment srt o d p de).DepartmentsCapacity = c ∧
      ∀ d', (((GatherSuccessfulApplicantsForDepartment srt o d p de).roster d').length : Int)
        ≤ c := by
  refine ⟨by rw [capacity_gather]; exact h.1, fun d' => ?_⟩
  rw [roster_gather]
  by_cases hd : d' = d
  · subst hd
    simp only [if_true, List.length_append, Nat.cast_add]
    have h1 := length_admittedBy srt d' p de
    have h2 := h.2 d'
    rw [h.1] at h1
    rcases max_cases (0 : Int) (c - ((de.roster d').length : Int)) with ⟨e, _⟩ | ⟨e, _⟩ <;>
      rw [e] at h1 <;> omega
  · simp only [hd, if_false]
    exact h.2 d'

/-- C1. Roster size never exceeds capacity: for every capacity `c ≥ 0`, applicant list and
wave count `n`, `CreateDepartmentsEnrolment` builds a state, and in the final state of
`ProceedEnrolment n`, as in the state after each of its
`GatherSuccessfulApplicantsForDepartment` steps, each of the five rosters has at most `c`
members. -/
theorem roster_length_le_capacity [DecidableEq F] (srt : SliceSorter (Student F))
    (ord : Int → DepartmentName → MapOrder (FullName × Student F)) (c : Int) (hc : 0 ≤ c)
    (students : List (Student F)) (n : Int) :
    ∃ de₀, CreateDepartmentsEnrolment c students = .ok de₀ ∧
      ∀ d ∈ ["Mathematics", "Engineering", "Physics", "Biotech", "Chemistry"],
        (((ProceedEnrolment srt ord n de₀).roster d).length : Int) ≤ c ∧
        ∀ k, (((stateAfter srt ord n k de₀).roster d).length : Int) ≤ c := by
  refine ⟨_, create_ok c hc students, fun d _ => ?_⟩
  have key : ∀ steps, ((runSteps srt ord steps
      (DepartmentsEnrolment.mk c [(DepartmentMathematics, []), (DepartmentPhysics, []),
        (DepartmentBiotech, []), (DepartmentChemistry, []), (DepartmentEngineering, [])]
        students)).roster d).length ≤ c := by
    intro steps
    refine (runSteps_induction srt ord
      (fun de => de.DepartmentsCapacity = c ∧ ∀ d', ((de.roster d').length : Int) ≤ c) steps
      (fun st _ o de h => capped_gather srt c o st.2 st.1 de h) _ ⟨rfl, fun d' => ?_⟩).2 d
    unfold DepartmentsEnrolment.roster
    simp only [GoMap.get?]
    split_ifs <;> simpa using hc
  refine ⟨?_, fun k => key _⟩
  rw [proceedEnrolment_eq_runSteps]
  exact key _

end Steps

section Ranking
variable {F : Type} [Float64 F]

theorem getStudentsByDepartment_perm (srt : SliceSorter (Student F))
    (students : List (Student F)) (d : DepartmentName) (p : Int) :
    (GetStudentsByDepartment srt students d p).Perm
      (students.filter (fun student => decide (student.dptAt p = d))) :=
  srt.sort_perm _ _

/-- C3. A step that finds the roster of `d` below capacity and a non-empty ranked list
`L = GetStudentsByDepartment pool d p` sets the roster of `d` to the old roster followed
by the first `min (capacity - s) (length L)` elements of `L`, in their ranked order (for
an empty `L` that is the old roster). -/
theorem gather_takes_top [DecidableEq F] (srt : SliceSorter (Student F))
    (ord : MapOrder (FullName × Student F)) (d : DepartmentName) (p : Int)
    (de : DepartmentsEnrolment F)
    (hs : ((de.roster d).length : Int) < de.DepartmentsCapacity) :
    (GatherSuccessfulApplicantsForDepartment srt ord d p de).roster d =
      de.roster d ++ (GetStudentsByDepartment srt de.AllStudents d p).take
        (min (de.DepartmentsCapacity - ((de.roster d).length : Int)).toNat
          (GetStudentsByDepartment srt de.AllStudents d p).length) := by
  rw [roster_gather, if_pos rfl]
  unfold admittedBy
  rw [if_neg (by omega)]
  congr 1
  rcases Nat.le_total (de.DepartmentsCapacity - ((de.roster d).length : Int)).toNat
    (GetStudentsByDepartment srt de.AllStudents d p).length with h | h
  · rw [min_eq_left h]
  · rw [min_eq_right h, List.take_length, List.take_of_length_le h]

/-- C9. Rosters only grow: after a step the previous roster of every department is an
initial segment of its new roster, and the roster of every department other than the one
processed is unchanged. -/
theorem gather_roster_grows [DecidableEq F] (srt : SliceSorter (Student F))
    (ord : MapOrder (FullName × Student F)) (d : DepartmentName) (p : Int)
    (de : DepartmentsEnrolment F) (d' : DepartmentName) :
    de.roster d' <+: (GatherSuccessfulApplicantsForDepartment srt ord d p de).roster d' ∧
      (d' ≠ d →
        (GatherSuccessfulApplicantsForDepartment srt ord d p de).roster d' = de.roster d') := by
  rw [roster_gather]
  by_cases h : d' = d
  · subst h
    simp
  · simp [h]

/-- C5. The list `GetStudentsByDepartment` returns is a rearrangement of the input
applicants whose preference at priority `p` is `d`: each of them occurs as often as in
the input, and no applicant with another preference at `p` occurs. -/
theorem getStudentsByDepartment_filter [DecidableEq F] (srt : SliceSorter (Student F))
    (students : List (Student F)) (d : DepartmentName) (p : Int) :
    (GetStudentsByDepartment srt students d p).Perm
        (students.filter (fun student => decide (student.dptAt p = d))) ∧
      (∀ a : Student F, a.dptAt p = d →
        (GetStudentsByDepartment srt students d p).count a = students.count a) ∧
      (∀ a : Student F, a.dptAt p ≠ d → a ∉ GetStudentsByDepartment srt students d p) := by
  have hperm := getStudentsByDepartment_perm srt students d p
  refine ⟨hperm, fun a ha => ?_, fun a ha hmem => ?_⟩
  · rw [hperm.count_eq, List.count_filter]
    simpa using ha
  · have := (hperm.mem_iff).mp hmem
    rw [List.mem_filter] at this
    exact ha (by simpa using this.2)

end Ranking

section RankingOrder
variable {F : Type} [Float64 F]

theorem float64_eq_symm [LawfulFloat64 F]
    (x y : F) (h : Float64.eq x y = true) : Float64.eq y x = true := by
  have hxy := float64_eq_of_eq x y h
  subst hxy
  exact h

theorem getStudentsByDepartment_sorted [LawfulFloat64 F]
    (srt : SliceSorter (Student F)) (hsrt : srt.Sorts)
    (students : List (Student F)) (d : DepartmentName) (p : Int)
    (hnan : ∀ s ∈ students, s.dptAt p = d → Float64.isNaN (s.grade d) = false) :
    (GetStudentsByDepartment srt students d p).Pairwise
      (fun a b => lessByDptGrade d b a = false) :=
  hsrt _ _ (lessByDptGrade_strictWeakOn d _ (fun s hs => by
    rw [List.mem_filter] at hs
    exact hnan s hs.1 (by simpa using hs.2)))

theorem mem_getStudentsByDepartment [DecidableEq F] (srt : SliceSorter (Student F))
    (students : List (Student F)) (d : DepartmentName) (p : Int) (a : Student F) :
    a ∈ GetStudentsByDepartment srt students d p ↔ a ∈ students ∧ a.dptAt p = d := by
  rw [(getStudentsByDepartment_perm srt students d p).mem_iff, List.mem_filter,
    decide_eq_true_iff]

/-- C4, as amended. When no applicant who lists the department at the priority has a NaN
score for it, the list `GetStudentsByDepartment` returns is ranked: of the applicants `a`
and `b` at two positions `i < j`, `a` has the strictly higher score for the department,
or the scores are equal and the full name of `a` is not greater than that of `b`. -/
theorem getStudentsByDepartment_ranked [DecidableEq F] [LawfulFloat64 F]
    (srt : SliceSorter (Student F)) (hsrt : srt.Sorts)
    (students : List (Student F)) (d : DepartmentName) (p : Int)
    (hnan : ∀ s ∈ students, s.dptAt p = d → Float64.isNaN (s.grade d) = false)
    (i j : Nat) (a b : Student F) (hij : i < j)
    (hi : (GetStudentsByDepartment srt students d p)[i]? = some a)
    (hj : (GetStudentsByDepartment srt students d p)[j]? = some b) :
    Float64.gt (a.grade d) (b.grade d) = true ∨
      (Float64.eq (a.grade d) (b.grade d) = true ∧ a.FullName ≤ b.FullName) := by
  obtain ⟨hi', rfl⟩ := List.getElem?_eq_some.mp hi
  obtain ⟨hj', rfl⟩ := List.getElem?_eq_some.mp hj
  have h := List.pairwise_iff_get.mp (getStudentsByDepartment_sorted srt hsrt students d p hnan)
    ⟨i, hi'⟩ ⟨j, hj'⟩ hij
  have hmi := (mem_getStudentsByDepartment srt students d p _).mp
    (List.get_mem (GetStudentsByDepartment srt students d p) i hi')
  have hmj := (mem_getStudentsByDepartment srt students d p _).mp
    (List.get_mem (GetStudentsByDepartment srt students d p) j hj')
  rw [lessByDptGrade_eq_false_iff d _ _ (hnan _ hmj.1 hmj.2) (hnan _ hmi.1 hmi.2)] at h
  rcases h with h | ⟨h, hn⟩
  · exact Or.inl h
  · exact Or.inr ⟨float64_eq_symm _ _ h, hn⟩

/-- C6, as amended. The comparison of `SortStudentsByDptGrade` puts `a` before `b`
exactly when `a` has the higher score, or the scores are equal and `a` has the smaller
full name; it is irreflexive and transitive, and of two applicants with different full
names whose scores for the department are not NaN exactly one comes before the other. -/
theorem lessByDptGrade_strict_total [DecidableEq F] [LawfulFloat64 F] (d : DepartmentName) :
    (∀ a b : Student F, lessByDptGrade d a b = true ↔
      (Float64.gt (a.grade d) (b.grade d) = true ∨
        (Float64.eq (a.grade d) (b.grade d) = true ∧ a.FullName < b.FullName))) ∧
    (∀ a : Student F, lessByDptGrade d a a = false) ∧
    (∀ a b c : Student F, lessByDptGrade d a b = true → lessByDptGrade d b c = true →
      lessByDptGrade d a c = true) ∧
    (∀ a b : Student F, Float64.isNaN (a.grade d) = false →
      Float64.isNaN (b.grade d) = false → a.FullName ≠ b.FullName →
      (lessByDptGrade d a b = true ∧ lessByDptGrade d b a = false) ∨
        (lessByDptGrade d a b = false ∧ lessByDptGrade d b a = true)) := by
  refine ⟨lessByDptGrade_iff d, lessByDptGrade_irrefl d, lessByDptGrade_trans d,
    fun a b ha hb hne => ?_⟩
  by_cases hab : lessByDptGrade d a b = true
  · left
    refine ⟨hab, ?_⟩
    cases hba : lessByDptGrade d b a
    · rfl
    · have h := lessByDptGrade_trans d _ _ _ hab hba
      rw [lessByDptGrade_irrefl] at h
      exact absurd h (by simp)
  · right
    have hab' : lessByDptGrade d a b = false := by simpa using hab
    refine ⟨hab', ?_⟩
    rw [lessByDptGrade_eq_false_iff d a b ha hb] at hab'
    rw [lessByDptGrade_iff]
    rcases hab' with h | ⟨h, hn⟩
    · exact Or.inl h
    · exact Or.inr ⟨float64_eq_symm _ _ h, lt_of_le_of_ne hn (Ne.symm hne)⟩

end RankingOrder


theorem gather_takes_top_witness :
    (((sampleState 1 [bobBay, annApt]).roster "Mathematics").length : Int) <
        (sampleState 1 [bobBay, annApt]).DepartmentsCapacity ∧
      GetStudentsByDepartment (insertionSorter _) (sampleState 1 [bobBay, annApt]).AllStudents
        "Mathematics" 1 ≠ [] ∧
      (GatherSuccessfulApplicantsForDepartment (insertionSorter _) (MapOrder.reversed _)
          "Mathematics" 1 (sampleState 1 [bobBay, annApt])).roster "Mathematics" =
        (sampleState 1 [bobBay, annApt]).roster "Mathematics" ++
          (GetStudentsByDepartment (insertionSorter _)
            (sampleState 1 [bobBay, annApt]).AllStudents "Mathematics" 1).take
            (min ((sampleState 1 [bobBay, annApt]).DepartmentsCapacity -
                (((sampleState 1 [bobBay, annApt]).roster "Mathematics").length : Int)).toNat
              (GetStudentsByDepartment (insertionSorter _)
                (sampleState 1 [bobBay, annApt]).AllStudents "Mathematics" 1).length) ∧
      (GatherSuccessfulApplicantsForDepartment (insertionSorter _) (MapOrder.reversed _)
          "Mathematics" 1 (sampleState 1 [bobBay, annApt])).roster "Mathematics" = [annApt] ∧
      (GatherSuccessfulApplicantsForDepartment (insertionSorter _) (MapOrder.reversed _)
          "Mathematics" 1 (sampleState 1 [bobBay, annApt])).AllStudents = [bobBay] :=
  ⟨by decide, by decide,
    gather_takes_top (insertionSorter _) (MapOrder.reversed _) "Mathematics" 1
      (sampleState 1 [bobBay, annApt]) (by decide),
    by decide, by decide⟩

theorem gather_roster_grows_witness :
    "Physics" ≠ "Mathematics" ∧
      (GatherSuccessfulApplicantsForDepartment (insertionSorter _) (MapOrder.reversed _)
          "Mathematics" 1 (sampleState 1 [bobBay, annApt])).roster "Physics" =
        (sampleState 1 [bobBay, annApt]).roster "Physics" :=
  ⟨by decide,
    (gather_roster_grows (insertionSorter _) (MapOrder.reversed _) "Mathematics" 1
      (sampleState 1 [bobBay, annApt]) "Physics").2 (by decide)⟩

/-- C4, refuted as stated: the list of Amy One (score 1), Bea Nan (score NaN) and Cal Two
(score 2) comes back in this order, since no comparison with NaN holds; at the positions
0 and 2 the first score is neither higher than nor equal to the second. -/
theorem getStudentsByDepartment_ranked_counterexample :
    GetStudentsByDepartment (insertionSorter _) [amyOne, beaNan, calTwo] "Physics" 1 =
        [amyOne, beaNan, calTwo] ∧
      Float64.gt (amyOne.grade "Physics") (calTwo.grade "Physics") = false ∧
      Float64.eq (amyOne.grade "Physics") (calTwo.grade "Physics") = false ∧
      Float64.gt (calTwo.grade "Physics") (amyOne.grade "Physics") = true := by
  decide

theorem getStudentsByDepartment_ranked_witness :
    (insertionSorter (Student ℚ)).Sorts ∧
      (∀ s ∈ [annaLee, amyLee, bobFox], s.dptAt 1 = "Physics" →
        Float64.isNaN (s.grade "Physics") = false) ∧
      GetStudentsByDepartment (insertionSorter _) [annaLee, amyLee, bobFox] "Physics" 1 =
        [amyLee, annaLee, bobFox] ∧
      (Float64.gt (amyLee.grade "Physics") (annaLee.grade "Physics") = true ∨
        (Float64.eq (amyLee.grade "Physics") (annaLee.grade "Physics") = true ∧
          amyLee.FullName ≤ annaLee.FullName)) ∧
      (Float64.gt (annaLee.grade "Physics") (bobFox.grade "Physics") = true ∨
        (Float64.eq (annaLee.grade "Physics") (bobFox.grade "Physics") = true ∧
          annaLee.FullName ≤ bobFox.FullName)) :=
  ⟨insertionSorter_sorts _, by decide, by decide,
    getStudentsByDepartment_ranked (insertionSorter _) (insertionSorter_sorts _)
      [annaLee, amyLee, bobFox] "Physics" 1 (by decide)
      0 1 amyLee annaLee (by decide) (by decide) (by decide),
    getStudentsByDepartment_ranked (insertionSorter _) (insertionSorter_sorts _)
      [annaLee, amyLee, bobFox] "Physics" 1 (by decide)
      1 2 annaLee bobFox (by decide) (by decide) (by decide)⟩

theorem getStudentsByDepartment_filter_witness :
    annaLee.dptAt 1 = "Physics" ∧
      (GetStudentsByDepartment (insertionSorter _) [annaLee, annApt, bobFox] "Physics" 1).count
        annaLee = [annaLee, annApt, bobFox].count annaLee ∧
      annApt.dptAt 1 ≠ "Physics" ∧
      annApt ∉ GetStudentsByDepartment (insertionSorter _) [annaLee, annApt, bobFox] "Physics" 1 :=
  ⟨by decide,
    (getStudentsByDepartment_filter (insertionSorter _) [annaLee, annApt, bobFox] "Physics"
      1).2.1 annaLee (by decide),
    by decide,
    (getStudentsByDepartment_filter (insertionSorter _) [annaLee, annApt, bobFox] "Physics"
      1).2.2 annApt (by decide)⟩

/-- C6, refuted as stated: Amy One (score 1) and Bea Nan (score NaN) have different full
names, and neither comes before the other. -/
theorem lessByDptGrade_strict_total_counterexample :
    amyOne.FullName ≠ beaNan.FullName ∧
      lessByDptGrade "Physics" amyOne beaNan = false ∧
      lessByDptGrade "Physics" beaNan amyOne = false := by
  decide

theorem lessByDptGrade_strict_total_witness :
    Float64.isNaN (annaLee.grade "Physics") = false ∧
      Float64.isNaN (amyLee.grade "Physics") = false ∧
      annaLee.FullName ≠ amyLee.FullName ∧
      ((lessByDptGrade "Physics" annaLee amyLee = true ∧
          lessByDptGrade "Physics" amyLee annaLee = false) ∨
        (lessByDptGrade "Physics" annaLee amyLee = false ∧
          lessByDptGrade "Physics" amyLee annaLee = true)) ∧
      lessByDptGrade "Physics" amyLee annaLee = true ∧
      lessByDptGrade "Physics" annaLee bobFox = true ∧
      lessByDptGrade "Physics" amyLee bobFox = true :=
  ⟨by decide, by decide, by decide,
    (lessByDptGrade_strict_total "Physics").2.2.2 annaLee amyLee (by decide) (by decide)
      (by decide),
    by decide, by decide,
    (lessByDptGrade_strict_total "Physics").2.2.1 amyLee annaLee bobFox (by decide)
      (by decide)⟩

/-- C7. For a record whose fields 3 to 7 parse as the grades physics, chemistry, math, CS
and admission, `ParseStudentFromString` returns an applicant with exactly five composite
scores: Physics `max ((physics + math) / 2) admission`, Chemistry
`max chemistry admission`, Mathematics `max math admission`, Engineering
`max ((CS + math) / 2) admission` and Biotech `max ((chemistry + physics) / 2) admission`. -/
theorem parseStudentFromString_scores {F : Type} [Max F] [Add F] [Div F] [OfNat F 2]
    (parseFloat : String → Except String F) (s : String)
    (f1 f2 f3 f4 f5 f6 f7 f8 f9 f10 : String) (more : List String)
    (physics chemistry math cs admission : F)
    (hsplit : stringsSplit s = f1 :: f2 :: f3 :: f4 :: f5 :: f6 :: f7 :: f8 :: f9 :: f10 :: more)
    (h3 : parseFloat f3 = .ok physics) (h4 : parseFloat f4 = .ok chemistry)
    (h5 : parseFloat f5 = .ok math) (h6 : parseFloat f6 = .ok cs)
    (h7 : parseFloat f7 = .ok admission) :
    ∃ st : Student F, ParseStudentFromString parseFloat s = .ok st ∧
      GoMap.get? st.DptsGrades "Physics" = some (max ((physics + math) / 2) admission) ∧
      GoMap.get? st.DptsGrades "Chemistry" = some (max chemistry admission) ∧
      GoMap.get? st.DptsGrades "Mathematics" = some (max math admission) ∧
      GoMap.get? st.DptsGrades "Engineering" = some (max ((cs + math) / 2) admission) ∧
      GoMap.get? st.DptsGrades "Biotech" = some (max ((chemistry + physics) / 2) admission) ∧
      ∀ d : DepartmentName,
        d ∉ ["Physics", "Chemistry", "Mathematics", "Engineering", "Biotech"] →
          GoMap.get? st.DptsGrades d = none := by
  refine ⟨{
    FirstName := f1
    LastName := f2
    DptsGrades := [
      (DepartmentPhysics, max ((physics + math) / 2) admission),
      (DepartmentChemistry, max chemistry admission),
      (DepartmentMathematics, max math admission),
      (DepartmentEngineering, max ((cs + math) / 2) admission),
      (DepartmentBiotech, max ((chemistry + physics) / 2) admission)]
    DptsByPriority := [(1, f8), (2, f9), (3, f10)] }, ?_, ?_⟩
  · unfold ParseStudentFromString
    rw [hsplit]
    simp only [indexOrCrash, ParseFloat64OrFail, List.get?, bind, Except.bind, h3, h4, h5, h6,
      h7, pure, Except.pure]
  · simp only [GoMap.get?, DepartmentPhysics, DepartmentChemistry, DepartmentMathematics,
      DepartmentEngineering, DepartmentBiotech]
    refine ⟨by simp, by simp, by simp, by simp, by simp, fun d hd => ?_⟩
    simp only [List.mem_cons, List.mem_singleton, List.not_mem_nil, or_false, not_or] at hd
    obtain ⟨h1, h2, h3, h4, h5⟩ := hd
    simp [Ne.symm h1, Ne.symm h2, Ne.symm h3, Ne.symm h4, Ne.symm h5]

theorem parseStudentFromString_scores_witness :
    stringsSplit "Ann Apt 70 60 90 80 75 Mathematics Physics Biotech" =
        ["Ann", "Apt", "70", "60", "90", "80", "75", "Mathematics", "Physics", "Biotech"] ∧
      sampleParseFloat "70" = .ok 70 ∧ sampleParseFloat "60" = .ok 60 ∧
      sampleParseFloat "90" = .ok 90 ∧ sampleParseFloat "80" = .ok 80 ∧
      sampleParseFloat "75" = .ok 75 ∧
      ∃ st : Student ℚ,
        ParseStudentFromString sampleParseFloat
            "Ann Apt 70 60 90 80 75 Mathematics Physics Biotech" = .ok st ∧
          GoMap.get? st.DptsGrades "Physics" = some (max ((70 + 90) / 2) 75) ∧
          GoMap.get? st.DptsGrades "Chemistry" = some (max 60 75) ∧
          GoMap.get? st.DptsGrades "Mathematics" = some (max 90 75) ∧
          GoMap.get? st.DptsGrades "Engineering" = some (max ((80 + 90) / 2) 75) ∧
          GoMap.get? st.DptsGrades "Biotech" = some (max ((60 + 70) / 2) 75) ∧
          ∀ d : DepartmentName,
            d ∉ ["Physics", "Chemistry", "Mathematics", "Engineering", "Biotech"] →
              GoMap.get? st.DptsGrades d = none :=
  ⟨by decide, rfl, rfl, rfl, rfl, rfl,
    parseStudentFromString_scores sampleParseFloat
      "Ann Apt 70 60 90 80 75 Mathematics Physics Biotech"
      "Ann" "Apt" "70" "60" "90" "80" "75" "Mathematics" "Physics" "Biotech" [] 70 60 90 80 75
      (by decide) rfl rfl rfl rfl rfl⟩

section Pool
variable {F : Type}

theorem GoMap.set_of_not_mem {κ ν : Type} [DecidableEq κ] (m : GoMap κ ν) (k : κ) (v : ν)
    (h : k ∉ m.map Prod.fst) : GoMap.set m k v = m ++ [(k, v)] := by
  induction m with
  | nil => rfl
  | cons e rest ih =>
    obtain ⟨k₀, v₀⟩ := e
    simp only [List.map_cons, List.mem_cons, not_or] at h
    simp [GoMap.set, Ne.symm h.1, ih h.2]

theorem foldl_set_of_nodup (pool : List (Student F)) (acc : GoMap FullName (Student F))
    (hnodup : (pool.map Student.FullName).Nodup)
    (hdisj : ∀ s ∈ pool, s.FullName ∉ acc.map Prod.fst) :
    pool.foldl (fun studentsMap student => GoMap.set studentsMap student.FullName student) acc =
      acc ++ pool.map (fun s => (s.FullName, s)) := by
  induction pool generalizing acc with
  | nil => simp
  | cons s rest ih =>
    rw [List.map_cons, List.nodup_cons] at hnodup
    rw [List.foldl_cons, GoMap.set_of_not_mem _ _ _ (hdisj s (List.mem_cons_self _ _)),
      ih _ hnodup.2]
    · simp
    · intro t ht hmem
      rw [List.map_append, List.mem_append] at hmem
      rcases hmem with hmem | hmem
      · exact hdisj t (List.mem_cons_of_mem _ ht) hmem
      · simp only [List.map_cons, List.map_nil, List.mem_singleton] at hmem
        exact hnodup.1 (hmem ▸ List.mem_map_of_mem _ ht)

theorem getMapOfStudentsFromSlice_of_nodup (pool : List (Student F))
    (hnodup : (pool.map Student.FullName).Nodup) :
    GetMapOfStudentsFromSlice pool = pool.map (fun s => (s.FullName, s)) := by
  unfold GetMapOfStudentsFromSlice
  rw [foldl_set_of_nodup pool [] hnodup (by simp)]
  simp

theorem foldl_delete (top : List (Student F)) (m : GoMap FullName (Student F)) :
    top.foldl (fun m student => GoMap.delete m student.FullName) m =
      m.filter (fun e => decide (e.1 ∉ top.map Student.FullName)) := by
  induction top generalizing m with
  | nil => simp
  | cons s rest ih =>
    rw [List.foldl_cons, ih]
    unfold GoMap.delete
    rw [List.filter_filter]
    congr 1
    funext e
    simp only [List.map_cons, List.mem_cons, not_or, ne_eq, Bool.decide_and, Bool.and_comm]

theorem poolAfter_perm_of_nodup (ord : MapOrder (FullName × Student F))
    (top pool : List (Student F)) (hnodup : (pool.map Student.FullName).Nodup) :
    (poolAfter ord top pool).Perm
      (pool.filter (fun s => decide (s.FullName ∉ top.map Student.FullName))) := by
  unfold poolAfter GetSliceOfStudentsFromMap
  rw [foldl_delete, getMapOfStudentsFromSlice_of_nodup pool hnodup]
  refine ((ord.enum_perm _).map Prod.snd).trans ?_
  rw [List.filter_map, List.map_map]
  have : (Prod.snd ∘ fun s : Student F => (s.FullName, s)) = id := rfl
  rw [this, List.map_id]
  exact List.Perm.refl _

theorem filter_mem_names_perm (top pool : List (Student F))
    (hnodup : (pool.map Student.FullName).Nodup) (hsub : top.Subperm pool) :
    (pool.filter (fun s => decide (s.FullName ∈ top.map Student.FullName))).Perm top := by
  have hpool : pool.Nodup := List.Nodup.of_map _ hnodup
  have htop : top.Nodup := by
    obtain ⟨l, hl, hsl⟩ := hsub
    exact hl.nodup_iff.mp (hpool.sublist hsl)
  refine (List.perm_ext_iff_of_nodup (hpool.filter _) htop).mpr (fun a => ?_)
  rw [List.mem_filter, decide_eq_true_iff, List.mem_map]
  constructor
  · rintro ⟨ha, t, ht, hname⟩
    have := List.inj_on_of_nodup_map hnodup (hsub.subset ht) ha hname
    exact this ▸ ht
  · intro ha
    exact ⟨hsub.subset ha, a, ha, rfl⟩

theorem poolAfter_append_perm (ord : MapOrder (FullName × Student F))
    (top pool : List (Student F)) (hnodup : (pool.map Student.FullName).Nodup)
    (hsub : top.Subperm pool) :
    (poolAfter ord top pool ++ top).Perm pool := by
  refine ((poolAfter_perm_of_nodup ord top pool hnodup).append
    (filter_mem_names_perm top pool hnodup hsub).symm).trans ?_
  refine List.perm_append_comm.trans ?_
  have h := List.filter_append_perm
    (fun s => decide (s.FullName ∈ top.map Student.FullName)) pool
  have hfun : (fun s : Student F => decide (s.FullName ∉ top.map Student.FullName)) =
      fun s => !decide (s.FullName ∈ top.map Student.FullName) := by
    funext s
    by_cases hs : s.FullName ∈ top.map Student.FullName
    · rw [decide_eq_true hs, decide_eq_false (by simpa using hs)]
      rfl
    · rw [decide_eq_false hs, decide_eq_true hs]
      rfl
  rw [hfun]
  exact h

theorem poolAfter_names_nodup (ord : MapOrder (FullName × Student F))
    (top pool : List (Student F)) (hnodup : (pool.map Student.FullName).Nodup) :
    ((poolAfter ord top pool).map Student.FullName).Nodup := by
  have h := (poolAfter_perm_of_nodup ord top pool hnodup).map Student.FullName
  rw [h.nodup_iff]
  exact hnodup.sublist ((List.filter_sublist _).map _)

end Pool

section Admitted
variable {F : Type} [Float64 F]

theorem admittedBy_subperm [DecidableEq F]
    (srt : SliceSorter (Student F)) (d : DepartmentName) (p : Int)
    (de : DepartmentsEnrolment F) : (admittedBy srt d p de).Subperm de.AllStudents := by
  unfold admittedBy
  split_ifs
  · exact List.nil_subperm
  · exact ((List.take_sublist _ _).subperm.trans
      (getStudentsByDepartment_perm srt de.AllStudents d p).subperm).trans
      (List.filter_sublist _).subperm

end Admitted

section Partition
variable {F : Type} [Float64 F]

theorem allStudents_gather [DecidableEq F] (srt : SliceSorter (Student F))
    (ord : MapOrder (FullName × Student F)) (d : DepartmentName) (p : Int)
    (de : DepartmentsEnrolment F) :
    (GatherSuccessfulApplicantsForDepartment srt ord d p de).AllStudents =
      if admittedBy srt d p de = [] then de.AllStudents
      else poolAfter ord (admittedBy srt d p de) de.AllStudents := by
  rw [gather_eq]
  split_ifs <;> rfl

theorem allStudents_gather_append_perm [DecidableEq F] (srt : SliceSorter (Student F))
    (ord : MapOrder (FullName × Student F)) (d : DepartmentName) (p : Int)
    (de : DepartmentsEnrolment F) (hnodup : (de.AllStudents.map Student.FullName).Nodup) :
    ((GatherSuccessfulApplicantsForDepartment srt ord d p de).AllStudents ++
      admittedBy srt d p de).Perm de.AllStudents := by
  rw [allStudents_gather]
  split_ifs with h
  · rw [h, List.append_nil]
  · exact poolAfter_append_perm ord _ _ hnodup (admittedBy_subperm srt d p de)

theorem allStudents_gather_names_nodup [DecidableEq F] (srt : SliceSorter (Student F))
    (ord : MapOrder (FullName × Student F)) (d : DepartmentName) (p : Int)
    (de : DepartmentsEnrolment F) (hnodup : (de.AllStudents.map Student.FullName).Nodup) :
    ((GatherSuccessfulApplicantsForDepartment srt ord d p de).AllStudents.map
      Student.FullName).Nodup := by
  rw [allStudents_gather]
  split_ifs with h
  · exact hnodup
  · exact poolAfter_names_nodup ord _ _ hnodup

theorem everyone_gather_perm [DecidableEq F] (srt : SliceSorter (Student F))
    (ord : MapOrder (FullName × Student F)) (d : DepartmentName) (p : Int)
    (de : DepartmentsEnrolment F) (hd : d ∈ dptsNames)
    (hnodup : (de.AllStudents.map Student.FullName).Nodup) :
    (GatherSuccessfulApplicantsForDepartment srt ord d p de).everyone.Perm de.everyone := by
  have hpool := allStudents_gather_append_perm srt ord d p de hnodup
  rw [List.perm_iff_count] at hpool ⊢
  intro a
  have ha := hpool a
  unfold DepartmentsEnrolment.everyone
  simp only [roster_gather, List.count_append] at ha ⊢
  simp only [dptsNames, DepartmentMathematics, DepartmentEngineering, DepartmentPhysics,
    DepartmentBiotech, DepartmentChemistry, List.mem_cons, List.mem_singleton,
    List.not_mem_nil, or_false] at hd
  rcases hd with rfl | rfl | rfl | rfl | rfl <;> simp [List.count_append] <;> omega

/-- C2. For applicants with pairwise distinct full names, in the final state of
`ProceedEnrolment n`, as in the state after each of its steps, the pool followed by the
five rosters is a rearrangement of the original applicant list and holds nobody twice:
every applicant is in the pool or in one roster, exactly once, and nobody else is
present. -/
theorem pool_and_rosters_partition [DecidableEq F] (srt : SliceSorter (Student F))
    (ord : Int → DepartmentName → MapOrder (FullName × Student F)) (c : Int)
    (students : List (Student F)) (n : Int) (de₀ : DepartmentsEnrolment F)
    (hnames : (students.map Student.FullName).Nodup)
    (hcreate : CreateDepartmentsEnrolment c students = .ok de₀) :
    ((ProceedEnrolment srt ord n de₀).everyone.Perm students ∧
        (ProceedEnrolment srt ord n de₀).everyone.Nodup) ∧
      ∀ k, (stateAfter srt ord n k de₀).everyone.Perm students ∧
        (stateAfter srt ord n k de₀).everyone.Nodup := by
  obtain ⟨_, rfl⟩ := create_eq_ok c students de₀ hcreate
  have hstudents : students.Nodup := List.Nodup.of_map _ hnames
  have key : ∀ steps : List (Int × DepartmentName), (∀ st ∈ steps, st.2 ∈ dptsNames) →
      (runSteps srt ord steps
        (DepartmentsEnrolment.mk c [(DepartmentMathematics, []), (DepartmentPhysics, []),
          (DepartmentBiotech, []), (DepartmentChemistry, []), (DepartmentEngineering, [])]
          students)).everyone.Perm students := by
    intro steps hsteps
    refine (runSteps_induction srt ord
      (fun de => (de.AllStudents.map Student.FullName).Nodup ∧ de.everyone.Perm students) steps
      (fun st hst o de h => ⟨allStudents_gather_names_nodup srt o st.2 st.1 de h.1,
        (everyone_gather_perm srt o st.2 st.1 de (hsteps st hst) h.1).trans h.2⟩) _
      ⟨hnames, ?_⟩).2
    simp [DepartmentsEnrolment.everyone, DepartmentsEnrolment.roster, GoMap.get?,
      DepartmentMathematics, DepartmentEngineering, DepartmentPhysics, DepartmentBiotech,
      DepartmentChemistry]
  have hall : ∀ st ∈ enrolmentSteps n, st.2 ∈ dptsNames :=
    fun st hst => (mem_enrolmentSteps n st hst).1
  refine ⟨?_, fun k => ?_⟩
  · rw [proceedEnrolment_eq_runSteps]
    exact ⟨key _ hall, (key _ hall).nodup_iff.mpr hstudents⟩
  · have hk := key ((enrolmentSteps n).take k) (fun st hst => hall st (List.mem_of_mem_take hst))
    exact ⟨hk, hk.nodup_iff.mpr hstudents⟩

end Partition

theorem roster_length_le_capacity_witness :
    (0 : Int) ≤ 1 ∧
      ∃ de₀, CreateDepartmentsEnrolment 1 [bobBay, annApt, annaLee] = .ok de₀ ∧
        ∀ d ∈ ["Mathematics", "Engineering", "Physics", "Biotech", "Chemistry"],
          (((ProceedEnrolment (insertionSorter _) (fun _ _ => MapOrder.reversed _) 3
            de₀).roster d).length : Int) ≤ 1 ∧
          ∀ k, (((stateAfter (insertionSorter _) (fun _ _ => MapOrder.reversed _) 3 k
            de₀).roster d).length : Int) ≤ 1 :=
  ⟨by decide,
    roster_length_le_capacity (insertionSorter _) (fun _ _ => MapOrder.reversed _) 1
      (by decide) [bobBay, annApt, annaLee] 3⟩

theorem pool_and_rosters_partition_witness :
    ([bobBay, annApt, annaLee].map Student.FullName).Nodup ∧
      CreateDepartmentsEnrolment 1 [bobBay, annApt, annaLee] =
        .ok (sampleState 1 [bobBay, annApt, annaLee]) ∧
      (ProceedEnrolment (insertionSorter _) (fun _ _ => MapOrder.reversed _) 3
        (sampleState 1 [bobBay, annApt, annaLee])).everyone = [annApt, annaLee, bobBay] ∧
      ((ProceedEnrolment (insertionSorter _) (fun _ _ => MapOrder.reversed _) 3
            (sampleState 1 [bobBay, annApt, annaLee])).everyone.Perm
          [bobBay, annApt, annaLee] ∧
        (ProceedEnrolment (insertionSorter _) (fun _ _ => MapOrder.reversed _) 3
          (sampleState 1 [bobBay, annApt, annaLee])).everyone.Nodup) :=
  ⟨by decide, rfl, by decide,
    (pool_and_rosters_partition (insertionSorter _) (fun _ _ => MapOrder.reversed _) 1
      [bobBay, annApt, annaLee] 3 (sampleState 1 [bobBay, annApt, annaLee]) (by decide) rfl).1⟩

section Determinism
variable {F : Type} [Float64 F]

theorem lessByDptGrade_of_names_ne [DecidableEq F] [LawfulFloat64 F]
    (d : DepartmentName) (a b : Student F)
    (ha : Float64.isNaN (a.grade d) = false) (hb : Float64.isNaN (b.grade d) = false)
    (hne : a.FullName ≠ b.FullName) (h : lessByDptGrade d b a = false) :
    lessByDptGrade d a b = true := by
  rw [lessByDptGrade_eq_false_iff d b a hb ha] at h
  rw [lessByDptGrade_iff]
  rcases h with h | ⟨h, hn⟩
  · exact Or.inl h
  · exact Or.inr ⟨float64_eq_symm _ _ h, lt_of_le_of_ne hn hne⟩

theorem getStudentsByDepartment_strictly_sorted [DecidableEq F] [LawfulFloat64 F]
    (srt : SliceSorter (Student F))
    (hsrt : srt.Sorts) (students : List (Student F)) (d : DepartmentName) (p : Int)
    (hnan : ∀ s ∈ students, s.dptAt p = d → Float64.isNaN (s.grade d) = false)
    (hnodup : (students.map Student.FullName).Nodup) :
    (GetStudentsByDepartment srt students d p).Pairwise
      (fun a b => lessByDptGrade d a b = true) := by
  have hperm := getStudentsByDepartment_perm srt students d p
  have hnames : ((GetStudentsByDepartment srt students d p).map Student.FullName).Nodup := by
    rw [(hperm.map Student.FullName).nodup_iff]
    exact hnodup.sublist ((List.filter_sublist _).map _)
  have hne : (GetStudentsByDepartment srt students d p).Pairwise
      (fun a b => a.FullName ≠ b.FullName) := List.pairwise_map.mp hnames
  refine ((getStudentsByDepartment_sorted srt hsrt students d p hnan).and hne).imp_of_mem
    (fun {a b} ha hb h => ?_)
  have ha' := (mem_getStudentsByDepartment srt students d p a).mp ha
  have hb' := (mem_getStudentsByDepartment srt students d p b).mp hb
  exact lessByDptGrade_of_names_ne d a b (hnan a ha'.1 ha'.2) (hnan b hb'.1 hb'.2) h.2 h.1

theorem getStudentsByDepartment_unique [DecidableEq F] [LawfulFloat64 F]
    (srt₁ srt₂ : SliceSorter (Student F))
    (hsrt₁ : srt₁.Sorts) (hsrt₂ : srt₂.Sorts)
    (students₁ students₂ : List (Student F)) (d : DepartmentName) (p : Int)
    (hperm : students₁.Perm students₂)
    (hnan : ∀ s ∈ students₁, s.dptAt p = d → Float64.isNaN (s.grade d) = false)
    (hnodup : (students₁.map Student.FullName).Nodup) :
    GetStudentsByDepartment srt₁ students₁ d p = GetStudentsByDepartment srt₂ students₂ d p := by
  have hnodup₂ : (students₂.map Student.FullName).Nodup :=
    (hperm.map Student.FullName).nodup_iff.mp hnodup
  have hnan₂ : ∀ s ∈ students₂, s.dptAt p = d → Float64.isNaN (s.grade d) = false :=
    fun s hs => hnan s (hperm.mem_iff.mpr hs)
  have h₁ := getStudentsByDepartment_strictly_sorted srt₁ hsrt₁ students₁ d p hnan hnodup
  have h₂ := getStudentsByDepartment_strictly_sorted srt₂ hsrt₂ students₂ d p hnan₂ hnodup₂
  have hp : (GetStudentsByDepartment srt₁ students₁ d p).Perm
      (GetStudentsByDepartment srt₂ students₂ d p) :=
    ((getStudentsByDepartment_perm srt₁ students₁ d p).trans (hperm.filter _)).trans
      (getStudentsByDepartment_perm srt₂ students₂ d p).symm
  have hanti : IsAntisymm (Student F) (fun a b => lessByDptGrade d a b = true) :=
    ⟨fun a b hab hba => by
      have h := lessByDptGrade_trans d a b a hab hba
      rw [lessByDptGrade_irrefl] at h
      exact absurd h (by simp)⟩
  exact List.eq_of_perm_of_sorted hp h₁ h₂

theorem sameUpToPoolOrder_gather [DecidableEq F] [LawfulFloat64 F]
    (srt₁ srt₂ : SliceSorter (Student F))
    (hsrt₁ : srt₁.Sorts) (hsrt₂ : srt₂.Sorts)
    (o₁ o₂ : MapOrder (FullName × Student F)) (d : DepartmentName) (p : Int)
    (de₁ de₂ : DepartmentsEnrolment F) (h : SameUpToPoolOrder de₁ de₂)
    (hnan : ∀ s ∈ de₁.AllStudents, s.dptAt p = d → Float64.isNaN (s.grade d) = false) :
    SameUpToPoolOrder (GatherSuccessfulApplicantsForDepartment srt₁ o₁ d p de₁)
      (GatherSuccessfulApplicantsForDepartment srt₂ o₂ d p de₂) := by
  obtain ⟨hcap, hrosters, hperm, hnodup⟩ := h
  have hnodup₂ : (de₂.AllStudents.map Student.FullName).Nodup :=
    (hperm.map Student.FullName).nodup_iff.mp hnodup
  have hroster : de₁.roster d = de₂.roster d := by
    unfold DepartmentsEnrolment.roster
    rw [hrosters]
  have htop : admittedBy srt₁ d p de₁ = admittedBy srt₂ d p de₂ := by
    unfold admittedBy
    rw [hroster, hcap,
      getStudentsByDepartment_unique srt₁ srt₂ hsrt₁ hsrt₂ _ _ d p hperm hnan hnodup]
  rw [gather_eq, gather_eq, htop]
  split_ifs with hempty
  · exact ⟨hcap, hrosters, hperm, hnodup⟩
  · refine ⟨hcap, ?_, ?_, poolAfter_names_nodup o₁ _ _ hnodup⟩
    · show GoMap.set de₁.DepartmentsStudents d _ = GoMap.set de₂.DepartmentsStudents d _
      rw [hrosters, hroster]
    · exact ((poolAfter_perm_of_nodup o₁ _ _ hnodup).trans (hperm.filter _)).trans
        (poolAfter_perm_of_nodup o₂ _ _ hnodup₂).symm

theorem mem_allStudents_gather_of_nodup [DecidableEq F] (srt : SliceSorter (Student F))
    (ord : MapOrder (FullName × Student F)) (d : DepartmentName) (p : Int)
    (de : DepartmentsEnrolment F) (hnodup : (de.AllStudents.map Student.FullName).Nodup)
    (s : Student F)
    (hs : s ∈ (GatherSuccessfulApplicantsForDepartment srt ord d p de).AllStudents) :
    s ∈ de.AllStudents :=
  (allStudents_gather_append_perm srt ord d p de hnodup).mem_iff.mp
    (List.mem_append_left _ hs)

theorem sameUpToPoolOrder_runSteps [DecidableEq F] [LawfulFloat64 F]
    (srt₁ srt₂ : SliceSorter (Student F))
    (hsrt₁ : srt₁.Sorts) (hsrt₂ : srt₂.Sorts)
    (ord₁ ord₂ : Int → DepartmentName → MapOrder (FullName × Student F))
    (steps : List (Int × DepartmentName)) (de₁ de₂ : DepartmentsEnrolment F)
    (h : SameUpToPoolOrder de₁ de₂)
    (hnan : ∀ s ∈ de₁.AllStudents, ∀ st ∈ steps, s.dptAt st.1 = st.2 →
      Float64.isNaN (s.grade st.2) = false) :
    SameUpToPoolOrder (runSteps srt₁ ord₁ steps de₁) (runSteps srt₂ ord₂ steps de₂) := by
  induction steps generalizing de₁ de₂ with
  | nil => exact h
  | cons st rest ih =>
    refine ih _ _ (sameUpToPoolOrder_gather srt₁ srt₂ hsrt₁ hsrt₂ _ _ st.2 st.1 de₁ de₂ h
      (fun s hs => hnan s hs st (List.mem_cons_self _ _))) (fun s hs st' hst' => ?_)
    exact hnan s (mem_allStudents_gather_of_nodup srt₁ _ st.2 st.1 de₁ h.2.2.2 s hs) st'
      (List.mem_cons_of_mem _ hst')

/-- C8, as amended. When no applicant has a NaN score for a department of the five that
they list, the rosters depend on the capacity and the set of applicants alone: two runs of
`ProceedEnrolment n` (in particular `n = 3`) from initial pools that are rearrangements of
one another, full names pairwise distinct, end with the same roster for every department,
same applicants in the same order, whatever order each step enumerates the map in and
whichever arrangement `sort.Slice` picks among the sorted ones. -/
theorem rosters_determined [DecidableEq F] [LawfulFloat64 F] (srt₁ srt₂ : SliceSorter (Student F))
    (hsrt₁ : srt₁.Sorts) (hsrt₂ : srt₂.Sorts)
    (ord₁ ord₂ : Int → DepartmentName → MapOrder (FullName × Student F)) (c : Int)
    (students₁ students₂ : List (Student F)) (n : Int) (de₁ de₂ : DepartmentsEnrolment F)
    (hperm : students₁.Perm students₂) (hnames : (students₁.map Student.FullName).Nodup)
    (hnan : ∀ s ∈ students₁, ∀ p : Int, s.dptAt p ∈ dptsNames →
      Float64.isNaN (s.grade (s.dptAt p)) = false)
    (h₁ : CreateDepartmentsEnrolment c students₁ = .ok de₁)
    (h₂ : CreateDepartmentsEnrolment c students₂ = .ok de₂) (d : DepartmentName) :
    (ProceedEnrolment srt₁ ord₁ n de₁).roster d = (ProceedEnrolment srt₂ ord₂ n de₂).roster d := by
  obtain ⟨_, rfl⟩ := create_eq_ok c students₁ de₁ h₁
  obtain ⟨_, rfl⟩ := create_eq_ok c students₂ de₂ h₂
  rw [proceedEnrolment_eq_runSteps, proceedEnrolment_eq_runSteps]
  have h := sameUpToPoolOrder_runSteps srt₁ srt₂ hsrt₁ hsrt₂ ord₁ ord₂ (enrolmentSteps n) _ _
    (show SameUpToPoolOrder
      (DepartmentsEnrolment.mk c [(DepartmentMathematics, []), (DepartmentPhysics, []),
        (DepartmentBiotech, []), (DepartmentChemistry, []), (DepartmentEngineering, [])]
        students₁)
      (DepartmentsEnrolment.mk c [(DepartmentMathematics, []), (DepartmentPhysics, []),
        (DepartmentBiotech, []), (DepartmentChemistry, []), (DepartmentEngineering, [])]
        students₂) from ⟨rfl, rfl, hperm, hnames⟩)
    (fun s hs st hst hd => by
      have h5 := (mem_enrolmentSteps n st hst).1
      rw [← hd] at h5 ⊢
      exact hnan s hs st.1 h5)
  unfold DepartmentsEnrolment.roster
  rw [h.2.1]

end Determinism

/-- C8, refuted as stated: with capacity 1 and the applicants Amy One (score 1) and Bea Nan
(score NaN), both listing Physics first, the pool in the order Amy, Bea ends with Amy in
Physics and the pool in the order Bea, Amy with Bea, since the sort moves neither. -/
theorem rosters_determined_counterexample :
    [amyOne, beaNan].Perm [beaNan, amyOne] ∧
      ([amyOne, beaNan].map Student.FullName).Nodup ∧
      CreateDepartmentsEnrolment 1 [amyOne, beaNan] = .ok (nanState 1 [amyOne, beaNan]) ∧
      CreateDepartmentsEnrolment 1 [beaNan, amyOne] = .ok (nanState 1 [beaNan, amyOne]) ∧
      (ProceedEnrolment (insertionSorter _) (fun _ _ => MapOrder.insertion _) 3
          (nanState 1 [amyOne, beaNan])).roster "Physics" = [amyOne] ∧
      (ProceedEnrolment (insertionSorter _) (fun _ _ => MapOrder.insertion _) 3
          (nanState 1 [beaNan, amyOne])).roster "Physics" = [beaNan] :=
  ⟨by decide, by decide, rfl, rfl, by decide, by decide⟩

theorem rosters_determined_witness :
    (insertionSorter (Student ℚ)).Sorts ∧
      [bobBay, annApt, annaLee].Perm [annaLee, bobBay, annApt] ∧
      ([bobBay, annApt, annaLee].map Student.FullName).Nodup ∧
      (∀ s ∈ [bobBay, annApt, annaLee], ∀ p : Int, s.dptAt p ∈ dptsNames →
        Float64.isNaN (s.grade (s.dptAt p)) = false) ∧
      CreateDepartmentsEnrolment 1 [bobBay, annApt, annaLee] =
        .ok (sampleState 1 [bobBay, annApt, annaLee]) ∧
      CreateDepartmentsEnrolment 1 [annaLee, bobBay, annApt] =
        .ok (sampleState 1 [annaLee, bobBay, annApt]) ∧
      (ProceedEnrolment (insertionSorter _) (fun _ _ => MapOrder.insertion _) 3
          (sampleState 1 [bobBay, annApt, annaLee])).roster "Biotech" =
        (ProceedEnrolment (insertionSorter _) (fun _ _ => MapOrder.reversed _) 3
          (sampleState 1 [annaLee, bobBay, annApt])).roster "Biotech" ∧
      (ProceedEnrolment (insertionSorter _) (fun _ _ => MapOrder.reversed _) 3
          (sampleState 1 [annaLee, bobBay, annApt])).roster "Biotech" = [bobBay] :=
  ⟨insertionSorter_sorts _, by decide, by decide, fun _ _ _ _ => rfl, rfl, rfl,
    rosters_determined (insertionSorter _) (insertionSorter _)
      (insertionSorter_sorts _) (insertionSorter_sorts _)
      (fun _ _ => MapOrder.insertion _) (fun _ _ => MapOrder.reversed _) 1
      [bobBay, annApt, annaLee] [annaLee, bobBay, annApt] 3
      (sampleState 1 [bobBay, annApt, annaLee]) (sampleState 1 [annaLee, bobBay, annApt])
      (by decide) (by decide) (fun _ _ _ _ => rfl) rfl rfl "Biotech",
    by decide⟩

section Lines
variable {F : Type} [Float64 F]

theorem keys_gather [DecidableEq F]
    (srt : SliceSorter (Student F)) (ord : MapOrder (FullName × Student F))
    (d : DepartmentName) (p : Int) (de : DepartmentsEnrolment F)
    (hd : d ∈ de.DepartmentsStudents.map Prod.fst) :
    (GatherSuccessfulApplicantsForDepartment srt ord d p de).DepartmentsStudents.map Prod.fst =
      de.DepartmentsStudents.map Prod.fst := by
  rw [gather_eq]
  split_ifs
  · rfl
  · exact GoMap.keys_set_of_mem _ _ _ hd

theorem keys_proceedEnrolment [DecidableEq F] (srt : SliceSorter (Student F))
    (ord : Int → DepartmentName → MapOrder (FullName × Student F)) (c : Int)
    (students : List (Student F)) (n : Int) (de₀ : DepartmentsEnrolment F)
    (hcreate : CreateDepartmentsEnrolment c students = .ok de₀) :
    (ProceedEnrolment srt ord n de₀).DepartmentsStudents.map Prod.fst =
      ["Mathematics", "Physics", "Biotech", "Chemistry", "Engineering"] := by
  obtain ⟨_, rfl⟩ := create_eq_ok c students de₀ hcreate
  rw [proceedEnrolment_eq_runSteps]
  refine runSteps_induction srt ord
    (fun de => de.DepartmentsStudents.map Prod.fst =
      ["Mathematics", "Physics", "Biotech", "Chemistry", "Engineering"]) (enrolmentSteps n)
    (fun st hst o de h => ?_) _ rfl
  have hd := (mem_enrolmentSteps n st hst).1
  have hmem : st.2 ∈ de.DepartmentsStudents.map Prod.fst := by
    rw [h]
    simp only [dptsNames, DepartmentMathematics, DepartmentEngineering, DepartmentPhysics,
      DepartmentBiotech, DepartmentChemistry, List.mem_cons, List.mem_singleton,
      List.not_mem_nil, or_false] at hd ⊢
    tauto
  show (GatherSuccessfulApplicantsForDepartment srt o st.2 st.1 de).DepartmentsStudents.map
    Prod.fst = _
  rw [keys_gather srt o st.2 st.1 de hmem, h]

theorem getDptStudentsLines_error_iff (srt : SliceSorter (Student F)) (fmt2 : F → String)
    (name : DepartmentName) (de : DepartmentsEnrolment F) :
    GetDptStudentsLines srt fmt2 name de = .error (.fatal "Unknown department name") ↔
      name ∉ de.DepartmentsStudents.map Prod.fst := by
  rw [← GoMap.get?_eq_none_iff]
  unfold GetDptStudentsLines
  cases h : GoMap.get? de.DepartmentsStudents name with
  | none => simp
  | some stored => simp

/-- C10. In a state built by `CreateDepartmentsEnrolment` and advanced by
`ProceedEnrolment`, `GetDptStudentsLines name` ends in the fatal error
`Unknown department name` exactly when `name` is none of Mathematics, Physics, Biotech,
Chemistry, Engineering; for each of these five it returns a string. -/
theorem getDptStudentsLines_fatal_iff [DecidableEq F] (srt : SliceSorter (Student F))
    (ord : Int → DepartmentName → MapOrder (FullName × Student F)) (fmt2 : F → String)
    (c : Int) (students : List (Student F)) (n : Int) (de₀ : DepartmentsEnrolment F)
    (hcreate : CreateDepartmentsEnrolment c students = .ok de₀) (name : DepartmentName) :
    (GetDptStudentsLines srt fmt2 name (ProceedEnrolment srt ord n de₀) =
        .error (.fatal "Unknown department name") ↔
      name ∉ ["Mathematics", "Physics", "Biotech", "Chemistry", "Engineering"]) ∧
    (name ∈ ["Mathematics", "Physics", "Biotech", "Chemistry", "Engineering"] →
      ∃ (text : String) (de : DepartmentsEnrolment F),
        GetDptStudentsLines srt fmt2 name (ProceedEnrolment srt ord n de₀) = .ok (text, de)) := by
  have hkeys := keys_proceedEnrolment srt ord c students n de₀ hcreate
  refine ⟨by rw [getDptStudentsLines_error_iff, hkeys], fun hname => ?_⟩
  rw [← hkeys] at hname
  unfold GetDptStudentsLines
  cases h : GoMap.get? (ProceedEnrolment srt ord n de₀).DepartmentsStudents name with
  | none => exact absurd hname ((GoMap.get?_eq_none_iff _ _).mp h)
  | some stored => exact ⟨_, _, rfl⟩

end Lines

theorem getDptStudentsLines_fatal_iff_witness :
    CreateDepartmentsEnrolment 1 [bobBay, annApt, annaLee] =
        .ok (sampleState 1 [bobBay, annApt, annaLee]) ∧
      "Physics" ∈ ["Mathematics", "Physics", "Biotech", "Chemistry", "Engineering"] ∧
      (∃ (text : String) (de : DepartmentsEnrolment ℚ),
        GetDptStudentsLines (insertionSorter _) (fun _ => "0.00") "Physics"
          (ProceedEnrolment (insertionSorter _) (fun _ _ => MapOrder.reversed _) 3
            (sampleState 1 [bobBay, annApt, annaLee])) = .ok (text, de)) ∧
      "Art" ∉ ["Mathematics", "Physics", "Biotech", "Chemistry", "Engineering"] ∧
      GetDptStudentsLines (insertionSorter _) (fun _ => "0.00") "Art"
          (ProceedEnrolment (insertionSorter _) (fun _ _ => MapOrder.reversed _) 3
            (sampleState 1 [bobBay, annApt, annaLee])) =
        .error (.fatal "Unknown department name") :=
  ⟨rfl, by decide,
    (getDptStudentsLines_fatal_iff (insertionSorter _) (fun _ _ => MapOrder.reversed _)
      (fun _ => "0.00") 1 [bobBay, annApt, annaLee] 3 (sampleState 1 [bobBay, annApt, annaLee])
      rfl "Physics").2 (by decide),
    by decide,
    (getDptStudentsLines_fatal_iff (insertionSorter _) (fun _ _ => MapOrder.reversed _)
      (fun _ => "0.00") 1 [bobBay, annApt, annaLee] 3 (sampleState 1 [bobBay, annApt, annaLee])
      rfl "Art").1.mpr (by decide)⟩

section UnknownDepartment
variable {F : Type} [Float64 F]

theorem admittedBy_eq_nil_iff [DecidableEq F]
    (srt : SliceSorter (Student F)) (d : DepartmentName) (p : Int)
    (de : DepartmentsEnrolment F) :
    admittedBy srt d p de = [] ↔
      (de.DepartmentsCapacity ≤ ((de.roster d).length : Int) ∨
        ∀ a ∈ de.AllStudents, a.dptAt p ≠ d) := by
  unfold admittedBy
  have hmem : ∀ a, a ∈ GetStudentsByDepartment srt de.AllStudents d p ↔
      a ∈ de.AllStudents ∧ a.dptAt p = d := by
    intro a
    rw [(getStudentsByDepartment_perm srt de.AllStudents d p).mem_iff, List.mem_filter,
      decide_eq_true_iff]
  by_cases hcap : ((de.roster d).length : Int) ≥ de.DepartmentsCapacity
  · rw [if_pos hcap]
    exact ⟨fun _ => Or.inl hcap, fun _ => rfl⟩
  · rw [if_neg hcap]
    have hpos : 0 < (de.DepartmentsCapacity - ((de.roster d).length : Int)).toNat := by omega
    constructor
    · intro h
      right
      intro a ha hd
      have hL : GetStudentsByDepartment srt de.AllStudents d p = [] := by
        rcases List.take_eq_nil_iff.mp h with h0 | h0
        · omega
        · exact h0
      have := (hmem a).mpr ⟨ha, hd⟩
      rw [hL] at this
      exact absurd this (List.not_mem_nil _)
    · rintro (h | h)
      · exfalso
        omega
      · have hL : GetStudentsByDepartment srt de.AllStudents d p = [] := by
          apply List.eq_nil_iff_forall_not_mem.mpr
          intro a ha
          exact h a ((hmem a).mp ha).1 ((hmem a).mp ha).2
        rw [hL, List.take_nil]

end UnknownDepartment

/-- C11, a missing guard in the code: for the name `Art`, which is none of the five
departments and has no roster in the state, the admission step on a pool holding one
applicant who lists `Art` first does not end in the fatal error; it returns a state with a
sixth roster under `Art` holding that applicant, and an empty pool. On the same state
`GetDptStudentsLines` does end in the fatal error for `Art`. -/
theorem gather_unknown_department_creates_roster :
    "Art" ∉ ["Mathematics", "Physics", "Biotech", "Chemistry", "Engineering"] ∧
      CreateDepartmentsEnrolment 1 [artFan] = .ok (sampleState 1 [artFan]) ∧
      GoMap.get? (sampleState 1 [artFan]).DepartmentsStudents "Art" = none ∧
      GoMap.get? (GatherSuccessfulApplicantsForDepartment (insertionSorter _)
        (MapOrder.insertion _) "Art" 1 (sampleState 1 [artFan])).DepartmentsStudents "Art" =
          some [artFan] ∧
      (sampleState 1 [artFan]).AllStudents = [artFan] ∧
      (GatherSuccessfulApplicantsForDepartment (insertionSorter _) (MapOrder.insertion _)
        "Art" 1 (sampleState 1 [artFan])).AllStudents = [] ∧
      GetDptStudentsLines (insertionSorter _) sampleFmt2 "Art" (sampleState 1 [artFan]) =
        .error (.fatal "Unknown department name") :=
  ⟨by decide, rfl, by decide, by decide, by decide, by decide, rfl⟩

theorem stringsSplit_fields (f1 f2 f3 f4 f5 f6 f7 f8 f9 f10 : String)
    (hnospace : ∀ f ∈ [f1, f2, f3, f4, f5, f6, f7, f8, f9, f10], ' ' ∉ f.toList) :
    stringsSplit (f1 ++ " " ++ f2 ++ " " ++ f3 ++ " " ++ f4 ++ " " ++ f5 ++ " " ++ f6 ++ " " ++
        f7 ++ " " ++ f8 ++ " " ++ f9 ++ " " ++ f10) =
      [f1, f2, f3, f4, f5, f6, f7, f8, f9, f10] := by
  have h : ([' '].intercalate [f1.toList, f2.toList, f3.toList, f4.toList, f5.toList,
      f6.toList, f7.toList, f8.toList, f9.toList, f10.toList]).splitOn ' ' =
      [f1.toList, f2.toList, f3.toList, f4.toList, f5.toList, f6.toList, f7.toList,
        f8.toList, f9.toList, f10.toList] := List.splitOn_intercalate _ ' '
    (by
      intro l hl
      simp only [List.mem_cons, List.mem_singleton, List.not_mem_nil, or_false] at hl
      rcases hl with rfl | rfl | rfl | rfl | rfl | rfl | rfl | rfl | rfl | rfl <;>
        exact hnospace _ (by simp))
    (by simp)
  unfold stringsSplit
  have hdata : (f1 ++ " " ++ f2 ++ " " ++ f3 ++ " " ++ f4 ++ " " ++ f5 ++ " " ++ f6 ++ " " ++
      f7 ++ " " ++ f8 ++ " " ++ f9 ++ " " ++ f10).toList =
      [' '].intercalate [f1.toList, f2.toList, f3.toList, f4.toList, f5.toList, f6.toList,
        f7.toList, f8.toList, f9.toList, f10.toList] := by
    simp [String.toList, List.intercalate, List.intersperse]
  rw [hdata, h]
  rfl

/-- C14, as amended. For every line made of ten fields that contain no space, joined by
single spaces, whose fields 3 to 7 are numerals, `ParseStudentFromString` returns an
applicant whose first name is field 1, whose last name is field 2 and whose preferences
at priority 1, 2 and 3 are fields 8, 9 and 10. -/
theorem parseStudentFromString_fields {F : Type} [Max F] [Add F] [Div F] [OfNat F 2]
    (parseFloat : String → Except String F) (f1 f2 f3 f4 f5 f6 f7 f8 f9 f10 : String)
    (physics chemistry math cs admission : F)
    (hnospace : ∀ f ∈ [f1, f2, f3, f4, f5, f6, f7, f8, f9, f10], ' ' ∉ f.toList)
    (h3 : parseFloat f3 = .ok physics) (h4 : parseFloat f4 = .ok chemistry)
    (h5 : parseFloat f5 = .ok math) (h6 : parseFloat f6 = .ok cs)
    (h7 : parseFloat f7 = .ok admission) :
    ∃ st : Student F,
      ParseStudentFromString parseFloat
        (f1 ++ " " ++ f2 ++ " " ++ f3 ++ " " ++ f4 ++ " " ++ f5 ++ " " ++ f6 ++ " " ++
          f7 ++ " " ++ f8 ++ " " ++ f9 ++ " " ++ f10) = .ok st ∧
      st.FirstName = f1 ∧ st.LastName = f2 ∧
      st.dptAt 1 = f8 ∧ st.dptAt 2 = f9 ∧ st.dptAt 3 = f10 := by
  refine ⟨{
    FirstName := f1
    LastName := f2
    DptsGrades := [
      (DepartmentPhysics, max ((physics + math) / 2) admission),
      (DepartmentChemistry, max chemistry admission),
      (DepartmentMathematics, max math admission),
      (DepartmentEngineering, max ((cs + math) / 2) admission),
      (DepartmentBiotech, max ((chemistry + physics) / 2) admission)]
    DptsByPriority := [(1, f8), (2, f9), (3, f10)] }, ?_, rfl, rfl, ?_, ?_, ?_⟩
  · unfold ParseStudentFromString
    rw [stringsSplit_fields _ _ _ _ _ _ _ _ _ _ hnospace]
    simp only [indexOrCrash, ParseFloat64OrFail, List.get?, bind, Except.bind, h3, h4, h5, h6,
      h7, pure, Except.pure]
  · simp [Student.dptAt, GoMap.get?]
  · simp [Student.dptAt, GoMap.get?]
  · simp [Student.dptAt, GoMap.get?]

/-- C14, refuted as stated: with two spaces between the first two of ten fields the
second piece is empty, so no parser of numerals yields an applicant with the last name
`Apt`, and on numerals the run ends in the fatal error; with a tab between them the line
has nine pieces and the run ends in the fatal error as well. -/
theorem parseStudentFromString_fields_counterexample :
    (∀ (parseFloat : String → Except String ℚ) (st : Student ℚ),
        ParseStudentFromString parseFloat
          "Ann  Apt 70 60 90 80 75 Mathematics Physics Biotech" = .ok st →
        st.LastName = "") ∧
      ParseStudentFromString sampleParseFloat
          "Ann  Apt 70 60 90 80 75 Mathematics Physics Biotech" =
        .error (.fatal "invalid syntax") ∧
      ParseStudentFromString sampleParseFloat
          "Ann\tApt 70 60 90 80 75 Mathematics Physics Biotech" =
        .error (.fatal "invalid syntax") := by
  refine ⟨fun parseFloat st h => ?_, rfl, rfl⟩
  have hsplit : stringsSplit "Ann  Apt 70 60 90 80 75 Mathematics Physics Biotech" =
      ["Ann", "", "Apt", "70", "60", "90", "80", "75", "Mathematics", "Physics", "Biotech"] := by
    decide
  unfold ParseStudentFromString at h
  rw [hsplit] at h
  simp only [indexOrCrash, ParseFloat64OrFail, List.get?, bind, Except.bind, pure,
    Except.pure] at h
  repeat' split at h
  all_goals cases h <;> rfl

theorem parseStudentFromString_fields_witness :
    (∀ f ∈ ["Ann", "Apt", "70", "60", "90", "80", "75", "Mathematics", "Physics", "Biotech"],
        ' ' ∉ f.toList) ∧
      sampleParseFloat "70" = .ok 70 ∧ sampleParseFloat "60" = .ok 60 ∧
      sampleParseFloat "90" = .ok 90 ∧ sampleParseFloat "80" = .ok 80 ∧
      sampleParseFloat "75" = .ok 75 ∧
      "Ann" ++ " " ++ "Apt" ++ " " ++ "70" ++ " " ++ "60" ++ " " ++ "90" ++ " " ++ "80" ++ " " ++
          "75" ++ " " ++ "Mathematics" ++ " " ++ "Physics" ++ " " ++ "Biotech" =
        "Ann Apt 70 60 90 80 75 Mathematics Physics Biotech" ∧
      ∃ st : Student ℚ,
        ParseStudentFromString sampleParseFloat
          ("Ann" ++ " " ++ "Apt" ++ " " ++ "70" ++ " " ++ "60" ++ " " ++ "90" ++ " " ++ "80" ++
            " " ++ "75" ++ " " ++ "Mathematics" ++ " " ++ "Physics" ++ " " ++ "Biotech") =
            .ok st ∧
          st.FirstName = "Ann" ∧ st.LastName = "Apt" ∧
          st.dptAt 1 = "Mathematics" ∧ st.dptAt 2 = "Physics" ∧ st.dptAt 3 = "Biotech" :=
  ⟨by decide, rfl, rfl, rfl, rfl, rfl, by decide,
    parseStudentFromString_fields sampleParseFloat
      "Ann" "Apt" "70" "60" "90" "80" "75" "Mathematics" "Physics" "Biotech" 70 60 90 80 75
      (by decide) rfl rfl rfl rfl rfl⟩

section MapRoundTrip
variable {F : Type}

theorem GoMap.get?_set {κ ν : Type} [DecidableEq κ] (m : GoMap κ ν) (k k' : κ) (v : ν) :
    GoMap.get? (GoMap.set m k v) k' = if k' = k then some v else GoMap.get? m k' := by
  by_cases h : k' = k
  · subst h
    rw [GoMap.get?_set_self, if_pos rfl]
  · rw [GoMap.get?_set_of_ne _ _ _ _ h, if_neg h]

theorem GoMap.keys_set_nodup {κ ν : Type} [DecidableEq κ] (m : GoMap κ ν) (k : κ) (v : ν)
    (h : (m.map Prod.fst).Nodup) : ((GoMap.set m k v).map Prod.fst).Nodup := by
  by_cases hk : k ∈ m.map Prod.fst
  · rw [GoMap.keys_set_of_mem m k v hk]
    exact h
  · rw [GoMap.set_of_not_mem m k v hk, List.map_append]
    exact List.Nodup.append h (by simp) (by simpa using hk)

theorem GoMap.mem_iff_get? {κ ν : Type} [DecidableEq κ] (m : GoMap κ ν) (k : κ) (v : ν)
    (h : (m.map Prod.fst).Nodup) : (k, v) ∈ m ↔ GoMap.get? m k = some v := by
  induction m with
  | nil => simp [GoMap.get?]
  | cons e rest ih =>
    obtain ⟨k₀, v₀⟩ := e
    rw [List.map_cons, List.nodup_cons] at h
    by_cases h₀ : k₀ = k
    · subst h₀
      simp only [GoMap.get?, if_true, List.mem_cons, Prod.mk.injEq, true_and, Option.some.injEq]
      constructor
      · rintro (hv | hmem)
        · exact hv.symm
        · exact absurd (List.mem_map_of_mem Prod.fst hmem) h.1
      · intro hv
        exact Or.inl hv.symm
    · simp only [GoMap.get?, if_neg h₀, List.mem_cons, Prod.mk.injEq]
      rw [← ih h.2]
      constructor
      · rintro (⟨hk, _⟩ | hmem)
        · exact absurd hk.symm h₀
        · exact hmem
      · exact Or.inr

theorem lastWithName_cons (s : Student F) (rest : List (Student F)) (name : FullName) :
    lastWithName (s :: rest) name =
      (lastWithName rest name).or (if s.FullName = name then some s else none) := by
  unfold lastWithName
  rw [List.reverse_cons, List.find?_append]
  congr 1
  by_cases h : s.FullName = name
  · simp [h]
  · simp [h]

theorem lastWithName_eq_some (pool : List (Student F)) (name : FullName) (s : Student F)
    (h : lastWithName pool name = some s) : s ∈ pool ∧ s.FullName = name := by
  unfold lastWithName at h
  exact ⟨List.mem_reverse.mp (List.mem_of_find?_eq_some h), by simpa using List.find?_some h⟩

theorem lastWithName_isSome (pool : List (Student F)) (name : FullName)
    (h : name ∈ pool.map Student.FullName) : ∃ s, lastWithName pool name = some s := by
  rw [List.mem_map] at h
  obtain ⟨a, ha, hname⟩ := h
  have : (lastWithName pool name).isSome = true := by
    unfold lastWithName
    rw [List.find?_isSome]
    exact ⟨a, List.mem_reverse.mpr ha, by simpa using hname⟩
  exact Option.isSome_iff_exists.mp this

theorem get?_foldl_set (pool : List (Student F)) (acc : GoMap FullName (Student F))
    (name : FullName) :
    GoMap.get?
        (pool.foldl (fun studentsMap student => GoMap.set studentsMap student.FullName student)
          acc) name =
      (lastWithName pool name).or (GoMap.get? acc name) := by
  induction pool generalizing acc with
  | nil => simp [lastWithName]
  | cons s rest ih =>
    rw [List.foldl_cons, ih, lastWithName_cons, GoMap.get?_set]
    cases lastWithName rest name with
    | some t => simp
    | none =>
      by_cases h : name = s.FullName
      · simp [h]
      · simp [h, Ne.symm h]

theorem keys_foldl_set_nodup (pool : List (Student F)) (acc : GoMap FullName (Student F))
    (h : (acc.map Prod.fst).Nodup) :
    ((pool.foldl (fun studentsMap student => GoMap.set studentsMap student.FullName student)
      acc).map Prod.fst).Nodup := by
  induction pool generalizing acc with
  | nil => exact h
  | cons s rest ih => exact ih _ (GoMap.keys_set_nodup acc _ _ h)

theorem mem_getMapOfStudentsFromSlice (pool : List (Student F)) (name : FullName)
    (s : Student F) :
    (name, s) ∈ GetMapOfStudentsFromSlice pool ↔ lastWithName pool name = some s := by
  unfold GetMapOfStudentsFromSlice
  rw [GoMap.mem_iff_get? _ _ _ (keys_foldl_set_nodup pool [] (by simp)), get?_foldl_set]
  simp [GoMap.get?]

theorem mem_poolAfter (ord : MapOrder (FullName × Student F)) (top pool : List (Student F))
    (s : Student F) :
    s ∈ poolAfter ord top pool ↔
      s.FullName ∉ top.map Student.FullName ∧ lastWithName pool s.FullName = some s := by
  unfold poolAfter GetSliceOfStudentsFromMap
  rw [foldl_delete, List.mem_map]
  constructor
  · rintro ⟨⟨k, v⟩, hmem, rfl⟩
    rw [(ord.enum_perm _).mem_iff, List.mem_filter, mem_getMapOfStudentsFromSlice] at hmem
    have hk := (lastWithName_eq_some pool k v hmem.1).2
    subst hk
    exact ⟨by simpa using hmem.2, hmem.1⟩
  · rintro ⟨hnot, hlast⟩
    refine ⟨(s.FullName, s), ?_, rfl⟩
    rw [(ord.enum_perm _).mem_iff, List.mem_filter, mem_getMapOfStudentsFromSlice]
    exact ⟨hlast, by simpa using hnot⟩

theorem poolAfter_names_nodup_general (ord : MapOrder (FullName × Student F))
    (top pool : List (Student F)) : ((poolAfter ord top pool).map Student.FullName).Nodup := by
  unfold poolAfter GetSliceOfStudentsFromMap
  rw [foldl_delete, List.map_map]
  have hkeys : ((GetMapOfStudentsFromSlice pool).map Prod.fst).Nodup :=
    keys_foldl_set_nodup pool [] (by simp)
  have hperm := ord.enum_perm
    ((GetMapOfStudentsFromSlice pool).filter
      (fun e => decide (e.1 ∉ top.map Student.FullName)))
  have hfun : ∀ e ∈ ord.enum ((GetMapOfStudentsFromSlice pool).filter
      (fun e => decide (e.1 ∉ top.map Student.FullName))),
      (Student.FullName ∘ Prod.snd) e = Prod.fst e := by
    rintro ⟨k, v⟩ hmem
    rw [hperm.mem_iff, List.mem_filter, mem_getMapOfStudentsFromSlice] at hmem
    exact (lastWithName_eq_some pool k v hmem.1).2
  rw [List.map_congr_left hfun, (hperm.map Prod.fst).nodup_iff]
  exact hkeys.sublist ((List.filter_sublist _).map _)

end MapRoundTrip

section PoolNames
variable {F : Type} [Float64 F]

/-- C15. After a step the full names present in the pool are those present before the
step that are not the full name of an applicant admitted in the step; in particular no
applicant admitted in the step is still in the pool. -/
theorem gather_pool_names [DecidableEq F] (srt : SliceSorter (Student F))
    (ord : MapOrder (FullName × Student F)) (d : DepartmentName) (p : Int)
    (de : DepartmentsEnrolment F) :
    (∀ name : FullName,
      name ∈ (GatherSuccessfulApplicantsForDepartment srt ord d p de).AllStudents.map
          Student.FullName ↔
        name ∈ de.AllStudents.map Student.FullName ∧
          name ∉ (admittedBy srt d p de).map Student.FullName) ∧
    (∀ a ∈ admittedBy srt d p de,
      a ∉ (GatherSuccessfulApplicantsForDepartment srt ord d p de).AllStudents) := by
  rw [allStudents_gather]
  split_ifs with h
  · rw [h]
    simp
  · refine ⟨fun name => ?_, fun a ha hmem => ?_⟩
    · rw [List.mem_map]
      constructor
      · rintro ⟨s, hs, rfl⟩
        rw [mem_poolAfter] at hs
        exact ⟨List.mem_map_of_mem _ (lastWithName_eq_some _ _ _ hs.2).1, hs.1⟩
      · rintro ⟨hin, hnot⟩
        obtain ⟨s, hs⟩ := lastWithName_isSome de.AllStudents name hin
        have hname := (lastWithName_eq_some _ _ _ hs).2
        refine ⟨s, ?_, hname⟩
        rw [mem_poolAfter, hname]
        exact ⟨hnot, hs⟩
    · rw [mem_poolAfter] at hmem
      exact hmem.1 (List.mem_map_of_mem _ ha)

/-- C17. Duplicate full names are merged, the last one winning: after a step that admits
at least one applicant the pool holds at most one applicant per full name, and it holds
exactly the applicants that were the last of their full name in the previous pool and
whose full name was not admitted. So an applicant who is not admitted and is followed in
the pool by another of the same full name is in the pool no more, and is in no roster it
was not in before. -/
theorem gather_last_write_wins [DecidableEq F] (srt : SliceSorter (Student F))
    (ord : MapOrder (FullName × Student F)) (d : DepartmentName) (p : Int)
    (de : DepartmentsEnrolment F) (hadm : admittedBy srt d p de ≠ []) :
    ((GatherSuccessfulApplicantsForDepartment srt ord d p de).AllStudents.map
      Student.FullName).Nodup ∧
    (∀ s : Student F,
      s ∈ (GatherSuccessfulApplicantsForDepartment srt ord d p de).AllStudents ↔
        s.FullName ∉ (admittedBy srt d p de).map Student.FullName ∧
          lastWithName de.AllStudents s.FullName = some s) ∧
    (∀ a : Student F, a ∉ admittedBy srt d p de →
      lastWithName de.AllStudents a.FullName ≠ some a →
        a ∉ (GatherSuccessfulApplicantsForDepartment srt ord d p de).AllStudents ∧
          ∀ d' : DepartmentName,
            a ∈ (GatherSuccessfulApplicantsForDepartment srt ord d p de).roster d' →
              a ∈ de.roster d') := by
  rw [allStudents_gather, if_neg hadm]
  refine ⟨poolAfter_names_nodup_general ord _ _, fun s => mem_poolAfter ord _ _ s,
    fun a hnot hlast => ⟨fun hmem => hlast ((mem_poolAfter ord _ _ a).mp hmem).2,
      fun d' hmem => ?_⟩⟩
  rw [roster_gather] at hmem
  split_ifs at hmem with hd
  · rcases List.mem_append.mp hmem with h | h
    · exact hd ▸ h
    · exact absurd h hnot
  · exact hmem

end PoolNames

theorem gather_pool_names_witness :
    admittedBy (insertionSorter _) "Mathematics" 1 (sampleState 1 [bobBay, annApt, annaLee]) =
        [annApt] ∧
      annApt ∉ (GatherSuccessfulApplicantsForDepartment (insertionSorter _)
        (MapOrder.reversed _) "Mathematics" 1
        (sampleState 1 [bobBay, annApt, annaLee])).AllStudents ∧
      (GatherSuccessfulApplicantsForDepartment (insertionSorter _) (MapOrder.reversed _)
        "Mathematics" 1 (sampleState 1 [bobBay, annApt, annaLee])).AllStudents =
          [annaLee, bobBay] :=
  ⟨by decide,
    (gather_pool_names (insertionSorter _) (MapOrder.reversed _) "Mathematics" 1
      (sampleState 1 [bobBay, annApt, annaLee])).2 annApt (by decide),
    by decide⟩

theorem gather_last_write_wins_witness :
    samRoe ≠ samRoeToo ∧ samRoe.FullName = samRoeToo.FullName ∧
      admittedBy (insertionSorter _) "Mathematics" 1
        (sampleState 1 [samRoe, samRoeToo, annApt]) = [annApt] ∧
      lastWithName [samRoe, samRoeToo, annApt] samRoe.FullName = some samRoeToo ∧
      (GatherSuccessfulApplicantsForDepartment (insertionSorter _) (MapOrder.insertion _)
        "Mathematics" 1 (sampleState 1 [samRoe, samRoeToo, annApt])).AllStudents =
          [samRoeToo] ∧
      (samRoe ∉ (GatherSuccessfulApplicantsForDepartment (insertionSorter _)
          (MapOrder.insertion _) "Mathematics" 1
          (sampleState 1 [samRoe, samRoeToo, annApt])).AllStudents ∧
        ∀ d' : DepartmentName,
          samRoe ∈ (GatherSuccessfulApplicantsForDepartment (insertionSorter _)
            (MapOrder.insertion _) "Mathematics" 1
            (sampleState 1 [samRoe, samRoeToo, annApt])).roster d' →
              samRoe ∈ (sampleState 1 [samRoe, samRoeToo, annApt]).roster d') ∧
      (ProceedEnrolment (insertionSorter _) (fun _ _ => MapOrder.insertion _) 3
        (sampleState 1 [samRoe, samRoeToo, annApt])).everyone = [annApt, samRoeToo] :=
  ⟨by decide, by decide, by decide, by decide, by decide,
    (gather_last_write_wins (insertionSorter _) (MapOrder.insertion _) "Mathematics" 1
      (sampleState 1 [samRoe, samRoeToo, annApt]) (by decide)).2.2 samRoe (by decide)
      (by decide),
    by decide⟩

section Fairness
variable {F : Type} [Float64 F]

theorem mem_allStudents_gather [DecidableEq F] (srt : SliceSorter (Student F))
    (ord : MapOrder (FullName × Student F)) (d : DepartmentName) (p : Int)
    (de : DepartmentsEnrolment F) (b : Student F)
    (hb : b ∈ (GatherSuccessfulApplicantsForDepartment srt ord d p de).AllStudents) :
    b ∈ de.AllStudents ∧ b ∉ admittedBy srt d p de := by
  rw [allStudents_gather] at hb
  split_ifs at hb with h
  · rw [h]
    exact ⟨hb, List.not_mem_nil _⟩
  · rw [mem_poolAfter] at hb
    exact ⟨(lastWithName_eq_some _ _ _ hb.2).1, fun hmem => hb.1 (List.mem_map_of_mem _ hmem)⟩

theorem admittedBy_eq_take (srt : SliceSorter (Student F)) (d : DepartmentName) (p : Int)
    (de : DepartmentsEnrolment F) (a : Student F) (ha : a ∈ admittedBy srt d p de) :
    admittedBy srt d p de =
      (GetStudentsByDepartment srt de.AllStudents d p).take
        (de.DepartmentsCapacity - ((de.roster d).length : Int)).toNat := by
  unfold admittedBy at ha ⊢
  split_ifs at ha ⊢ with h
  · exact absurd ha (List.not_mem_nil _)
  · rfl

/-- C19, as amended. Within one step no rejected candidate outranks an admitted one: when
the pool holds pairwise distinct full names and none of its applicants who list the
department at the priority has a NaN score for it, each applicant the step admits has a
higher score for the department than every applicant who lists the department at the
priority and is in the pool after the step, or the same score and a smaller full name. -/
theorem gather_admits_best [DecidableEq F] [LawfulFloat64 F] (srt : SliceSorter (Student F))
    (hsrt : srt.Sorts)
    (ord : MapOrder (FullName × Student F)) (d : DepartmentName) (p : Int)
    (de : DepartmentsEnrolment F) (hnodup : (de.AllStudents.map Student.FullName).Nodup)
    (hnan : ∀ s ∈ de.AllStudents, s.dptAt p = d → Float64.isNaN (s.grade d) = false)
    (a b : Student F) (ha : a ∈ admittedBy srt d p de)
    (hb : b ∈ (GatherSuccessfulApplicantsForDepartment srt ord d p de).AllStudents)
    (hbd : b.dptAt p = d) :
    Float64.gt (a.grade d) (b.grade d) = true ∨
      (Float64.eq (a.grade d) (b.grade d) = true ∧ a.FullName < b.FullName) := by
  rw [← lessByDptGrade_iff]
  obtain ⟨hbpool, hbnot⟩ := mem_allStudents_gather srt ord d p de b hb
  have htake := admittedBy_eq_take srt d p de a ha
  rw [htake] at ha hbnot
  have hbL : b ∈ GetStudentsByDepartment srt de.AllStudents d p := by
    rw [(getStudentsByDepartment_perm srt de.AllStudents d p).mem_iff, List.mem_filter]
    exact ⟨hbpool, by simpa using hbd⟩
  have hsorted :=
    getStudentsByDepartment_strictly_sorted srt hsrt de.AllStudents d p hnan hnodup
  rw [← List.take_append_drop (de.DepartmentsCapacity - ((de.roster d).length : Int)).toNat
    (GetStudentsByDepartment srt de.AllStudents d p)] at hsorted hbL
  rcases List.mem_append.mp hbL with h | h
  · exact absurd h hbnot
  · exact (List.pairwise_append.mp hsorted).2.2 a ha b h

end Fairness

/-- C19, refuted as stated: with capacity 1 and the pool Amy One (score 1), Bea Nan (score
NaN), Cal Two (score 2), all listing Physics first under distinct names, the step admits
Amy One, and Cal Two, whose score is higher, stays in the pool. -/
theorem gather_admits_best_counterexample :
    ((nanState 1 [amyOne, beaNan, calTwo]).AllStudents.map Student.FullName).Nodup ∧
      admittedBy (insertionSorter _) "Physics" 1 (nanState 1 [amyOne, beaNan, calTwo]) =
        [amyOne] ∧
      (GatherSuccessfulApplicantsForDepartment (insertionSorter _) (MapOrder.insertion _)
        "Physics" 1 (nanState 1 [amyOne, beaNan, calTwo])).AllStudents = [beaNan, calTwo] ∧
      calTwo.dptAt 1 = "Physics" ∧
      Float64.gt (amyOne.grade "Physics") (calTwo.grade "Physics") = false ∧
      Float64.eq (amyOne.grade "Physics") (calTwo.grade "Physics") = false ∧
      Float64.gt (calTwo.grade "Physics") (amyOne.grade "Physics") = true := by
  decide

theorem gather_admits_best_witness :
    (insertionSorter (Student ℚ)).Sorts ∧
      ((sampleState 2 [bobFox, annaLee, amyLee]).AllStudents.map Student.FullName).Nodup ∧
      (∀ s ∈ (sampleState 2 [bobFox, annaLee, amyLee]).AllStudents, s.dptAt 1 = "Physics" →
        Float64.isNaN (s.grade "Physics") = false) ∧
      admittedBy (insertionSorter _) "Physics" 1 (sampleState 2 [bobFox, annaLee, amyLee]) =
        [amyLee, annaLee] ∧
      (GatherSuccessfulApplicantsForDepartment (insertionSorter _) (MapOrder.reversed _)
        "Physics" 1 (sampleState 2 [bobFox, annaLee, amyLee])).AllStudents = [bobFox] ∧
      bobFox.dptAt 1 = "Physics" ∧
      (Float64.gt (annaLee.grade "Physics") (bobFox.grade "Physics") = true ∨
        (Float64.eq (annaLee.grade "Physics") (bobFox.grade "Physics") = true ∧
          annaLee.FullName < bobFox.FullName)) :=
  ⟨insertionSorter_sorts _, by decide, fun _ _ _ => rfl, by decide, by decide, by decide,
    gather_admits_best (insertionSorter _) (insertionSorter_sorts _) (MapOrder.reversed _)
      "Physics" 1 (sampleState 2 [bobFox, annaLee, amyLee]) (by decide) (fun _ _ _ => rfl)
      annaLee bobFox (by decide) (by decide) (by decide)⟩

section InitialState
variable {F : Type}

theorem roster_initial (c : Int) (students : List (Student F)) (d : DepartmentName) :
    (DepartmentsEnrolment.mk c [(DepartmentMathematics, []), (DepartmentPhysics, []),
      (DepartmentBiotech, []), (DepartmentChemistry, []), (DepartmentEngineering, [])]
      students).roster d = [] := by
  unfold DepartmentsEnrolment.roster
  simp only [GoMap.get?]
  split_ifs <;> rfl

end InitialState

section Choice
variable {F : Type} [Float64 F]

theorem mem_admittedBy [DecidableEq F]
    (srt : SliceSorter (Student F)) (d : DepartmentName) (p : Int)
    (de : DepartmentsEnrolment F) (a : Student F) (ha : a ∈ admittedBy srt d p de) :
    a ∈ de.AllStudents ∧ a.dptAt p = d := by
  have h := (admittedBy_subperm srt d p de).subset ha
  refine ⟨h, ?_⟩
  rw [admittedBy_eq_take srt d p de a ha] at ha
  have hL := List.mem_of_mem_take ha
  rw [(getStudentsByDepartment_perm srt de.AllStudents d p).mem_iff, List.mem_filter] at hL
  simpa using hL.2

/-- C20. Nobody is admitted to a department they did not choose: after
`CreateDepartmentsEnrolment` and `ProceedEnrolment n` every member of a roster is in the
roster of one of the five departments and lists that department as preference at some
priority `p` with `1 ≤ p ≤ n`; so an applicant with preferences at the priorities 1, 2
and 3 only, all three outside the five department names, is in no roster. -/
theorem roster_members_chose [DecidableEq F] (srt : SliceSorter (Student F))
    (ord : Int → DepartmentName → MapOrder (FullName × Student F)) (c : Int)
    (students : List (Student F)) (n : Int) (de₀ : DepartmentsEnrolment F)
    (hcreate : CreateDepartmentsEnrolment c students = .ok de₀) :
    (∀ (d : DepartmentName) (a : Student F), a ∈ (ProceedEnrolment srt ord n de₀).roster d →
      d ∈ ["Mathematics", "Physics", "Biotech", "Chemistry", "Engineering"] ∧
        ∃ p : Int, 1 ≤ p ∧ p ≤ n ∧ a.dptAt p = d) ∧
    (∀ a : Student F,
      a.dptAt 1 ∉ ["Mathematics", "Physics", "Biotech", "Chemistry", "Engineering"] →
      a.dptAt 2 ∉ ["Mathematics", "Physics", "Biotech", "Chemistry", "Engineering"] →
      a.dptAt 3 ∉ ["Mathematics", "Physics", "Biotech", "Chemistry", "Engineering"] →
      (∀ p : Int, p < 1 ∨ 3 < p → a.dptAt p = "") →
        ∀ d : DepartmentName, a ∉ (ProceedEnrolment srt ord n de₀).roster d) := by
  obtain ⟨_, rfl⟩ := create_eq_ok c students de₀ hcreate
  have key : ∀ (d : DepartmentName) (a : Student F),
      a ∈ (ProceedEnrolment srt ord n (DepartmentsEnrolment.mk c
        [(DepartmentMathematics, []), (DepartmentPhysics, []), (DepartmentBiotech, []),
          (DepartmentChemistry, []), (DepartmentEngineering, [])] students)).roster d →
      d ∈ ["Mathematics", "Physics", "Biotech", "Chemistry", "Engineering"] ∧
        ∃ p : Int, 1 ≤ p ∧ p ≤ n ∧ a.dptAt p = d := by
    rw [proceedEnrolment_eq_runSteps]
    refine runSteps_induction srt ord
      (fun de => ∀ (d : DepartmentName) (a : Student F), a ∈ de.roster d →
        d ∈ ["Mathematics", "Physics", "Biotech", "Chemistry", "Engineering"] ∧
          ∃ p : Int, 1 ≤ p ∧ p ≤ n ∧ a.dptAt p = d) (enrolmentSteps n)
      (fun st hst o de h d a ha => ?_) _ (fun d a ha => ?_)
    · obtain ⟨hd, h1, hn⟩ := mem_enrolmentSteps n st hst
      rw [roster_gather] at ha
      split_ifs at ha with hdd
      · rcases List.mem_append.mp ha with ha | ha
        · exact h d a (hdd ▸ ha)
        · subst hdd
          refine ⟨?_, st.1, h1, hn, (mem_admittedBy srt _ _ de a ha).2⟩
          simp only [dptsNames, DepartmentMathematics, DepartmentEngineering,
            DepartmentPhysics, DepartmentBiotech, DepartmentChemistry, List.mem_cons,
            List.mem_singleton, List.not_mem_nil, or_false] at hd ⊢
          tauto
      · exact h d a ha
    · rw [roster_initial] at ha
      exact absurd ha (List.not_mem_nil _)
  refine ⟨key, fun a h1 h2 h3 hrest d hmem => ?_⟩
  obtain ⟨hd, p, hp1, _, hpd⟩ := key d a hmem
  by_cases hp : p < 1 ∨ 3 < p
  · rw [hrest p hp] at hpd
    rw [← hpd] at hd
    exact absurd hd (by decide)
  · have hcases : p = 1 ∨ p = 2 ∨ p = 3 := by omega
    rcases hcases with rfl | rfl | rfl
    · exact h1 (hpd ▸ hd)
    · exact h2 (hpd ▸ hd)
    · exact h3 (hpd ▸ hd)

end Choice

theorem roster_members_chose_witness :
    CreateDepartmentsEnrolment 1 [artOnly, artFan, annApt] =
        .ok (sampleState 1 [artOnly, artFan, annApt]) ∧
      (ProceedEnrolment (insertionSorter _) (fun _ _ => MapOrder.insertion _) 3
        (sampleState 1 [artOnly, artFan, annApt])).roster "Physics" = [artFan] ∧
      ("Physics" ∈ ["Mathematics", "Physics", "Biotech", "Chemistry", "Engineering"] ∧
        ∃ p : Int, 1 ≤ p ∧ p ≤ 3 ∧ artFan.dptAt p = "Physics") ∧
      artOnly.dptAt 1 ∉ ["Mathematics", "Physics", "Biotech", "Chemistry", "Engineering"] ∧
      artOnly.dptAt 2 ∉ ["Mathematics", "Physics", "Biotech", "Chemistry", "Engineering"] ∧
      artOnly.dptAt 3 ∉ ["Mathematics", "Physics", "Biotech", "Chemistry", "Engineering"] ∧
      (∀ d : DepartmentName,
        artOnly ∉ (ProceedEnrolment (insertionSorter _) (fun _ _ => MapOrder.insertion _) 3
          (sampleState 1 [artOnly, artFan, annApt])).roster d) :=
  ⟨rfl, by decide,
    (roster_members_chose (insertionSorter _) (fun _ _ => MapOrder.insertion _) 1
      [artOnly, artFan, annApt] 3 (sampleState 1 [artOnly, artFan, annApt]) rfl).1
      "Physics" artFan (by decide),
    by decide, by decide, by decide,
    (roster_members_chose (insertionSorter _) (fun _ _ => MapOrder.insertion _) 1
      [artOnly, artFan, annApt] 3 (sampleState 1 [artOnly, artFan, annApt]) rfl).2
      artOnly (by decide) (by decide) (by decide)
      (fun p hp => by
        have h1 : ¬ (1 : Int) = p := by omega
        have h2 : ¬ (2 : Int) = p := by omega
        have h3 : ¬ (3 : Int) = p := by omega
        simp [Student.dptAt, artOnly, sampleStudent, GoMap.get?, h1, h2, h3])⟩

section NoWaste
variable {F : Type} [Float64 F]

theorem runSteps_append_cons (srt : SliceSorter (Student F))
    (ord : Int → DepartmentName → MapOrder (FullName × Student F))
    (pre post : List (Int × DepartmentName)) (st : Int × DepartmentName)
    (de : DepartmentsEnrolment F) :
    runSteps srt ord (pre ++ st :: post) de =
      runSteps srt ord post
        (GatherSuccessfulApplicantsForDepartment srt (ord st.1 st.2) st.2 st.1
          (runSteps srt ord pre de)) := by
  unfold runSteps
  rw [List.foldl_append, List.foldl_cons]

theorem mem_enrolmentSteps_of_bounds (n p : Int) (d : DepartmentName) (h1 : 1 ≤ p)
    (hn : p ≤ n) (hd : d ∈ dptsNames) : (p, d) ∈ enrolmentSteps n := by
  unfold enrolmentSteps
  rw [List.mem_flatMap]
  refine ⟨(p - 1).toNat, List.mem_range.mpr (by omega), ?_⟩
  rw [List.mem_map]
  refine ⟨d, hd, ?_⟩
  have : (((p - 1).toNat : Nat) : Int) + 1 = p := by omega
  rw [this]

theorem mem_allStudents_runSteps [DecidableEq F] (srt : SliceSorter (Student F))
    (ord : Int → DepartmentName → MapOrder (FullName × Student F))
    (steps : List (Int × DepartmentName)) (de : DepartmentsEnrolment F) (a : Student F)
    (ha : a ∈ (runSteps srt ord steps de).AllStudents) : a ∈ de.AllStudents := by
  induction steps generalizing de with
  | nil => exact ha
  | cons st rest ih =>
    exact (mem_allStudents_gather srt _ st.2 st.1 de a (ih _ ha)).1

theorem roster_length_runSteps [DecidableEq F] (srt : SliceSorter (Student F))
    (ord : Int → DepartmentName → MapOrder (FullName × Student F))
    (steps : List (Int × DepartmentName)) (de : DepartmentsEnrolment F) (d : DepartmentName) :
    (de.roster d).length ≤ ((runSteps srt ord steps de).roster d).length := by
  induction steps generalizing de with
  | nil => exact le_refl _
  | cons st rest ih =>
    refine le_trans ?_ (ih _)
    rw [roster_gather]
    split_ifs with h
    · rw [h, List.length_append]
      exact Nat.le_add_right _ _
    · exact le_refl _

theorem gather_fills_roster [DecidableEq F] (srt : SliceSorter (Student F))
    (ord : MapOrder (FullName × Student F)) (d : DepartmentName) (p : Int)
    (de : DepartmentsEnrolment F) (a : Student F)
    (hle : ((de.roster d).length : Int) ≤ de.DepartmentsCapacity)
    (ha : a ∈ (GatherSuccessfulApplicantsForDepartment srt ord d p de).AllStudents)
    (had : a.dptAt p = d) :
    (((GatherSuccessfulApplicantsForDepartment srt ord d p de).roster d).length : Int) =
      de.DepartmentsCapacity := by
  obtain ⟨hpool, hnot⟩ := mem_allStudents_gather srt ord d p de a ha
  rw [roster_gather, if_pos rfl, List.length_append]
  unfold admittedBy at hnot ⊢
  by_cases hcap : ((de.roster d).length : Int) ≥ de.DepartmentsCapacity
  · rw [if_pos hcap, List.length_nil]
    omega
  · rw [if_neg hcap] at hnot ⊢
    have haL : a ∈ GetStudentsByDepartment srt de.AllStudents d p := by
      rw [(getStudentsByDepartment_perm srt de.AllStudents d p).mem_iff, List.mem_filter]
      exact ⟨hpool, by simpa using had⟩
    have hlt : (de.DepartmentsCapacity - ((de.roster d).length : Int)).toNat <
        (GetStudentsByDepartment srt de.AllStudents d p).length := by
      by_contra hge
      rw [List.take_of_length_le (Nat.le_of_not_lt hge)] at hnot
      exact hnot haL
    rw [List.length_take, min_eq_left (le_of_lt hlt)]
    push_cast
    omega

/-- C18. No seat is wasted: for a capacity `c ≥ 0` and any applicants (their full names
pairwise distinct or not), `CreateDepartmentsEnrolment` builds a state, and after
`ProceedEnrolment n` (in particular `n = 3`) every one of the five departments that an
applicant still in the pool lists at a priority `p` with `1 ≤ p ≤ n` has a roster of
exactly `c` members. -/
theorem no_seat_wasted [DecidableEq F] (srt : SliceSorter (Student F))
    (ord : Int → DepartmentName → MapOrder (FullName × Student F)) (c : Int) (hc : 0 ≤ c)
    (students : List (Student F)) (n : Int) :
    ∃ de₀, CreateDepartmentsEnrolment c students = .ok de₀ ∧
      ∀ a ∈ (ProceedEnrolment srt ord n de₀).AllStudents, ∀ (p : Int) (d : DepartmentName),
        1 ≤ p → p ≤ n → d ∈ ["Mathematics", "Engineering", "Physics", "Biotech", "Chemistry"] →
          a.dptAt p = d →
            (((ProceedEnrolment srt ord n de₀).roster d).length : Int) = c := by
  refine ⟨_, create_ok c hc students, fun a ha p d h1 hn hd had => ?_⟩
  rw [proceedEnrolment_eq_runSteps] at ha ⊢
  have hstep : (p, d) ∈ enrolmentSteps n := mem_enrolmentSteps_of_bounds n p d h1 hn hd
  obtain ⟨pre, post, hsplit⟩ := List.append_of_mem hstep
  rw [hsplit, runSteps_append_cons] at ha ⊢
  dsimp only at ha ⊢
  have hinv := fun steps => runSteps_induction srt ord
    (fun de => de.DepartmentsCapacity = c ∧ ∀ d', ((de.roster d').length : Int) ≤ c) steps
    (fun st _ o de h => capped_gather srt c o st.2 st.1 de h)
  have hpre := hinv pre
    (DepartmentsEnrolment.mk c [(DepartmentMathematics, []), (DepartmentPhysics, []),
      (DepartmentBiotech, []), (DepartmentChemistry, []), (DepartmentEngineering, [])]
      students) ⟨rfl, fun d' => by rw [roster_initial]; simpa using hc⟩
  have hmid := capped_gather srt c (ord p d) d p _ hpre
  have hfinal := hinv post _ hmid
  have hamid := mem_allStudents_runSteps srt ord post _ a ha
  have hfull := gather_fills_roster srt (ord p d) d p _ a
    (by rw [hpre.1]; exact hpre.2 d) hamid had
  rw [hpre.1] at hfull
  have hmono := roster_length_runSteps srt ord post
    (GatherSuccessfulApplicantsForDepartment srt (ord p d) d p
      (runSteps srt ord pre (DepartmentsEnrolment.mk c [(DepartmentMathematics, []),
        (DepartmentPhysics, []), (DepartmentBiotech, []), (DepartmentChemistry, []),
        (DepartmentEngineering, [])] students))) d
  have hle := hfinal.2 d
  omega

end NoWaste

theorem no_seat_wasted_witness :
    (0 : Int) ≤ 1 ∧
      (ProceedEnrolment (insertionSorter _) (fun _ _ => MapOrder.reversed _) 3
        (sampleState 1 [annaLee, amyLee, bobFox, annApt, bobBay])).AllStudents = [bobBay] ∧
      bobBay.dptAt 2 = "Physics" ∧
      ∃ de₀, CreateDepartmentsEnrolment 1 [annaLee, amyLee, bobFox, annApt, bobBay] = .ok de₀ ∧
        ∀ a ∈ (ProceedEnrolment (insertionSorter _) (fun _ _ => MapOrder.reversed _) 3
            de₀).AllStudents, ∀ (p : Int) (d : DepartmentName),
          1 ≤ p → p ≤ 3 →
            d ∈ ["Mathematics", "Engineering", "Physics", "Biotech", "Chemistry"] →
              a.dptAt p = d →
                (((ProceedEnrolment (insertionSorter _) (fun _ _ => MapOrder.reversed _) 3
                  de₀).roster d).length : Int) = 1 :=
  ⟨by decide, by decide, by decide,
    no_seat_wasted (insertionSorter _) (fun _ _ => MapOrder.reversed _) 1 (by decide)
      [annaLee, amyLee, bobFox, annApt, bobBay] 3⟩

section WaveOrder
variable {F : Type} [Float64 F]

theorem getStudentsByDepartment_unique_of_filter [DecidableEq F] [LawfulFloat64 F]
    (srt₁ srt₂ : SliceSorter (Student F))
    (hsrt₁ : srt₁.Sorts) (hsrt₂ : srt₂.Sorts)
    (students₁ students₂ : List (Student F)) (d : DepartmentName) (p : Int)
    (hperm : (students₁.filter (fun student => decide (student.dptAt p = d))).Perm
      (students₂.filter (fun student => decide (student.dptAt p = d))))
    (hnan : ∀ s ∈ students₂, s.dptAt p = d → Float64.isNaN (s.grade d) = false)
    (hnodup₁ : (students₁.map Student.FullName).Nodup)
    (hnodup₂ : (students₂.map Student.FullName).Nodup) :
    GetStudentsByDepartment srt₁ students₁ d p = GetStudentsByDepartment srt₂ students₂ d p := by
  have hnan₁ : ∀ s ∈ students₁, s.dptAt p = d → Float64.isNaN (s.grade d) = false := by
    intro s hs hd
    have hmem : s ∈ students₂.filter (fun student => decide (student.dptAt p = d)) :=
      hperm.mem_iff.mp (List.mem_filter.mpr ⟨hs, by simpa using hd⟩)
    exact hnan s (List.mem_filter.mp hmem).1 hd
  have h₁ := getStudentsByDepartment_strictly_sorted srt₁ hsrt₁ students₁ d p hnan₁ hnodup₁
  have h₂ := getStudentsByDepartment_strictly_sorted srt₂ hsrt₂ students₂ d p hnan hnodup₂
  have hp : (GetStudentsByDepartment srt₁ students₁ d p).Perm
      (GetStudentsByDepartment srt₂ students₂ d p) :=
    ((getStudentsByDepartment_perm srt₁ students₁ d p).trans hperm).trans
      (getStudentsByDepartment_perm srt₂ students₂ d p).symm
  have hanti : IsAntisymm (Student F) (fun a b => lessByDptGrade d a b = true) :=
    ⟨fun a b hab hba => by
      have h := lessByDptGrade_trans d a b a hab hba
      rw [lessByDptGrade_irrefl] at h
      exact absurd h (by simp)⟩
  exact List.eq_of_perm_of_sorted hp h₁ h₂

theorem filter_allStudents_gather_of_ne [DecidableEq F] (srt : SliceSorter (Student F))
    (o : MapOrder (FullName × Student F)) (d d' : DepartmentName) (p : Int)
    (de : DepartmentsEnrolment F) (hne : d ≠ d')
    (hnodup : (de.AllStudents.map Student.FullName).Nodup) :
    ((GatherSuccessfulApplicantsForDepartment srt o d' p de).AllStudents.filter
      (fun student => decide (student.dptAt p = d))).Perm
      (de.AllStudents.filter (fun student => decide (student.dptAt p = d))) := by
  rw [allStudents_gather]
  split_ifs with h
  · exact List.Perm.refl _
  · refine ((poolAfter_perm_of_nodup o _ _ hnodup).filter _).trans ?_
    rw [List.filter_filter]
    apply List.Perm.of_eq
    apply List.filter_congr
    intro a ha
    by_cases had : a.dptAt p = d
    · have hnot : a.FullName ∉ (admittedBy srt d' p de).map Student.FullName := by
        intro hmem
        rw [List.mem_map] at hmem
        obtain ⟨t, ht, hname⟩ := hmem
        obtain ⟨htpool, htd⟩ := mem_admittedBy srt d' p de t ht
        have heq := List.inj_on_of_nodup_map hnodup htpool ha hname
        rw [heq, had] at htd
        exact hne htd
      simp [had, hnot]
    · simp [had]

theorem admittedBy_gather_of_ne [DecidableEq F] [LawfulFloat64 F]
    (srt : SliceSorter (Student F)) (hsrt : srt.Sorts)
    (o : MapOrder (FullName × Student F)) (d d' : DepartmentName) (p : Int)
    (de : DepartmentsEnrolment F) (hne : d ≠ d')
    (hnodup : (de.AllStudents.map Student.FullName).Nodup)
    (hnan : ∀ s ∈ de.AllStudents, s.dptAt p = d → Float64.isNaN (s.grade d) = false) :
    admittedBy srt d p (GatherSuccessfulApplicantsForDepartment srt o d' p de) =
      admittedBy srt d p de := by
  unfold admittedBy
  rw [roster_gather, if_neg hne, capacity_gather,
    getStudentsByDepartment_unique_of_filter srt srt hsrt hsrt _ de.AllStudents d p
      (filter_allStudents_gather_of_ne srt o d d' p de hne hnodup) hnan
      (allStudents_gather_names_nodup srt o d' p de hnodup) hnodup]

theorem roster_waveInOrder [DecidableEq F] [LawfulFloat64 F]
    (srt : SliceSorter (Student F)) (hsrt : srt.Sorts)
    (ord : DepartmentName → MapOrder (FullName × Student F)) (order : List DepartmentName)
    (p : Int) (de : DepartmentsEnrolment F)
    (hnodup : (de.AllStudents.map Student.FullName).Nodup) (horder : order.Nodup)
    (d : DepartmentName)
    (hnan : ∀ s ∈ de.AllStudents, s.dptAt p = d → Float64.isNaN (s.grade d) = false) :
    (waveInOrder srt ord order p de).roster d =
      if d ∈ order then de.roster d ++ admittedBy srt d p de else de.roster d := by
  induction order generalizing de with
  | nil => simp [waveInOrder]
  | cons d₁ rest ih =>
    rw [List.nodup_cons] at horder
    have hstep : waveInOrder srt ord (d₁ :: rest) p de =
        waveInOrder srt ord rest p
          (GatherSuccessfulApplicantsForDepartment srt (ord d₁) d₁ p de) := rfl
    rw [hstep, ih _ (allStudents_gather_names_nodup srt _ d₁ p de hnodup) horder.2
      (fun s hs => hnan s (mem_allStudents_gather_of_nodup srt _ d₁ p de hnodup s hs))]
    by_cases hd : d = d₁
    · subst hd
      rw [if_neg horder.1, roster_gather, if_pos rfl, if_pos (List.mem_cons_self _ _)]
    · rw [roster_gather, if_neg hd, admittedBy_gather_of_ne srt hsrt _ d d₁ p de hd hnodup hnan]
      by_cases hmem : d ∈ rest
      · rw [if_pos hmem, if_pos (List.mem_cons_of_mem _ hmem)]
      · rw [if_neg hmem, if_neg (by simp [hd, hmem])]

/-- Without NaN scores the order of the departments within a wave is irrelevant: when the
full names in the pool are pairwise distinct and no applicant who lists the department at
the priority has a NaN score for it, two waves that visit the same departments in two
orders, under any map orders, end with the same roster for the department. -/
theorem roster_waveInOrder_perm [DecidableEq F] [LawfulFloat64 F]
    (srt : SliceSorter (Student F)) (hsrt : srt.Sorts)
    (ord₁ ord₂ : DepartmentName → MapOrder (FullName × Student F))
    (order₁ order₂ : List DepartmentName) (p : Int) (de : DepartmentsEnrolment F)
    (hnodup : (de.AllStudents.map Student.FullName).Nodup) (horder : order₁.Perm order₂)
    (hnd : order₂.Nodup) (d : DepartmentName)
    (hnan : ∀ s ∈ de.AllStudents, s.dptAt p = d → Float64.isNaN (s.grade d) = false) :
    (waveInOrder srt ord₁ order₁ p de).roster d = (waveInOrder srt ord₂ order₂ p de).roster d := by
  rw [roster_waveInOrder srt hsrt ord₁ order₁ p de hnodup (horder.nodup_iff.mpr hnd) d hnan,
    roster_waveInOrder srt hsrt ord₂ order₂ p de hnodup hnd d hnan]
  by_cases h : d ∈ order₂
  · rw [if_pos h, if_pos (horder.mem_iff.mpr h)]
  · rw [if_neg h, if_neg (fun h' => h (horder.mem_iff.mp h'))]

end WaveOrder

/-- C16. The order in which a wave visits the departments matters: with capacity 1 and the
applicants May Math (Mathematics first), Amy One (Physics first, score 1) and Bea Nan
(Physics first, score NaN), full names pairwise distinct, the wave that visits Physics
before the other four departments ends with Amy One in Physics, and `ProceedEnrolmentWave`
with Bea Nan, when the pool that the Mathematics step rebuilds from the map comes out with
Bea Nan before Amy One. -/
theorem wave_order_matters :
    ([mayMath, amyOne, beaNan].map Student.FullName).Nodup ∧
      CreateDepartmentsEnrolment 1 [mayMath, amyOne, beaNan] =
        .ok (nanState 1 [mayMath, amyOne, beaNan]) ∧
      ["Physics", "Mathematics", "Engineering", "Biotech", "Chemistry"].Perm
        ["Mathematics", "Engineering", "Physics", "Biotech", "Chemistry"] ∧
      ["Physics", "Mathematics", "Engineering", "Biotech", "Chemistry"] ≠
        ["Mathematics", "Engineering", "Physics", "Biotech", "Chemistry"] ∧
      ProceedEnrolmentWave (insertionSorter _) (fun _ => MapOrder.reversed _) 1
          (nanState 1 [mayMath, amyOne, beaNan]) =
        waveInOrder (insertionSorter _) (fun _ => MapOrder.reversed _)
          ["Mathematics", "Engineering", "Physics", "Biotech", "Chemistry"] 1
          (nanState 1 [mayMath, amyOne, beaNan]) ∧
      (waveInOrder (insertionSorter _) (fun _ => MapOrder.reversed _)
          ["Physics", "Mathematics", "Engineering", "Biotech", "Chemistry"] 1
          (nanState 1 [mayMath, amyOne, beaNan])).roster "Physics" = [amyOne] ∧
      (ProceedEnrolmentWave (insertionSorter _) (fun _ => MapOrder.reversed _) 1
          (nanState 1 [mayMath, amyOne, beaNan])).roster "Physics" = [beaNan] ∧
      (waveInOrder (insertionSorter _) (fun _ => MapOrder.reversed _)
          ["Physics", "Mathematics", "Engineering", "Biotech", "Chemistry"] 1
          (nanState 1 [mayMath, amyOne, beaNan])).roster "Physics" ≠
        (ProceedEnrolmentWave (insertionSorter _) (fun _ => MapOrder.reversed _) 1
          (nanState 1 [mayMath, amyOne, beaNan])).roster "Physics" :=
  ⟨by decide, rfl, by decide, by decide, rfl, by decide, by decide, by decide⟩

section Text

theorem foldl_lines_append (acc : String) (lines : List String) :
    lines.foldl (fun r l => r ++ "\n" ++ l) acc =
      acc ++ lines.foldl (fun r l => r ++ "\n" ++ l) "" := by
  induction lines generalizing acc with
  | nil => simp
  | cons l rest ih =>
    rw [List.foldl_cons, List.foldl_cons, ih, ih ("" ++ "\n" ++ l)]
    simp [String.append_assoc]

theorem intercalate_go_eq_foldl (acc : String) (lines : List String) :
    String.intercalate.go acc "\n" lines = lines.foldl (fun r l => r ++ "\n" ++ l) acc := by
  induction lines generalizing acc with
  | nil => rfl
  | cons l rest ih =>
    rw [String.intercalate.go, ih, List.foldl_cons]

theorem foldl_lines_eq_intercalate (l : String) (rest : List String) :
    (l :: rest).foldl (fun r l => r ++ "\n" ++ l) "" =
      "\n" ++ String.intercalate "\n" (l :: rest) := by
  rw [String.intercalate, intercalate_go_eq_foldl, List.foldl_cons, foldl_lines_append,
    foldl_lines_append l]
  simp [String.append_assoc]

theorem foldl_lines_head (acc : String) (lines : List String) (c : Char) (t : List Char)
    (h : acc.toList = c :: t) :
    ∃ t', (lines.foldl (fun r l => r ++ "\n" ++ l) acc).toList = c :: t' := by
  rw [foldl_lines_append]
  exact ⟨t ++ (lines.foldl (fun r l => r ++ "\n" ++ l) "").toList, by
    simp only [String.toList] at h ⊢
    rw [String.data_append, h, List.cons_append]⟩

theorem foldl_lines_last (acc : String) (lines : List String)
    (hacc : ∃ pre c, acc.toList = pre ++ [c] ∧ unicodeIsSpace c = false)
    (hlines : ∀ l ∈ lines, ∃ pre c, l.toList = pre ++ [c] ∧ unicodeIsSpace c = false) :
    ∃ pre c, (lines.foldl (fun r l => r ++ "\n" ++ l) acc).toList = pre ++ [c] ∧
      unicodeIsSpace c = false := by
  induction lines generalizing acc with
  | nil => exact hacc
  | cons l rest ih =>
    rw [List.foldl_cons]
    apply ih
    · obtain ⟨pre, c, hl, hc⟩ := hlines l (List.mem_cons_self _ _)
      refine ⟨acc.toList ++ '\n' :: pre, c, ?_, hc⟩
      simp only [String.toList] at hl ⊢
      rw [String.data_append, String.data_append, hl]
      simp
    · exact fun l' hl' => hlines l' (List.mem_cons_of_mem _ hl')

theorem stringsTrimSpace_newline_append (t : String) (c : Char) (rest : List Char)
    (pre : List Char) (c' : Char) (hhead : t.toList = c :: rest)
    (hc : unicodeIsSpace c = false) (hlast : t.toList = pre ++ [c'])
    (hc' : unicodeIsSpace c' = false) : stringsTrimSpace ("\n" ++ t) = t := by
  unfold stringsTrimSpace
  have hdata : ("\n" ++ t).toList = '\n' :: t.toList := by
    simp only [String.toList]
    rw [String.data_append]
    rfl
  have hnl : unicodeIsSpace '\n' = true := by decide
  rw [hdata, List.dropWhile_cons, if_pos hnl, hhead, List.dropWhile_cons, if_neg (by simp [hc]),
    ← hhead, hlast, List.reverse_append, List.reverse_singleton, List.singleton_append,
    List.dropWhile_cons, if_neg (by simp [hc']), List.reverse_cons, List.reverse_reverse,
    ← hlast]
  rfl

theorem toList_ne_nil (s : String) (h : s ≠ "") : s.toList ≠ [] := by
  intro hnil
  apply h
  cases s with
  | mk data =>
    simp only [String.toList] at hnil
    rw [hnil]

end Text

section LineText
variable {F : Type} [Float64 F]

theorem foldl_students_eq_foldl_lines (fmt2 : F → String) (d : DepartmentName)
    (students : List (Student F)) :
    students.foldl
        (fun result student =>
          result ++ "\n" ++ student.FullName ++ " " ++ fmt2 (student.grade d)) "" =
      (students.map (studentLine fmt2 d)).foldl (fun r l => r ++ "\n" ++ l) "" := by
  rw [List.foldl_map]
  congr 1
  funext result student
  simp [studentLine, String.append_assoc]

theorem studentLine_head (fmt2 : F → String) (d : DepartmentName) (s : Student F)
    (hne : s.FirstName ≠ "") (hclean : ∀ ch ∈ s.FirstName.toList, unicodeIsSpace ch = false) :
    ∃ c t, (studentLine fmt2 d s).toList = c :: t ∧ unicodeIsSpace c = false := by
  obtain ⟨c, t, hct⟩ := List.exists_cons_of_ne_nil (toList_ne_nil _ hne)
  refine ⟨c, t ++ (" " ++ s.LastName ++ " " ++ fmt2 (s.grade d)).toList, ?_,
    hclean c (by rw [hct]; exact List.mem_cons_self _ _)⟩
  simp only [String.toList] at hct ⊢
  simp only [studentLine, Student.FullName, String.data_append, hct]
  simp

theorem studentLine_last (fmt2 : F → String) (d : DepartmentName) (s : Student F)
    (hfmt : ∀ x : F, fmt2 x ≠ "" ∧ ∀ ch ∈ (fmt2 x).toList, unicodeIsSpace ch = false) :
    ∃ pre c, (studentLine fmt2 d s).toList = pre ++ [c] ∧ unicodeIsSpace c = false := by
  obtain ⟨hne, hclean⟩ := hfmt (s.grade d)
  have hnil := toList_ne_nil _ hne
  refine ⟨(s.FullName ++ " ").toList ++ (fmt2 (s.grade d)).toList.dropLast,
    (fmt2 (s.grade d)).toList.getLast hnil, ?_, hclean _ (List.getLast_mem hnil)⟩
  rw [List.append_assoc, List.dropLast_append_getLast hnil]
  simp only [String.toList, studentLine, String.data_append]

theorem text_of_lines [DecidableEq F]
    (fmt2 : F → String) (d : DepartmentName) (students : List (Student F))
    (hfmt : ∀ x : F, fmt2 x ≠ "" ∧ ∀ ch ∈ (fmt2 x).toList, unicodeIsSpace ch = false)
    (hnames : ∀ s ∈ students, s.FirstName ≠ "" ∧ s.LastName ≠ "" ∧
      (∀ ch ∈ s.FirstName.toList, unicodeIsSpace ch = false) ∧
      (∀ ch ∈ s.LastName.toList, unicodeIsSpace ch = false)) :
    stringsTrimSpace ((students.map (studentLine fmt2 d)).foldl (fun r l => r ++ "\n" ++ l) "") =
        String.intercalate "\n" (students.map (studentLine fmt2 d)) ∧
      (∀ ch, (String.intercalate "\n" (students.map (studentLine fmt2 d))).toList.head? =
        some ch → unicodeIsSpace ch = false) ∧
      (∀ ch, (String.intercalate "\n" (students.map (studentLine fmt2 d))).toList.getLast? =
        some ch → unicodeIsSpace ch = false) := by
  cases students with
  | nil =>
    refine ⟨rfl, ?_, ?_⟩ <;> intro ch h <;> simp [String.intercalate] at h
  | cons s rest =>
    rw [List.map_cons, foldl_lines_eq_intercalate]
    obtain ⟨hne, _, hclean, _⟩ := hnames s (List.mem_cons_self _ _)
    obtain ⟨c, t, hct, hc⟩ := studentLine_head fmt2 d s hne hclean
    have hT : String.intercalate "\n" (studentLine fmt2 d s :: rest.map (studentLine fmt2 d)) =
        (rest.map (studentLine fmt2 d)).foldl (fun r l => r ++ "\n" ++ l)
          (studentLine fmt2 d s) := by
      rw [String.intercalate, intercalate_go_eq_foldl]
    obtain ⟨t', ht'⟩ := foldl_lines_head (studentLine fmt2 d s)
      (rest.map (studentLine fmt2 d)) c t hct
    obtain ⟨pre, c', hpre, hc'⟩ := foldl_lines_last (studentLine fmt2 d s)
      (rest.map (studentLine fmt2 d)) (studentLine_last fmt2 d s hfmt)
      (fun l hl => by
        rw [List.mem_map] at hl
        obtain ⟨s', _, rfl⟩ := hl
        exact studentLine_last fmt2 d s' hfmt)
    rw [← hT] at ht' hpre
    refine ⟨stringsTrimSpace_newline_append _ c t' pre c' ht' hc hpre hc', ?_, ?_⟩
    · intro ch h
      rw [ht'] at h
      simp only [List.head?_cons, Option.some.injEq] at h
      exact h ▸ hc
    · intro ch h
      rw [hpre] at h
      simp only [List.getLast?_append, List.getLast?_singleton, Option.or_some,
        Option.some.injEq] at h
      exact h ▸ hc'

end LineText

section Formatter
variable {F : Type} [Float64 F]

theorem getDptStudentsLines_eq [DecidableEq F] (srt : SliceSorter (Student F)) (fmt2 : F → String)
    (d : DepartmentName) (de : DepartmentsEnrolment F) (stored : List (Student F))
    (hstored : GoMap.get? de.DepartmentsStudents d = some stored) :
    GetDptStudentsLines srt fmt2 d de =
      .ok (stringsTrimSpace
          (((SortStudentsByDptGrade srt stored d).map (studentLine fmt2 d)).foldl
            (fun r l => r ++ "\n" ++ l) ""),
        { de with
          DepartmentsStudents :=
            GoMap.set de.DepartmentsStudents d (SortStudentsByDptGrade srt stored d) }) := by
  unfold GetDptStudentsLines
  rw [hstored]
  simp only
  rw [foldl_students_eq_foldl_lines]

/-- C12, as amended. For a department that has a roster in the state (each of the five
does in every state the program builds), whose members have non-empty first and last
names without whitespace and no NaN score for the department, `GetDptStudentsLines`
returns the roster re-sorted by the ranking rule, each member rendered as the full name, a
space and the score as `%.2f` renders it (a non-empty text without whitespace), the
renderings joined by single newlines, with no whitespace at the start or the end; for an
empty roster it returns the empty string. -/
theorem getDptStudentsLines_text [DecidableEq F] [LawfulFloat64 F] (srt : SliceSorter (Student F))
    (hsrt : srt.Sorts) (fmt2 : F → String)
    (d : DepartmentName) (de : DepartmentsEnrolment F) (stored : List (Student F))
    (hstored : GoMap.get? de.DepartmentsStudents d = some stored)
    (hfmt : ∀ x : F, fmt2 x ≠ "" ∧ ∀ ch ∈ (fmt2 x).toList, unicodeIsSpace ch = false)
    (hnames : ∀ s ∈ stored, s.FirstName ≠ "" ∧ s.LastName ≠ "" ∧
      (∀ ch ∈ s.FirstName.toList, unicodeIsSpace ch = false) ∧
      (∀ ch ∈ s.LastName.toList, unicodeIsSpace ch = false))
    (hnan : ∀ s ∈ stored, Float64.isNaN (s.grade d) = false) :
    ∃ (text : String) (de' : DepartmentsEnrolment F) (ranked : List (Student F)),
      GetDptStudentsLines srt fmt2 d de = .ok (text, de') ∧
      ranked.Perm stored ∧
      ranked.Pairwise (fun a b =>
        Float64.gt (a.grade d) (b.grade d) = true ∨
          (Float64.eq (a.grade d) (b.grade d) = true ∧ a.FullName ≤ b.FullName)) ∧
      text = String.intercalate "\n" (ranked.map (studentLine fmt2 d)) ∧
      (∀ ch, text.toList.head? = some ch → unicodeIsSpace ch = false) ∧
      (∀ ch, text.toList.getLast? = some ch → unicodeIsSpace ch = false) ∧
      (stored = [] → text = "") := by
  have hperm : (SortStudentsByDptGrade srt stored d).Perm stored := srt.sort_perm _ _
  have hsorted : (SortStudentsByDptGrade srt stored d).Pairwise (fun a b =>
      Float64.gt (a.grade d) (b.grade d) = true ∨
        (Float64.eq (a.grade d) (b.grade d) = true ∧ a.FullName ≤ b.FullName)) := by
    refine (hsrt _ stored (lessByDptGrade_strictWeakOn d stored hnan)).imp_of_mem
      (fun {a b} ha hb h => ?_)
    rw [lessByDptGrade_eq_false_iff d b a (hnan b (hperm.mem_iff.mp hb))
      (hnan a (hperm.mem_iff.mp ha))] at h
    rcases h with h | ⟨h, hn⟩
    · exact Or.inl h
    · exact Or.inr ⟨float64_eq_symm _ _ h, hn⟩
  obtain ⟨htext, hhead, hlast⟩ := text_of_lines fmt2 d (SortStudentsByDptGrade srt stored d)
    hfmt (fun s hs => hnames s (hperm.mem_iff.mp hs))
  refine ⟨_, _, SortStudentsByDptGrade srt stored d,
    getDptStudentsLines_eq srt fmt2 d de stored hstored, hperm, hsorted, htext, ?_, ?_, ?_⟩
  · rw [htext]
    exact hhead
  · rw [htext]
    exact hlast
  · intro hnil
    have hempty : SortStudentsByDptGrade srt stored d = [] := List.Perm.eq_nil (hnil ▸ hperm)
    rw [htext, hempty]
    rfl

theorem map_studentLine_eq_of_sorted [DecidableEq F] [LawfulFloat64 F] (fmt2 : F → String)
    (d : DepartmentName) (l₁ l₂ : List (Student F)) (hperm : l₁.Perm l₂)
    (hnan : ∀ s ∈ l₁, Float64.isNaN (s.grade d) = false)
    (h₁ : l₁.Pairwise (fun a b => lessByDptGrade d b a = false))
    (h₂ : l₂.Pairwise (fun a b => lessByDptGrade d b a = false)) :
    l₁.map (studentLine fmt2 d) = l₂.map (studentLine fmt2 d) := by
  have hkey : ∀ l : List (Student F), (∀ s ∈ l, Float64.isNaN (s.grade d) = false) →
      l.Pairwise (fun a b => lessByDptGrade d b a = false) →
      (l.map (fun s => (s.grade d, s.FullName))).Pairwise
        (fun k₁ k₂ : F × String => Float64.gt k₁.1 k₂.1 = true ∨
          (Float64.eq k₁.1 k₂.1 = true ∧ k₁.2 ≤ k₂.2)) := by
    intro l hl hs
    rw [List.pairwise_map]
    refine hs.imp_of_mem (fun {a b} ha hb h => ?_)
    rw [lessByDptGrade_eq_false_iff d b a (hl b hb) (hl a ha)] at h
    rcases h with h | ⟨h, hn⟩
    · exact Or.inl h
    · exact Or.inr ⟨float64_eq_symm _ _ h, hn⟩
  have hanti : IsAntisymm (F × String)
      (fun k₁ k₂ => Float64.gt k₁.1 k₂.1 = true ∨
        (Float64.eq k₁.1 k₂.1 = true ∧ k₁.2 ≤ k₂.2)) :=
    ⟨fun a b hab hba => by
      rcases hab with h | ⟨h, hn⟩ <;> rcases hba with h' | ⟨h', hn'⟩
      · rw [float64_gt_asymm _ _ h] at h'
        exact absurd h' (by simp)
      · rw [float64_eq_of_eq _ _ h', LawfulFloat64.gt_irrefl] at h
        exact absurd h (by simp)
      · rw [float64_eq_of_eq _ _ h, LawfulFloat64.gt_irrefl] at h'
        exact absurd h' (by simp)
      · exact Prod.ext (float64_eq_of_eq _ _ h) (le_antisymm hn hn')⟩
  have heq : l₁.map (fun s => (s.grade d, s.FullName)) =
      l₂.map (fun s => (s.grade d, s.FullName)) :=
    List.eq_of_perm_of_sorted (hperm.map _) (hkey l₁ hnan h₁)
      (hkey l₂ (fun s hs => hnan s (hperm.mem_iff.mpr hs)) h₂)
  have hline : studentLine fmt2 d =
      (fun k : F × String => k.2 ++ " " ++ fmt2 k.1) ∘ (fun s => (s.grade d, s.FullName)) := rfl
  rw [hline, ← List.map_map, ← List.map_map, heq]

/-- C13, as amended. Formatting is idempotent when no member of the roster has a NaN score
for the department: for a department that has a roster in the state (each of the five
does in every state the program builds), `GetDptStudentsLines` returns a text and leaves
the stored roster re-sorted, and called again on the state it leaves it returns the same
text. -/
theorem getDptStudentsLines_twice [DecidableEq F] [LawfulFloat64 F] (srt : SliceSorter (Student F))
    (hsrt : srt.Sorts) (fmt2 : F → String)
    (d : DepartmentName) (de : DepartmentsEnrolment F) (stored : List (Student F))
    (hstored : GoMap.get? de.DepartmentsStudents d = some stored)
    (hnan : ∀ s ∈ stored, Float64.isNaN (s.grade d) = false) :
    ∃ (text : String) (de' de'' : DepartmentsEnrolment F),
      GetDptStudentsLines srt fmt2 d de = .ok (text, de') ∧
      GoMap.get? de'.DepartmentsStudents d = some (SortStudentsByDptGrade srt stored d) ∧
      GetDptStudentsLines srt fmt2 d de' = .ok (text, de'') := by
  have hfirst := getDptStudentsLines_eq srt fmt2 d de stored hstored
  have hstored' : GoMap.get?
      (GoMap.set de.DepartmentsStudents d (SortStudentsByDptGrade srt stored d)) d =
      some (SortStudentsByDptGrade srt stored d) := GoMap.get?_set_self _ _ _
  have hsecond := getDptStudentsLines_eq srt fmt2 d
    { de with
      DepartmentsStudents :=
        GoMap.set de.DepartmentsStudents d (SortStudentsByDptGrade srt stored d) }
    (SortStudentsByDptGrade srt stored d) hstored'
  have hperm₁ : (SortStudentsByDptGrade srt stored d).Perm stored := srt.sort_perm _ _
  have hnan₁ : ∀ s ∈ SortStudentsByDptGrade srt stored d,
      Float64.isNaN (s.grade d) = false := fun s hs => hnan s (hperm₁.mem_iff.mp hs)
  have hperm₂ : (SortStudentsByDptGrade srt (SortStudentsByDptGrade srt stored d) d).Perm
      (SortStudentsByDptGrade srt stored d) := srt.sort_perm _ _
  have hlines := map_studentLine_eq_of_sorted fmt2 d
    (SortStudentsByDptGrade srt (SortStudentsByDptGrade srt stored d) d)
    (SortStudentsByDptGrade srt stored d) hperm₂
    (fun s hs => hnan₁ s (hperm₂.mem_iff.mp hs))
    (hsrt _ _ (lessByDptGrade_strictWeakOn d _ hnan₁))
    (hsrt _ _ (lessByDptGrade_strictWeakOn d _ hnan))
  rw [hlines] at hsecond
  exact ⟨_, _, _, hfirst, hstored', hsecond⟩

end Formatter

/-- C12, refuted as stated: with capacity 3 and the pool Amy One (score 1), Bea Nan (score
NaN), Cal Two (score 2), all listing Physics first, the Physics roster after the three
waves is Amy One, Bea Nan, Cal Two, and `GetDptStudentsLines` prints it in this order, the
score 1 before the score 2; no arrangement of this roster follows the ranking rule. -/
theorem getDptStudentsLines_text_counterexample :
    (ProceedEnrolment (insertionSorter _) (fun _ _ => MapOrder.insertion _) 3
        (nanState 3 [amyOne, beaNan, calTwo])).roster "Physics" = [amyOne, beaNan, calTwo] ∧
      (∀ s ∈ [amyOne, beaNan, calTwo], s.FirstName ≠ "" ∧ s.LastName ≠ "" ∧
        (∀ ch ∈ s.FirstName.toList, unicodeIsSpace ch = false) ∧
        (∀ ch ∈ s.LastName.toList, unicodeIsSpace ch = false)) ∧
      (GetDptStudentsLines (insertionSorter _) sampleFmt2Float "Physics"
          (ProceedEnrolment (insertionSorter _) (fun _ _ => MapOrder.insertion _) 3
            (nanState 3 [amyOne, beaNan, calTwo]))).map Prod.fst =
        .ok "Amy One 1.00\nBea Nan NaN\nCal Two 2.00" ∧
      ¬ ∃ ranked : List (Student SampleFloat),
        ranked.Perm [amyOne, beaNan, calTwo] ∧
        ranked.Pairwise (fun a b =>
          Float64.gt (a.grade "Physics") (b.grade "Physics") = true ∨
            (Float64.eq (a.grade "Physics") (b.grade "Physics") = true ∧
              a.FullName ≤ b.FullName)) := by
  refine ⟨by decide, by decide, rfl, ?_⟩
  rintro ⟨ranked, hperm, hranked⟩
  have hsymm : ranked.Pairwise (fun a b =>
      (Float64.gt (a.grade "Physics") (b.grade "Physics") = true ∨
        Float64.eq (a.grade "Physics") (b.grade "Physics") = true) ∨
      (Float64.gt (b.grade "Physics") (a.grade "Physics") = true ∨
        Float64.eq (b.grade "Physics") (a.grade "Physics") = true)) :=
    hranked.imp (fun h => Or.inl (h.imp id And.left))
  have h := hsymm.forall (fun _ _ h => h.symm)
    (hperm.mem_iff.mpr (show amyOne ∈ [amyOne, beaNan, calTwo] by decide))
    (hperm.mem_iff.mpr (show beaNan ∈ [amyOne, beaNan, calTwo] by decide)) (by decide)
  revert h
  decide

theorem getDptStudentsLines_text_witness :
    (insertionSorter (Student ℚ)).Sorts ∧
      GoMap.get? sampleRostered.DepartmentsStudents "Physics" =
        some [bobFox, annaLee, amyLee] ∧
      (∀ s ∈ [bobFox, annaLee, amyLee], Float64.isNaN (s.grade "Physics") = false) ∧
      (GetDptStudentsLines (insertionSorter _) sampleFmt2 "Physics" sampleRostered).map
          Prod.fst = .ok "Amy Lee 90.00\nAnna Lee 90.00\nBob Fox 85.00" ∧
      ∃ (text : String) (de' : DepartmentsEnrolment ℚ) (ranked : List (Student ℚ)),
        GetDptStudentsLines (insertionSorter _) sampleFmt2 "Physics" sampleRostered =
          .ok (text, de') ∧
        ranked.Perm [bobFox, annaLee, amyLee] ∧
        ranked.Pairwise (fun a b =>
          Float64.gt (a.grade "Physics") (b.grade "Physics") = true ∨
            (Float64.eq (a.grade "Physics") (b.grade "Physics") = true ∧
              a.FullName ≤ b.FullName)) ∧
        text = String.intercalate "\n" (ranked.map (studentLine sampleFmt2 "Physics")) ∧
        (∀ ch, text.toList.head? = some ch → unicodeIsSpace ch = false) ∧
        (∀ ch, text.toList.getLast? = some ch → unicodeIsSpace ch = false) ∧
        ([bobFox, annaLee, amyLee] = [] → text = "") :=
  ⟨insertionSorter_sorts _, by decide, fun _ _ => rfl, rfl,
    getDptStudentsLines_text (insertionSorter _) (insertionSorter_sorts _) sampleFmt2
      "Physics" sampleRostered [bobFox, annaLee, amyLee] (by decide)
      (fun x => by unfold sampleFmt2; split_ifs <;> decide) (by decide) (fun _ _ => rfl)⟩

/-- C13, refuted as stated: with capacity 13 and thirteen applicants who list Physics
first, twelve with the score 1 and Nan Roe with the score NaN, the Physics roster after the
three waves holds all thirteen, and two calls of `GetDptStudentsLines` in succession, with
no admission step in between, return two different texts: the first has Hal Roe in the
seventh line and Gus Roe in the tenth, the second the other way round. -/
theorem getDptStudentsLines_twice_counterexample :
    CreateDepartmentsEnrolment 13 thirteen = .ok (nanState 13 thirteen) ∧
      (ProceedEnrolment (pdqSorter _) (fun _ _ => MapOrder.insertion _) 3
          (nanState 13 thirteen)).roster "Physics" =
        [roe "Amy", roe "Bea", roe "Cal", roe "Dan", roe "Eve", roe "Gus", roe "Hal",
          roe "Ida", nanRoe, roe "Fay", roe "Jon", roe "Kim", roe "Lee"] ∧
      linesTwice (pdqSorter _) sampleFmt2Float "Physics"
          (ProceedEnrolment (pdqSorter _) (fun _ _ => MapOrder.insertion _) 3
            (nanState 13 thirteen)) =
        .ok (thirteenFirstText, thirteenSecondText) ∧
      thirteenFirstText ≠ thirteenSecondText :=
  ⟨rfl, by decide, rfl, by decide⟩

theorem getDptStudentsLines_twice_witness :
    (insertionSorter (Student ℚ)).Sorts ∧
      GoMap.get? sampleRostered.DepartmentsStudents "Physics" =
        some [bobFox, annaLee, amyLee] ∧
      (∀ s ∈ [bobFox, annaLee, amyLee], Float64.isNaN (s.grade "Physics") = false) ∧
      SortStudentsByDptGrade (insertionSorter _) [bobFox, annaLee, amyLee] "Physics" =
        [amyLee, annaLee, bobFox] ∧
      ∃ (text : String) (de' de'' : DepartmentsEnrolment ℚ),
        GetDptStudentsLines (insertionSorter _) sampleFmt2 "Physics" sampleRostered =
          .ok (text, de') ∧
        GoMap.get? de'.DepartmentsStudents "Physics" =
          some (SortStudentsByDptGrade (insertionSorter _) [bobFox, annaLee, amyLee]
            "Physics") ∧
        GetDptStudentsLines (insertionSorter _) sampleFmt2 "Physics" de' = .ok (text, de'') :=
  ⟨insertionSorter_sorts _, by decide, fun _ _ => rfl, by decide,
    getDptStudentsLines_twice (insertionSorter _) (insertionSorter_sorts _) sampleFmt2
      "Physics" sampleRostered [bobFox, annaLee, amyLee] (by decide) (fun _ _ => rfl)⟩

end UAP
